import Mathlib

/-!
# The Ramanujan-1910 series engine of `single_process/`

A shallow embedding of `mpfr_pi_impl_ramanujan_1910.c` (the recomputing
strategy) and `mpfr_pi_impl_ramanujan_1910_opt.c` (the incremental strategy),
followed by the theorems that settle the statements made about them.

Conventions of the embedding.

* `unsigned long` is a `Nat` kept below `2 ^ 64`; every C operation that can
  wrap is written with an explicit `% 2 ^ 64`.  `long` is an `Int`; a store of
  an `unsigned long` into a `long` goes through `to_long`.
* An `mpfr_t` is an element of a field `F`.  The two strategies are embedded
  twice.  In the first embedding the MPFR primitives are exact arithmetic;
  `mpfr_sqrt_ui` cannot be written in a general field, so the square-root
  primitive is a parameter `sqrt_ui : Nat → F` of `initialize`, and at `F = ℚ`
  (with `sqrt_ui_q`) every definition can be evaluated.  The statements about
  indices, digit estimates, control flow and the driver are made there: they
  do not depend on the values of the big floats.
* The second embedding (namespace `Rounded`) is the same code with every MPFR
  primitive followed by a rounding `rnd`.  At `rnd = CFG_MPFR_RND`, which is
  `MPFR_RNDD` at `CFG_MPFR_PREC` bits, and with `mpfr_sqrt_ui CFG_MPFR_PREC`
  for the square root, it is the arithmetic of the build over `ℚ`; every
  binary floating-point number is a rational.  The exponent range of MPFR is
  not modelled.  The statements about the digits of the constant, and about
  the constants of the two variants against each other, are made there.
* A division by zero is `0` in a field where MPFR gives an infinity or a NaN.
  Over `ℚ` and `ℝ` the divisors that occur (`(k!)^4 * 396^(4k)`, and
  `cmult * term_sum` once a term has been added) are not zero.
* `mpfr_init2` leaves a NaN in the variable.  Every temporary is written before
  it is read, so the embedding starts them at `0`.
* A failing `assert` aborts the process: `initialize` returns `none`.
* Allocation and the two `printf` inside `initialize` carry no state of the
  computation and are left out; the private part of the struct is the state.
  The function pointers of `struct mpfr_pi_impl` are fixed by the variant that
  built the struct: the type `mpfr_pi_impl` has one constructor per variant.
* The driver calls `compute_next_term` again and again on the same struct:
  `calls n` is the struct after `n` calls and `nth_call n` the outcome of call
  number `n`, counted from `0`.
* `make_pi`, `writeout_pi` and `main` of `mpfr_pi.c` record their effects as
  data: the lines written, the events in order, the way the run ends.  What the
  environment supplies (clock readings, `fopen`, the decimal formatter of MPFR,
  the result of `strtoul`) is a parameter.  Loops take a bound `fuel` on their
  iterations and return `none` when it runs out.
-/

namespace PI

/-! ## Machine integers (LP64) -/

/-- The constant `ULONG_MAX` of `<limits.h>`. -/
def ULONG_MAX : Nat := 2 ^ 64 - 1

/-- The constant `LONG_MAX` of `<limits.h>`. -/
def LONG_MAX : Int := 2 ^ 63 - 1

/-- The constant `LONG_MIN` of `<limits.h>`. -/
def LONG_MIN : Int := -2 ^ 63

/-- Conversion of a `long` to `unsigned long`: reduction modulo `2 ^ 64`. -/
def to_ulong (x : Int) : Nat := (x % 2 ^ 64).toNat

/-- Conversion of an `unsigned long` to `long` (two's complement). -/
def to_long (n : Nat) : Int := if n < 2 ^ 63 then (n : Int) else (n : Int) - 2 ^ 64

/-- Addition of two `unsigned long`. -/
def ulong_add (a b : Nat) : Nat := (a + b) % 2 ^ 64

/-- Subtraction of two `unsigned long`. -/
def ulong_sub (a b : Nat) : Nat := (a + (2 ^ 64 - b % 2 ^ 64)) % 2 ^ 64

/-- Multiplication of two `unsigned long`. -/
def ulong_mul (a b : Nat) : Nat := (a * b) % 2 ^ 64

/-! ## MPFR primitives, as exact arithmetic in a field -/

section mpfr

variable {F : Type} [Field F]

/-- Exact `mpfr_set_ui (rop, op, rnd)`. -/
def mpfr_set_ui (op : Nat) : F := (op : F)

/-- Exact `mpfr_mul_ui (rop, op1, op2, rnd)`. -/
def mpfr_mul_ui (op1 : F) (op2 : Nat) : F := op1 * (op2 : F)

/-- Exact `mpfr_add_ui (rop, op1, op2, rnd)`. -/
def mpfr_add_ui (op1 : F) (op2 : Nat) : F := op1 + (op2 : F)

/-- Exact `mpfr_div_ui (rop, op1, op2, rnd)`. -/
def mpfr_div_ui (op1 : F) (op2 : Nat) : F := op1 / (op2 : F)

/-- Exact `mpfr_ui_div (rop, op1, op2, rnd)`. -/
def mpfr_ui_div (op1 : Nat) (op2 : F) : F := (op1 : F) / op2

/-- Exact `mpfr_fac_ui (rop, op, rnd)`: the factorial of `op`. -/
def mpfr_fac_ui (op : Nat) : F := (op.factorial : F)

/-- Exact `mpfr_pow_ui (rop, op1, op2, rnd)`. -/
def mpfr_pow_ui (op1 : F) (op2 : Nat) : F := op1 ^ op2

/-- Exact `mpfr_mul (rop, op1, op2, rnd)`. -/
def mpfr_mul (op1 op2 : F) : F := op1 * op2

/-- Exact `mpfr_div (rop, op1, op2, rnd)`. -/
def mpfr_div (op1 op2 : F) : F := op1 / op2

/-- Exact `mpfr_add (rop, op1, op2, rnd)`. -/
def mpfr_add (op1 op2 : F) : F := op1 + op2

end mpfr

/-! ## Results of the two strategy entry points -/

/-- What `f_pi_compute_next_term` leaves behind: the updated struct, `*k_out`,
`*digits_out` and the returned `int`. -/
structure NextTerm (S : Type) where
  impl : S
  out_k : Nat
  digits_out : Int
  ret : Int

/-- What `f_pi_get_value` leaves behind: the updated struct, `*digits_out` and
the returned pointer, `none` for `NULL` and `some v` for a pointer to a
variable holding `v`. -/
structure Value (S F : Type) where
  impl : S
  digits_out : Int
  ret : Option F

/-! ## `mpfr_pi_impl_ramanujan_1910.c` -/

namespace Ramanujan1910

/-- The private part of `struct __mpfr_pi_impl`. -/
structure __mpfr_pi_impl (F : Type) where
  curr_k : Nat
  curr_digits : Int
  desired_digits : Int
  max_k : Nat
  term_dividend : F
  term_divisor : F
  term : F
  t0 : F
  term_sum : F
  cmult : F
  pi : F

/-- The macro `DIGITS_TO_K(d)`, `(((d) / 8) + 1)`, on a `long`. -/
def DIGITS_TO_K (d : Int) : Int := Int.tdiv d 8 + 1

/-- The macro `SLACK_K`, `DIGITS_TO_K(8)`. -/
def SLACK_K : Int := DIGITS_TO_K 8

/-- The macro `K_TO_DIGITS(k)`, `((k) >= SLACK_K ? ((k) * 8) - SLACK_K : 0L)`, on
an `unsigned long`; the result has type `unsigned long`. -/
def K_TO_DIGITS (k : Nat) : Nat :=
  if k ≥ to_ulong SLACK_K then ulong_sub (ulong_mul k 8) (to_ulong SLACK_K) else to_ulong 0

/-- The macro `__SAFE_LONG_MAX`, `(LONG_MAX / 2L)`. -/
def __SAFE_LONG_MAX : Int := Int.tdiv LONG_MAX 2

/-- The macro `__SAFE_ULONG_MAX`, `(ULONG_MAX / 2UL)`. -/
def __SAFE_ULONG_MAX : Nat := ULONG_MAX / 2

variable {F : Type} [Field F]

/-- The function `pi_impl_ramanujan_1910_initialize`; the second component is
`*out_max_k`. -/
def pi_impl_ramanujan_1910_initialize (sqrt_ui : Nat → F) (digits : Int) :
    Option (__mpfr_pi_impl F × Nat) :=
  let max_k := to_ulong (DIGITS_TO_K digits + SLACK_K)
  if ¬ digits < __SAFE_LONG_MAX then none
  else if ¬ max_k < __SAFE_ULONG_MAX then none
  else if ¬ max_k < __SAFE_ULONG_MAX / 4 then none
  else
    let cmult := sqrt_ui 2
    let cmult := mpfr_mul_ui cmult 2
    let cmult := mpfr_div_ui cmult 9801
    some ({ curr_k := 0
            curr_digits := 0
            desired_digits := digits
            max_k := max_k
            term_dividend := 0
            term_divisor := 0
            term := 0
            t0 := 0
            term_sum := mpfr_set_ui 0
            cmult := cmult
            pi := 0 }, max_k)

/-- The function `pi_impl_ramanujan_1910_compute_next_term`. -/
def pi_impl_ramanujan_1910_compute_next_term (impl : __mpfr_pi_impl F) : NextTerm (__mpfr_pi_impl F) :=
  let k := impl.curr_k
  let term_dividend : F := mpfr_fac_ui (ulong_mul 4 k)
  let t0 : F := mpfr_set_ui 26390
  let t0 := mpfr_mul_ui t0 k
  let t0 := mpfr_add_ui t0 1103
  let term_dividend := mpfr_mul term_dividend t0
  let term_divisor : F := mpfr_fac_ui k
  let term_divisor := mpfr_pow_ui term_divisor 4
  let t0 : F := mpfr_set_ui 396
  let t0 := mpfr_pow_ui t0 (ulong_mul 4 k)
  let term_divisor := mpfr_mul term_divisor t0
  let term := mpfr_div term_dividend term_divisor
  let term_sum := mpfr_add impl.term_sum term
  { impl := { impl with
              curr_k := ulong_add impl.curr_k 1
              term_dividend := term_dividend
              term_divisor := term_divisor
              term := term
              t0 := t0
              term_sum := term_sum }
    out_k := impl.curr_k
    digits_out := to_long (K_TO_DIGITS impl.curr_k)
    ret := if impl.curr_k ≥ impl.max_k then 1 else 0 }

/-- The function `pi_impl_ramanujan_1910_get_value`. -/
def pi_impl_ramanujan_1910_get_value (impl : __mpfr_pi_impl F) : Value (__mpfr_pi_impl F) F :=
  if impl.curr_k = 0 ∨ K_TO_DIGITS (ulong_sub impl.curr_k 1) = 0 then
    { impl := impl, digits_out := 0, ret := none }
  else
    let pi := mpfr_mul impl.cmult impl.term_sum
    let pi := mpfr_ui_div 1 pi
    { impl := { impl with pi := pi }
      digits_out := to_long (K_TO_DIGITS (ulong_sub impl.curr_k 1))
      ret := some pi }

/-- The struct after `n` successive calls of `compute_next_term`. -/
def calls : Nat → __mpfr_pi_impl F → __mpfr_pi_impl F
  | 0, impl => impl
  | n + 1, impl => (pi_impl_ramanujan_1910_compute_next_term (calls n impl)).impl

/-- The outcome of call number `n` (counted from `0`) in a run of successive
`compute_next_term` calls. -/
def nth_call (n : Nat) (impl : __mpfr_pi_impl F) : NextTerm (__mpfr_pi_impl F) :=
  pi_impl_ramanujan_1910_compute_next_term (calls n impl)

end Ramanujan1910

/-! ## `mpfr_pi_impl_ramanujan_1910_opt.c` -/

namespace Ramanujan1910Opt

/-- The private part of `struct __mpfr_pi_impl`, with the two cached
factorials and the cached `4 * k`. -/
structure __mpfr_pi_impl (F : Type) where
  curr_k : Nat
  curr_4k : Nat
  curr_digits : Int
  desired_digits : Int
  max_k : Nat
  curr_fact_k : F
  curr_fact_4k : F
  term_dividend : F
  term_divisor : F
  term : F
  t0 : F
  term_sum : F
  cmult : F
  pi : F

/-- The macro `DIGITS_TO_K(d)`, `(((d) / 8L) + 1L)`, on a `long`. -/
def DIGITS_TO_K (d : Int) : Int := Int.tdiv d 8 + 1

/-- The macro `SLACK_K`, `DIGITS_TO_K(16L)`. -/
def SLACK_K : Int := DIGITS_TO_K 16

/-- The macro `K_TO_DIGITS(k)`, `((k) >= SLACK_K ? ((k) * 8L) - SLACK_K : 0L)`,
on an `unsigned long`; the result has type `unsigned long`. -/
def K_TO_DIGITS (k : Nat) : Nat :=
  if k ≥ to_ulong SLACK_K then ulong_sub (ulong_mul k 8) (to_ulong SLACK_K) else to_ulong 0

/-- The macro `__SAFE_LONG_MAX`, `(LONG_MAX / 2L)`. -/
def __SAFE_LONG_MAX : Int := Int.tdiv LONG_MAX 2

/-- The macro `__SAFE_ULONG_MAX`, `(ULONG_MAX / 2UL)`. -/
def __SAFE_ULONG_MAX : Nat := ULONG_MAX / 2

variable {F : Type} [Field F]

/-- The function `pi_impl_ramanujan_1910_opt_initialize`; the second component
is `*out_max_k`. -/
def pi_impl_ramanujan_1910_opt_initialize (sqrt_ui : Nat → F) (digits : Int) :
    Option (__mpfr_pi_impl F × Nat) :=
  let max_k := to_ulong (DIGITS_TO_K digits + SLACK_K)
  if ¬ digits < __SAFE_LONG_MAX then none
  else if ¬ max_k < __SAFE_ULONG_MAX then none
  else if ¬ max_k < __SAFE_ULONG_MAX / 4 then none
  else
    let cmult := sqrt_ui 2
    let cmult := mpfr_mul_ui cmult 2
    let cmult := mpfr_div_ui cmult 9801
    some ({ curr_k := 0
            curr_4k := 0
            curr_digits := 0
            desired_digits := digits
            max_k := max_k
            curr_fact_k := mpfr_set_ui 1
            curr_fact_4k := mpfr_set_ui 1
            term_dividend := 0
            term_divisor := 0
            term := 0
            t0 := 0
            term_sum := mpfr_set_ui 0
            cmult := cmult
            pi := 0 }, max_k)

/-- The function `pi_impl_ramanujan_1910_opt_compute_next_term`. -/
def pi_impl_ramanujan_1910_opt_compute_next_term (impl : __mpfr_pi_impl F) : NextTerm (__mpfr_pi_impl F) :=
  let k := impl.curr_k
  let _4k := impl.curr_4k
  let term_dividend := mpfr_mul_ui impl.curr_fact_4k (ulong_add 1103 (ulong_mul 26390 k))
  let term_divisor := mpfr_pow_ui impl.curr_fact_k 4
  let t0 : F := mpfr_set_ui 396
  let t0 := mpfr_pow_ui t0 _4k
  let term_divisor := mpfr_mul term_divisor t0
  let term := mpfr_div term_dividend term_divisor
  let term_sum := mpfr_add impl.term_sum term
  let curr_k := ulong_add impl.curr_k 1
  let curr_4k := ulong_add impl.curr_4k 4
  let curr_fact_k := mpfr_mul_ui impl.curr_fact_k curr_k
  let curr_fact_4k := mpfr_mul_ui impl.curr_fact_4k curr_4k
  let curr_fact_4k := mpfr_mul_ui curr_fact_4k (ulong_sub curr_4k 1)
  let curr_fact_4k := mpfr_mul_ui curr_fact_4k (ulong_sub curr_4k 2)
  let curr_fact_4k := mpfr_mul_ui curr_fact_4k (ulong_sub curr_4k 3)
  { impl := { impl with
              curr_k := curr_k
              curr_4k := curr_4k
              curr_fact_k := curr_fact_k
              curr_fact_4k := curr_fact_4k
              term_dividend := term_dividend
              term_divisor := term_divisor
              term := term
              t0 := t0
              term_sum := term_sum }
    out_k := impl.curr_k
    digits_out := to_long (K_TO_DIGITS impl.curr_k)
    ret := if impl.curr_k ≥ impl.max_k then 1 else 0 }

/-- The function `pi_impl_ramanujan_1910_opt_get_value`. -/
def pi_impl_ramanujan_1910_opt_get_value (impl : __mpfr_pi_impl F) : Value (__mpfr_pi_impl F) F :=
  if impl.curr_k = 0 ∨ K_TO_DIGITS (ulong_sub impl.curr_k 1) = 0 then
    { impl := impl, digits_out := 0, ret := none }
  else
    let pi := mpfr_mul impl.cmult impl.term_sum
    let pi := mpfr_ui_div 1 pi
    { impl := { impl with pi := pi }
      digits_out := to_long (K_TO_DIGITS (ulong_sub impl.curr_k 1))
      ret := some pi }

/-- The struct after `n` successive calls of `compute_next_term`. -/
def calls : Nat → __mpfr_pi_impl F → __mpfr_pi_impl F
  | 0, impl => impl
  | n + 1, impl => (pi_impl_ramanujan_1910_opt_compute_next_term (calls n impl)).impl

/-- The outcome of call number `n` (counted from `0`) in a run of successive
`compute_next_term` calls. -/
def nth_call (n : Nat) (impl : __mpfr_pi_impl F) : NextTerm (__mpfr_pi_impl F) :=
  pi_impl_ramanujan_1910_opt_compute_next_term (calls n impl)

/-- A freshly initialised struct, as far as the recurrence is concerned: the
values `initialize` gives to the index, the cached quantities and the sum. -/
def Fresh (s : __mpfr_pi_impl F) : Prop :=
  s.curr_k = 0 ∧ s.curr_4k = 0 ∧ s.curr_fact_k = 1 ∧ s.curr_fact_4k = 1 ∧ s.term_sum = 0

end Ramanujan1910Opt

/-! ## The series of the header comments, and constants the statements use -/

/-- The summand `TERM(k)` of the formula in the header comment of both files:
`[(4k)! * (1103 + 26390 k)] / [(k!)^4 * 396^(4k)]`. -/
def TERM {F : Type} [Field F] (k : Nat) : F :=
  (((4 * k).factorial : F) * (1103 + 26390 * (k : F))) /
    (((k.factorial : F)) ^ 4 * (396 : F) ^ (4 * k))

/-- The largest index `k` at which the `unsigned long` expression
`1103UL + 26390UL * k` of the incremental variant does not wrap
(`699005080474026`). -/
def K_NOWRAP : Nat := (ULONG_MAX - 1103) / 26390

/-- A lower bound of the square root of two, to 55 decimals. -/
def SQRT2_LO : ℚ := 14142135623730950488016887242096980785696718753769480731 / 10 ^ 55

/-- A rational stand-in for `mpfr_sqrt_ui`, at which every definition can be
evaluated: the square root of two rounded down to 55 decimals (the program
only ever asks for the square root of two), the integer square root elsewhere. -/
def sqrt_ui_q (n : Nat) : ℚ := if n = 2 then SQRT2_LO else (Nat.sqrt n : ℚ)

/-- The struct `pi_impl_ramanujan_1910_initialize` builds for `digits = 50`,
over `ℚ` with `sqrt_ui_q`. -/
def Ramanujan1910.impl_50 : Ramanujan1910.__mpfr_pi_impl ℚ :=
  { curr_k := 0
    curr_digits := 0
    desired_digits := 50
    max_k := 9
    term_dividend := 0
    term_divisor := 0
    term := 0
    t0 := 0
    term_sum := 0
    cmult := sqrt_ui_q 2 * 2 / 9801
    pi := 0 }

/-- The struct `pi_impl_ramanujan_1910_opt_initialize` builds for
`digits = 50`, over `ℚ` with `sqrt_ui_q`. -/
def Ramanujan1910Opt.impl_50 : Ramanujan1910Opt.__mpfr_pi_impl ℚ :=
  { curr_k := 0
    curr_4k := 0
    curr_digits := 0
    desired_digits := 50
    max_k := 10
    curr_fact_k := 1
    curr_fact_4k := 1
    term_dividend := 0
    term_divisor := 0
    term := 0
    t0 := 0
    term_sum := 0
    cmult := sqrt_ui_q 2 * 2 / 9801
    pi := 0 }

/-! ## Sequences of calls on one struct -/

/-- The two entry points a caller may invoke on an initialised struct. -/
inductive Op where
  | compute_next_term
  | get_value
  deriving DecidableEq

namespace Ramanujan1910

variable {F : Type} [Field F]

/-- The struct after the calls `ops`, made in order. -/
def run : List Op → __mpfr_pi_impl F → __mpfr_pi_impl F
  | [], impl => impl
  | Op.compute_next_term :: ops, impl =>
      run ops (pi_impl_ramanujan_1910_compute_next_term impl).impl
  | Op.get_value :: ops, impl => run ops (pi_impl_ramanujan_1910_get_value impl).impl

/-- What the `compute_next_term` calls among `ops` hand back, in order:
`*k_out`, `*digits_out`, the return value, and `term_sum` after the call. -/
def results : List Op → __mpfr_pi_impl F → List (Nat × Int × Int × F)
  | [], _ => []
  | Op.compute_next_term :: ops, impl =>
      let r := pi_impl_ramanujan_1910_compute_next_term impl
      (r.out_k, r.digits_out, r.ret, r.impl.term_sum) :: results ops r.impl
  | Op.get_value :: ops, impl => results ops (pi_impl_ramanujan_1910_get_value impl).impl

end Ramanujan1910

namespace Ramanujan1910Opt

variable {F : Type} [Field F]

/-- The struct after the calls `ops`, made in order. -/
def run : List Op → __mpfr_pi_impl F → __mpfr_pi_impl F
  | [], impl => impl
  | Op.compute_next_term :: ops, impl =>
      run ops (pi_impl_ramanujan_1910_opt_compute_next_term impl).impl
  | Op.get_value :: ops, impl => run ops (pi_impl_ramanujan_1910_opt_get_value impl).impl

/-- What the `compute_next_term` calls among `ops` hand back, in order:
`*k_out`, `*digits_out`, the return value, and `term_sum` after the call. -/
def results : List Op → __mpfr_pi_impl F → List (Nat × Int × Int × F)
  | [], _ => []
  | Op.compute_next_term :: ops, impl =>
      let r := pi_impl_ramanujan_1910_opt_compute_next_term impl
      (r.out_k, r.digits_out, r.ret, r.impl.term_sum) :: results ops r.impl
  | Op.get_value :: ops, impl => results ops (pi_impl_ramanujan_1910_opt_get_value impl).impl

end Ramanujan1910Opt

/-! ## `subr.h` -/

/-- The function `nsecs_to_secs`. -/
def nsecs_to_secs (ns : Nat) : Nat := ns / (1000 * 1000 * 1000)

/-- The function `ts_secs_portion`. -/
def ts_secs_portion (ts : Nat) : Nat := nsecs_to_secs ts

/-! ## `mpfr_pi_generic.h` -/

/-- The configuration constant `CFG_MPFR_PREC`. -/
def CFG_MPFR_PREC : Nat := 10000000

/-- The function `mpfr_t_to_str`. `value` is `none` for a `NULL` pointer. `render v` is the whole
text `mpfr_snprintf` would form for `v` under the format `"%.10000000R*f"` with rounding
`MPFR_RNDD`; it is a parameter, as the MPFR formatter is not part of the repository. As
documented for `mpfr_snprintf (buf, n, ...)`, the first `n - 1` characters of that text are
written to `buf`, followed by a null character. The two assertions abort (`none`). -/
def mpfr_t_to_str {F : Type} (render : F → List Char) (value : Option F) (chars : Int) :
    Option (List Char) :=
  match value with
  | none => none
  | some v => if chars > 0 then some ((render v).take (chars.toNat - 1)) else none

/-- The generic `struct mpfr_pi_impl *` a caller holds: one of the two implementation structs.
The function pointers stored in its generic part are those of the variant that built it, so the
constructor stands for them. -/
inductive mpfr_pi_impl (F : Type) where
  | ramanujan_1910 (impl : Ramanujan1910.__mpfr_pi_impl F)
  | ramanujan_1910_opt (impl : Ramanujan1910Opt.__mpfr_pi_impl F)

/-- The function `pi_impl_ramanujan_1910_get_name`. -/
def Ramanujan1910.pi_impl_ramanujan_1910_get_name : String := "Ramanujan 1910 Formula"

/-- The function `pi_impl_ramanujan_1910_opt_get_name`. -/
def Ramanujan1910Opt.pi_impl_ramanujan_1910_opt_get_name : String :=
  "Ramanujan 1910 Formula (optimized)"

section dispatch

variable {F : Type} [Field F]

/-- The call `(*impl->f_impl_get_name)()`. -/
def f_impl_get_name : mpfr_pi_impl F → String
  | mpfr_pi_impl.ramanujan_1910 _ => Ramanujan1910.pi_impl_ramanujan_1910_get_name
  | mpfr_pi_impl.ramanujan_1910_opt _ => Ramanujan1910Opt.pi_impl_ramanujan_1910_opt_get_name

/-- The call `(*impl->f_pi_compute_next_term)(impl, &curr_k, &curr_digits)`. -/
def f_pi_compute_next_term : mpfr_pi_impl F → NextTerm (mpfr_pi_impl F)
  | mpfr_pi_impl.ramanujan_1910 impl =>
      let r := Ramanujan1910.pi_impl_ramanujan_1910_compute_next_term impl
      { impl := mpfr_pi_impl.ramanujan_1910 r.impl
        out_k := r.out_k
        digits_out := r.digits_out
        ret := r.ret }
  | mpfr_pi_impl.ramanujan_1910_opt impl =>
      let r := Ramanujan1910Opt.pi_impl_ramanujan_1910_opt_compute_next_term impl
      { impl := mpfr_pi_impl.ramanujan_1910_opt r.impl
        out_k := r.out_k
        digits_out := r.digits_out
        ret := r.ret }

/-- The call `(*impl->f_pi_get_value)(impl, &pi_value_digits)`. -/
def f_pi_get_value : mpfr_pi_impl F → Value (mpfr_pi_impl F) F
  | mpfr_pi_impl.ramanujan_1910 impl =>
      let r := Ramanujan1910.pi_impl_ramanujan_1910_get_value impl
      { impl := mpfr_pi_impl.ramanujan_1910 r.impl
        digits_out := r.digits_out
        ret := r.ret }
  | mpfr_pi_impl.ramanujan_1910_opt impl =>
      let r := Ramanujan1910Opt.pi_impl_ramanujan_1910_opt_get_value impl
      { impl := mpfr_pi_impl.ramanujan_1910_opt r.impl
        digits_out := r.digits_out
        ret := r.ret }

end dispatch

/-! ## `mpfr_pi.c` -/

/-- The macro `CHARACTERS_PER_LINE`. -/
def CHARACTERS_PER_LINE : Nat := 100

/-- The null character that ends a C string. -/
def NUL : Char := Char.ofNat 0

/-- The library function `strlen`, on the characters found from the pointer on: the number of
characters before the first null character (the end of the list stands for one). -/
def strlen (s : List Char) : Nat := (s.takeWhile (fun c => c != NUL)).length

/-- The text `fprintf (fd, "%s\n", buf)` writes after `strncpy (buf, src, cc)` and
`buf[cc] = '\0'`: the first `cc` characters of `src`, up to a null character if one comes
earlier, and a newline. -/
def strncpy_line (src : List Char) (cc : Nat) : List Char :=
  (src.take cc).takeWhile (fun c => c != NUL) ++ ['\n']

/-- The loop of `writeout_pi`, from index `i` with the lines `out` written so far; the result
is the final `i` and the lines. One unit of `fuel` is spent per iteration and `none` means
that it ran out. -/
def writeout_pi_loop (pi_string : List Char) (sz : Nat) :
    Nat → Nat → List (List Char) → Option (Nat × List (List Char))
  | 0, i, out => if i < sz then none else some (i, out)
  | fuel + 1, i, out =>
      if i < sz then
        let cc := CHARACTERS_PER_LINE
        let cc := if sz - i < cc then sz - i else cc
        writeout_pi_loop pi_string sz fuel (i + cc) (out ++ [strncpy_line (pi_string.drop i) cc])
      else some (i, out)

/-- The function `writeout_pi`: the lines written to `fd`, each with its newline, or `none` when
the closing `assert (i == sz)` fails. The loop is given `sz` units of fuel, one for every
character. -/
def writeout_pi (pi_string : List Char) : Option (List (List Char)) :=
  let sz := strlen pi_string
  match writeout_pi_loop pi_string sz sz 0 [] with
  | none => none
  | some (i, out) => if i = sz then some out else none

/-- The lines `make_pi` prints; a time stamp stands for the date or offset text formatted
from it. -/
inductive Printf where
  | unknown_algorithm (algorithm : String)
  | supported_algorithms
  | supported_ramanujan_1910
  | supported_ramanujan_1910_opt
  | algorithm (name : String)
  | start (date offset : Nat) (digits : Int) (max_k : Nat)
  | progress (date offset k k_delta max_k : Nat)
  | converged (date offset k max_k : Nat) (digits : Int)
  | finalization (date offset : Nat)
  | all_done (date offset : Nat) (filename : String)

/-- The effects of `make_pi`, in the order they happen. -/
inductive Event where
  | f_initialize (name : String) (digits : Int)
  | fopen (filename : String)
  | f_pi_compute_next_term (curr_k : Nat) (curr_digits : Int) (ret : Int)
  | f_pi_get_value (pi_value_digits : Int)
  | printf (line : Printf)
  | writeout_pi (pi_string : List Char) (lines : List (List Char))
  | f_deinitialize

/-- How a run of `make_pi` ends: it returns, it calls `exit`, an `assert` fails, or the bound
on the number of loop iterations given to the model is used up. -/
inductive Outcome where
  | returned (events : List Event)
  | exited (status : Int) (events : List Event)
  | aborted
  | out_of_fuel

section driver

variable {F : Type} [Field F]

/-- The variables `impl` and `max_k` of `make_pi` after the two `strcmp` tests, with the events
so far. `max_k` is not initialised in C until an `initialize` has run; it is `0` here. -/
structure Selected (F : Type) where
  events : List Event
  impl : Option (mpfr_pi_impl F)
  max_k : Nat

/-- The two `if (strcmp (algorithm, ...) == 0)` statements at the top of `make_pi`; `none` is
an assertion failing inside `initialize`. -/
def make_pi_select (sqrt_ui : Nat → F) (digits : Int) (algorithm : String) :
    Option (Selected F) :=
  let st : Selected F := { events := [], impl := none, max_k := 0 }
  let st1 : Option (Selected F) :=
    if algorithm = "ramanujan_1910" then
      match Ramanujan1910.pi_impl_ramanujan_1910_initialize sqrt_ui digits with
      | none => none
      | some (impl, max_k) =>
          some { events := st.events ++ [Event.f_initialize "ramanujan_1910" digits]
                 impl := some (mpfr_pi_impl.ramanujan_1910 impl)
                 max_k := max_k }
    else some st
  match st1 with
  | none => none
  | some st =>
      if algorithm = "ramanujan_1910_opt" then
        match Ramanujan1910Opt.pi_impl_ramanujan_1910_opt_initialize sqrt_ui digits with
        | none => none
        | some (impl, max_k) =>
            some { events := st.events ++ [Event.f_initialize "ramanujan_1910_opt" digits]
                   impl := some (mpfr_pi_impl.ramanujan_1910_opt impl)
                   max_k := max_k }
      else some st

/-- The variables of `make_pi` that the convergence loop reads and writes, the number of
`gettimestamp_nsecs` readings taken so far, and the events so far. -/
structure LoopState (F : Type) where
  impl : mpfr_pi_impl F
  last_k : Nat
  tss3 : Nat
  readings : Nat
  events : List Event

/-- The `for (;;)` loop of `make_pi`. `clock n` is what the `n`-th call of
`gettimestamp_nsecs` returns. One unit of `fuel` is spent per iteration and `none` means that it
ran out. -/
def make_pi_loop (clock : Nat → Nat) (time0 max_k : Nat) :
    Nat → LoopState F → Option (LoopState F)
  | 0, _ => none
  | fuel + 1, st =>
      let r := f_pi_compute_next_term st.impl
      let curr_k := r.out_k
      let curr_digits := r.digits_out
      let ret := r.ret
      let called := st.events ++ [Event.f_pi_compute_next_term curr_k curr_digits ret]
      let tss4 := clock st.readings
      let st1 : LoopState F :=
        if ts_secs_portion (ulong_sub tss4 st.tss3) ≥ 10 then
          { impl := r.impl
            last_k := curr_k
            tss3 := tss4
            readings := st.readings + 2
            events := called ++ [Event.printf (Printf.progress (clock (st.readings + 1))
              (ulong_sub tss4 time0) curr_k (ulong_sub curr_k st.last_k) max_k)] }
        else
          { impl := r.impl
            last_k := st.last_k
            tss3 := st.tss3
            readings := st.readings + 1
            events := called }
      if ret ≠ 0 then some { st1 with last_k := curr_k }
      else make_pi_loop clock time0 max_k fuel st1

/-- The function `make_pi`. Besides `digits` and `algorithm` it takes what the environment
supplies: the square-root primitive, the decimal formatter `render` (see `mpfr_t_to_str`),
whether `fopen` succeeds on a file name, the readings `clock` of `gettimestamp_nsecs` in call
order, the value `tss3` holds before its first assignment, and the loop bound `fuel` of the
model. The two `printf` inside `initialize` are not recorded. -/
def make_pi (sqrt_ui : Nat → F) (render : F → List Char) (fopen_ok : String → Bool)
    (clock : Nat → Nat) (tss3 : Nat) (fuel : Nat) (digits : Int) (algorithm : String) :
    Outcome :=
  match make_pi_select sqrt_ui digits algorithm with
  | none => Outcome.aborted
  | some sel =>
    match sel.impl with
    | none =>
        Outcome.exited 3 (sel.events ++
          [Event.printf (Printf.unknown_algorithm algorithm),
           Event.printf Printf.supported_algorithms,
           Event.printf Printf.supported_ramanujan_1910,
           Event.printf Printf.supported_ramanujan_1910_opt])
    | some impl =>
      let max_k := sel.max_k
      let filename := String.take ("FPI_" ++ toString digits ++ "_" ++ algorithm ++ ".txt") 255
      if fopen_ok filename = false then Outcome.aborted
      else
        let events := sel.events ++ [Event.fopen filename,
          Event.printf (Printf.algorithm (f_impl_get_name impl))]
        let time0 := clock 0
        let last_k := 0
        let events := events ++
          [Event.printf (Printf.start time0 (ulong_sub time0 time0) digits max_k)]
        match make_pi_loop clock time0 max_k fuel
            { impl := impl, last_k := last_k, tss3 := tss3, readings := 1, events := events } with
        | none => Outcome.out_of_fuel
        | some st =>
          let g := f_pi_get_value st.impl
          match g.ret with
          | none => Outcome.aborted
          | some pi_value =>
            let pi_value_digits := g.digits_out
            let tss4 := clock st.readings
            let events := st.events ++ [Event.f_pi_get_value pi_value_digits,
              Event.printf (Printf.converged (clock (st.readings + 1)) (ulong_sub tss4 time0)
                st.last_k max_k pi_value_digits)]
            let tss3 := tss4
            match mpfr_t_to_str render (some pi_value) (digits + 1) with
            | none => Outcome.aborted
            | some pi_value_s =>
              let time2 := clock (st.readings + 3)
              let events := events ++
                [Event.printf (Printf.finalization time2 (ulong_sub time2 tss3))]
              match writeout_pi pi_value_s with
              | none => Outcome.aborted
              | some lines =>
                Outcome.returned (events ++ [Event.writeout_pi pi_value_s lines,
                  Event.f_deinitialize,
                  Event.printf (Printf.all_done time2 (ulong_sub time2 tss3) filename)])

end driver

/-- What `main` does once the banner is printed: it leaves through `exit` after printing the
usage, the invalid-digits or the unsupported-digits message, or it calls `make_pi`. -/
inductive MainStep where
  | exit_usage (status : Int)
  | exit_invalid (status : Int) (digits : Int)
  | exit_unsupported (status : Int) (digits : Int) (max : Int)
  | make_pi (digits : Int) (algorithm : String)

/-- The bound `(long)((float)CFG_MPFR_PREC / 3.5) - 100L` of `main`. The quotient is formed in
floating point; `10000000` is exact as a `float`, and the `double` nearest to `10000000 / 3.5 =
2857142.857...` has the integer part of the exact quotient, which the cast to `long` keeps. -/
def MAX_DIGITS : Int := Int.tdiv (10 * (CFG_MPFR_PREC : Int)) 35 - 100

/-- The function `main`, from the test of `argc` on. `argv1` is what `strtoul (argv[1], NULL, 0)`
returns, an `unsigned long`, which the assignment to `digits` converts to `long`. -/
def main (argc : Int) (argv1 : Nat) (argv2 : String) : MainStep :=
  if argc ≠ 3 then MainStep.exit_usage 1
  else
    let digits := to_long argv1
    if digits ≤ 0 then MainStep.exit_invalid 1 digits
    else if digits ≥ MAX_DIGITS then MainStep.exit_unsupported 1 digits MAX_DIGITS
    else MainStep.make_pi digits argv2

/-! ## What a run of the convergence loop leaves to observe -/

/-- Whether an event is a progress line, the one line the convergence loop of `make_pi`
prints. -/
def Event.is_progress : Event → Bool
  | Event.printf (Printf.progress _ _ _ _ _) => true
  | _ => false

/-- The events that are left when the progress lines are taken out. -/
def without_progress (events : List Event) : List Event :=
  events.filter (fun e => !e.is_progress)

/-! ## A formatter for evaluation -/

/-- A decimal formatter over `ℚ` at which `mpfr_t_to_str` can be evaluated, for a value
`0 <= v`: the integer part, a point and `decimals` decimals, rounded down as under
`MPFR_RNDD`. -/
def render_q (decimals : Nat) (v : ℚ) : List Char :=
  Nat.toDigits 10 v.floor.toNat ++ ['.'] ++
    (List.range decimals).map (fun j => Nat.digitChar ((v * 10 ^ (j + 1)).floor.toNat % 10))

/-! ## The same two strategies with the rounding of MPFR -/

namespace Rounded

section primitives

variable {F : Type} [Field F] (rnd : F → F)

/-- The primitive `mpfr_set_ui (rop, op, rnd)`. -/
def mpfr_set_ui (op : Nat) : F := rnd (op : F)

/-- The primitive `mpfr_mul_ui (rop, op1, op2, rnd)`. -/
def mpfr_mul_ui (op1 : F) (op2 : Nat) : F := rnd (op1 * (op2 : F))

/-- The primitive `mpfr_add_ui (rop, op1, op2, rnd)`. -/
def mpfr_add_ui (op1 : F) (op2 : Nat) : F := rnd (op1 + (op2 : F))

/-- The primitive `mpfr_div_ui (rop, op1, op2, rnd)`. -/
def mpfr_div_ui (op1 : F) (op2 : Nat) : F := rnd (op1 / (op2 : F))

/-- The primitive `mpfr_ui_div (rop, op1, op2, rnd)`. -/
def mpfr_ui_div (op1 : Nat) (op2 : F) : F := rnd ((op1 : F) / op2)

/-- The primitive `mpfr_fac_ui (rop, op, rnd)`. -/
def mpfr_fac_ui (op : Nat) : F := rnd (op.factorial : F)

/-- The primitive `mpfr_pow_ui (rop, op1, op2, rnd)`. -/
def mpfr_pow_ui (op1 : F) (op2 : Nat) : F := rnd (op1 ^ op2)

/-- The primitive `mpfr_mul (rop, op1, op2, rnd)`. -/
def mpfr_mul (op1 op2 : F) : F := rnd (op1 * op2)

/-- The primitive `mpfr_div (rop, op1, op2, rnd)`. -/
def mpfr_div (op1 op2 : F) : F := rnd (op1 / op2)

/-- The primitive `mpfr_add (rop, op1, op2, rnd)`. -/
def mpfr_add (op1 op2 : F) : F := rnd (op1 + op2)

end primitives

namespace Ramanujan1910

variable {F : Type} [Field F] (rnd : F → F)

/-- The function `pi_impl_ramanujan_1910_initialize`, every MPFR call rounding with `rnd`. -/
def pi_impl_ramanujan_1910_initialize (sqrt_ui : Nat → F) (digits : Int) :
    Option (PI.Ramanujan1910.__mpfr_pi_impl F × Nat) :=
  let max_k := to_ulong (PI.Ramanujan1910.DIGITS_TO_K digits + PI.Ramanujan1910.SLACK_K)
  if ¬ digits < PI.Ramanujan1910.__SAFE_LONG_MAX then none
  else if ¬ max_k < PI.Ramanujan1910.__SAFE_ULONG_MAX then none
  else if ¬ max_k < PI.Ramanujan1910.__SAFE_ULONG_MAX / 4 then none
  else
    let cmult := sqrt_ui 2
    let cmult := mpfr_mul_ui rnd cmult 2
    let cmult := mpfr_div_ui rnd cmult 9801
    some ({ curr_k := 0
            curr_digits := 0
            desired_digits := digits
            max_k := max_k
            term_dividend := 0
            term_divisor := 0
            term := 0
            t0 := 0
            term_sum := mpfr_set_ui rnd 0
            cmult := cmult
            pi := 0 }, max_k)

/-- The function `pi_impl_ramanujan_1910_compute_next_term`, every MPFR call rounding with
`rnd`. -/
def pi_impl_ramanujan_1910_compute_next_term (impl : PI.Ramanujan1910.__mpfr_pi_impl F) :
    NextTerm (PI.Ramanujan1910.__mpfr_pi_impl F) :=
  let k := impl.curr_k
  let term_dividend : F := mpfr_fac_ui rnd (ulong_mul 4 k)
  let t0 : F := mpfr_set_ui rnd 26390
  let t0 := mpfr_mul_ui rnd t0 k
  let t0 := mpfr_add_ui rnd t0 1103
  let term_dividend := mpfr_mul rnd term_dividend t0
  let term_divisor : F := mpfr_fac_ui rnd k
  let term_divisor := mpfr_pow_ui rnd term_divisor 4
  let t0 : F := mpfr_set_ui rnd 396
  let t0 := mpfr_pow_ui rnd t0 (ulong_mul 4 k)
  let term_divisor := mpfr_mul rnd term_divisor t0
  let term := mpfr_div rnd term_dividend term_divisor
  let term_sum := mpfr_add rnd impl.term_sum term
  { impl := { impl with
              curr_k := ulong_add impl.curr_k 1
              term_dividend := term_dividend
              term_divisor := term_divisor
              term := term
              t0 := t0
              term_sum := term_sum }
    out_k := impl.curr_k
    digits_out := to_long (PI.Ramanujan1910.K_TO_DIGITS impl.curr_k)
    ret := if impl.curr_k ≥ impl.max_k then 1 else 0 }

/-- The function `pi_impl_ramanujan_1910_get_value`, every MPFR call rounding with `rnd`. -/
def pi_impl_ramanujan_1910_get_value (impl : PI.Ramanujan1910.__mpfr_pi_impl F) :
    Value (PI.Ramanujan1910.__mpfr_pi_impl F) F :=
  if impl.curr_k = 0 ∨ PI.Ramanujan1910.K_TO_DIGITS (ulong_sub impl.curr_k 1) = 0 then
    { impl := impl, digits_out := 0, ret := none }
  else
    let pi := mpfr_mul rnd impl.cmult impl.term_sum
    let pi := mpfr_ui_div rnd 1 pi
    { impl := { impl with pi := pi }
      digits_out := to_long (PI.Ramanujan1910.K_TO_DIGITS (ulong_sub impl.curr_k 1))
      ret := some pi }

/-- The struct after `n` successive calls of `compute_next_term`. -/
def calls : Nat → PI.Ramanujan1910.__mpfr_pi_impl F → PI.Ramanujan1910.__mpfr_pi_impl F
  | 0, impl => impl
  | n + 1, impl => (pi_impl_ramanujan_1910_compute_next_term rnd (calls n impl)).impl

/-- The outcome of call number `n` (counted from `0`) in a run of successive
`compute_next_term` calls. -/
def nth_call (n : Nat) (impl : PI.Ramanujan1910.__mpfr_pi_impl F) :
    NextTerm (PI.Ramanujan1910.__mpfr_pi_impl F) :=
  pi_impl_ramanujan_1910_compute_next_term rnd (calls rnd n impl)

end Ramanujan1910

namespace Ramanujan1910Opt

variable {F : Type} [Field F] (rnd : F → F)

/-- The function `pi_impl_ramanujan_1910_opt_initialize`, every MPFR call rounding with `rnd`. -/
def pi_impl_ramanujan_1910_opt_initialize (sqrt_ui : Nat → F) (digits : Int) :
    Option (PI.Ramanujan1910Opt.__mpfr_pi_impl F × Nat) :=
  let max_k := to_ulong (PI.Ramanujan1910Opt.DIGITS_TO_K digits + PI.Ramanujan1910Opt.SLACK_K)
  if ¬ digits < PI.Ramanujan1910Opt.__SAFE_LONG_MAX then none
  else if ¬ max_k < PI.Ramanujan1910Opt.__SAFE_ULONG_MAX then none
  else if ¬ max_k < PI.Ramanujan1910Opt.__SAFE_ULONG_MAX / 4 then none
  else
    let cmult := sqrt_ui 2
    let cmult := mpfr_mul_ui rnd cmult 2
    let cmult := mpfr_div_ui rnd cmult 9801
    some ({ curr_k := 0
            curr_4k := 0
            curr_digits := 0
            desired_digits := digits
            max_k := max_k
            curr_fact_k := mpfr_set_ui rnd 1
            curr_fact_4k := mpfr_set_ui rnd 1
            term_dividend := 0
            term_divisor := 0
            term := 0
            t0 := 0
            term_sum := mpfr_set_ui rnd 0
            cmult := cmult
            pi := 0 }, max_k)

/-- The function `pi_impl_ramanujan_1910_opt_compute_next_term`, every MPFR call rounding with
`rnd`. -/
def pi_impl_ramanujan_1910_opt_compute_next_term (impl : PI.Ramanujan1910Opt.__mpfr_pi_impl F) :
    NextTerm (PI.Ramanujan1910Opt.__mpfr_pi_impl F) :=
  let k := impl.curr_k
  let _4k := impl.curr_4k
  let term_dividend := mpfr_mul_ui rnd impl.curr_fact_4k (ulong_add 1103 (ulong_mul 26390 k))
  let term_divisor := mpfr_pow_ui rnd impl.curr_fact_k 4
  let t0 : F := mpfr_set_ui rnd 396
  let t0 := mpfr_pow_ui rnd t0 _4k
  let term_divisor := mpfr_mul rnd term_divisor t0
  let term := mpfr_div rnd term_dividend term_divisor
  let term_sum := mpfr_add rnd impl.term_sum term
  let curr_k := ulong_add impl.curr_k 1
  let curr_4k := ulong_add impl.curr_4k 4
  let curr_fact_k := mpfr_mul_ui rnd impl.curr_fact_k curr_k
  let curr_fact_4k := mpfr_mul_ui rnd impl.curr_fact_4k curr_4k
  let curr_fact_4k := mpfr_mul_ui rnd curr_fact_4k (ulong_sub curr_4k 1)
  let curr_fact_4k := mpfr_mul_ui rnd curr_fact_4k (ulong_sub curr_4k 2)
  let curr_fact_4k := mpfr_mul_ui rnd curr_fact_4k (ulong_sub curr_4k 3)
  { impl := { impl with
              curr_k := curr_k
              curr_4k := curr_4k
              curr_fact_k := curr_fact_k
              curr_fact_4k := curr_fact_4k
              term_dividend := term_dividend
              term_divisor := term_divisor
              term := term
              t0 := t0
              term_sum := term_sum }
    out_k := impl.curr_k
    digits_out := to_long (PI.Ramanujan1910Opt.K_TO_DIGITS impl.curr_k)
    ret := if impl.curr_k ≥ impl.max_k then 1 else 0 }

/-- The function `pi_impl_ramanujan_1910_opt_get_value`, every MPFR call rounding with `rnd`. -/
def pi_impl_ramanujan_1910_opt_get_value (impl : PI.Ramanujan1910Opt.__mpfr_pi_impl F) :
    Value (PI.Ramanujan1910Opt.__mpfr_pi_impl F) F :=
  if impl.curr_k = 0 ∨ PI.Ramanujan1910Opt.K_TO_DIGITS (ulong_sub impl.curr_k 1) = 0 then
    { impl := impl, digits_out := 0, ret := none }
  else
    let pi := mpfr_mul rnd impl.cmult impl.term_sum
    let pi := mpfr_ui_div rnd 1 pi
    { impl := { impl with pi := pi }
      digits_out := to_long (PI.Ramanujan1910Opt.K_TO_DIGITS (ulong_sub impl.curr_k 1))
      ret := some pi }

/-- The struct after `n` successive calls of `compute_next_term`. -/
def calls : Nat → PI.Ramanujan1910Opt.__mpfr_pi_impl F → PI.Ramanujan1910Opt.__mpfr_pi_impl F
  | 0, impl => impl
  | n + 1, impl => (pi_impl_ramanujan_1910_opt_compute_next_term rnd (calls n impl)).impl

/-- The outcome of call number `n` (counted from `0`) in a run of successive
`compute_next_term` calls. -/
def nth_call (n : Nat) (impl : PI.Ramanujan1910Opt.__mpfr_pi_impl F) :
    NextTerm (PI.Ramanujan1910Opt.__mpfr_pi_impl F) :=
  pi_impl_ramanujan_1910_opt_compute_next_term rnd (calls rnd n impl)

end Ramanujan1910Opt

end Rounded

/-- A rounding `rnd` that rounds a non-negative number down by a relative error of at most
`eps`. -/
def RoundsDown (eps : ℚ) (rnd : ℚ → ℚ) : Prop :=
  ∀ x, 0 ≤ x → x * (1 - eps) ≤ rnd x ∧ rnd x ≤ x

/-! ## Lemmas and theorems -/

/-! ### Machine integers -/

theorem to_ulong_of_nat (n : Nat) (h : n < 2 ^ 64) : to_ulong (n : Int) = n := by
  unfold to_ulong
  omega

theorem to_long_of_lt (n : Nat) (h : n < 2 ^ 63) : to_long n = n := by
  unfold to_long
  rw [if_pos h]

theorem to_long_eq_zero (n : Nat) (h : n < 2 ^ 64) : to_long n = 0 ↔ n = 0 := by
  unfold to_long
  split <;> omega

theorem ulong_mul_of_lt (a b : Nat) (h : a * b < 2 ^ 64) : ulong_mul a b = a * b := by
  unfold ulong_mul
  exact Nat.mod_eq_of_lt h

theorem ulong_add_of_lt (a b : Nat) (h : a + b < 2 ^ 64) : ulong_add a b = a + b := by
  unfold ulong_add
  exact Nat.mod_eq_of_lt h

theorem ulong_sub_of_le (a b : Nat) (hb : b ≤ a) (ha : a < 2 ^ 64) : ulong_sub a b = a - b := by
  unfold ulong_sub
  omega

theorem tdiv_eight_of_nonneg (d : Int) (h : 0 ≤ d) : Int.tdiv d 8 = d / 8 :=
  Int.tdiv_eq_ediv h (by decide)

theorem tdiv_eight_of_neg (d : Int) (h : d < 0) : Int.tdiv d 8 = -((-d) / 8) := by
  have h1 : Int.tdiv (-(-d)) 8 = -(Int.tdiv (-d) 8) := Int.neg_tdiv _ _
  rw [neg_neg] at h1
  rw [h1, Int.tdiv_eq_ediv (by omega) (by decide)]

/-- The iteration bound that passes the assertions of `initialize` is small: for a `digits`
in the range of `long`, `max_k` is at most `2 ^ 59 + c`. -/
theorem max_k_small (d : Int) (c : Int) (mk : Nat) (hc0 : 0 ≤ c) (hc : c ≤ 4)
    (hd : LONG_MIN ≤ d) (h1 : d < 2 ^ 62 - 1) (hm : mk = to_ulong (Int.tdiv d 8 + c))
    (hlt : mk < 2 ^ 61 - 1) : mk < 2 ^ 60 := by
  have hL : LONG_MIN = -2 ^ 63 := rfl
  rw [hL] at hd
  unfold to_ulong at hm
  rcases lt_or_le d 0 with hneg | hpos
  · rw [tdiv_eight_of_neg d hneg] at hm
    omega
  · rw [tdiv_eight_of_nonneg d hpos] at hm
    omega

namespace Ramanujan1910

theorem K_TO_DIGITS_eq (k : Nat) :
    K_TO_DIGITS k = if 2 ≤ k then (k * 8 % 2 ^ 64 + (2 ^ 64 - 2)) % 2 ^ 64 else 0 := by
  have h2 : to_ulong SLACK_K = 2 := by decide
  have h0 : to_ulong 0 = 0 := by decide
  unfold K_TO_DIGITS
  rw [h2, h0]
  simp [ulong_sub, ulong_mul]

theorem K_TO_DIGITS_lt (k : Nat) : K_TO_DIGITS k < 2 ^ 64 := by
  rw [K_TO_DIGITS_eq]
  split <;> omega

theorem K_TO_DIGITS_small (k : Nat) (h : k < 2 ^ 61) :
    K_TO_DIGITS k = if 2 ≤ k then 8 * k - 2 else 0 := by
  rw [K_TO_DIGITS_eq]
  split <;> omega

theorem K_TO_DIGITS_eq_zero (k : Nat) : K_TO_DIGITS k = 0 ↔ k < 2 := by
  rw [K_TO_DIGITS_eq]
  split <;> omega

variable {F : Type} [Field F]

theorem initialize_some (sqrt_ui : Nat → F) (d : Int) (h0 : 0 ≤ d) (h1 : d < 2 ^ 62 - 1) :
    pi_impl_ramanujan_1910_initialize sqrt_ui d =
      some ({ curr_k := 0
              curr_digits := 0
              desired_digits := d
              max_k := (d / 8 + 3).toNat
              term_dividend := 0
              term_divisor := 0
              term := 0
              t0 := 0
              term_sum := 0
              cmult := sqrt_ui 2 * 2 / 9801
              pi := 0 }, (d / 8 + 3).toNat) := by
  have hk : to_ulong (DIGITS_TO_K d + SLACK_K) = (d / 8 + 3).toNat := by
    have : SLACK_K = 2 := by decide
    unfold to_ulong DIGITS_TO_K
    rw [this, tdiv_eight_of_nonneg d h0]
    omega
  have hs : __SAFE_LONG_MAX = 2 ^ 62 - 1 := by decide
  have hu : __SAFE_ULONG_MAX = 2 ^ 63 - 1 := by decide
  unfold pi_impl_ramanujan_1910_initialize
  simp only [hk, hs, hu]
  rw [if_neg (by omega), if_neg (by omega), if_neg (by omega)]
  simp [mpfr_mul_ui, mpfr_div_ui, mpfr_set_ui]

theorem initialize_fresh (sqrt_ui : Nat → F) (d : Int) (s : __mpfr_pi_impl F) (mk : Nat)
    (h : pi_impl_ramanujan_1910_initialize sqrt_ui d = some (s, mk)) :
    s.curr_k = 0 ∧ s.max_k = mk ∧ s.term_sum = 0 ∧ s.cmult = sqrt_ui 2 * 2 / 9801 ∧
      s.desired_digits = d ∧ mk = to_ulong (Int.tdiv d 8 + 3) ∧ mk < 2 ^ 61 - 1 ∧
      d < 2 ^ 62 - 1 := by
  have hs : __SAFE_LONG_MAX = 2 ^ 62 - 1 := by decide
  have hu : __SAFE_ULONG_MAX = 2 ^ 63 - 1 := by decide
  have hsl : SLACK_K = 2 := by decide
  unfold pi_impl_ramanujan_1910_initialize at h
  simp only [hs, hu, hsl, DIGITS_TO_K] at h
  split at h
  · exact absurd h (by simp)
  · split at h
    · exact absurd h (by simp)
    · split at h
      · exact absurd h (by simp)
      · rename_i h1 h2 h3
        have h4 : Int.tdiv d 8 + 1 + 2 = Int.tdiv d 8 + 3 := by ring
        rw [h4] at h h3
        simp only [Option.some.injEq, Prod.mk.injEq] at h
        obtain ⟨hs, hmk⟩ := h
        subst hs
        subst hmk
        simp [mpfr_mul_ui, mpfr_div_ui, mpfr_set_ui]
        constructor
        · omega
        · omega

end Ramanujan1910

namespace Ramanujan1910

variable {F : Type} [Field F]

theorem next_term_term_sum (s : __mpfr_pi_impl F) (h : s.curr_k < 2 ^ 62) :
    (pi_impl_ramanujan_1910_compute_next_term s).impl.term_sum = s.term_sum + TERM s.curr_k := by
  have h4 : ulong_mul 4 s.curr_k = 4 * s.curr_k := ulong_mul_of_lt _ _ (by omega)
  simp only [pi_impl_ramanujan_1910_compute_next_term, h4, mpfr_add, mpfr_div, mpfr_mul,
    mpfr_pow_ui, mpfr_set_ui, mpfr_fac_ui, mpfr_add_ui, mpfr_mul_ui, TERM]
  push_cast
  ring

theorem calls_succ (n : Nat) (s : __mpfr_pi_impl F) :
    calls (n + 1) s = (pi_impl_ramanujan_1910_compute_next_term (calls n s)).impl := rfl

theorem calls_curr_k (s : __mpfr_pi_impl F) (h : s.curr_k < 2 ^ 64) (n : Nat) :
    (calls n s).curr_k = (s.curr_k + n) % 2 ^ 64 := by
  induction n with
  | zero => exact (Nat.mod_eq_of_lt h).symm
  | succ n ih =>
    rw [calls_succ]
    show ulong_add (calls n s).curr_k 1 = _
    rw [ih]
    unfold ulong_add
    omega

theorem calls_max_k (s : __mpfr_pi_impl F) (n : Nat) : (calls n s).max_k = s.max_k := by
  induction n with
  | zero => rfl
  | succ n ih => rw [calls_succ]; exact ih

theorem calls_cmult (s : __mpfr_pi_impl F) (n : Nat) : (calls n s).cmult = s.cmult := by
  induction n with
  | zero => rfl
  | succ n ih => rw [calls_succ]; exact ih

theorem calls_term_sum (s : __mpfr_pi_impl F) (h : s.curr_k = 0) (n : Nat) (hn : n ≤ 2 ^ 62) :
    (calls n s).term_sum = s.term_sum + ∑ i in Finset.range n, TERM i := by
  induction n with
  | zero => simp [calls]
  | succ n ih =>
    have hk : (calls n s).curr_k = n := by
      rw [calls_curr_k s (by omega) n, h]
      omega
    rw [calls_succ, next_term_term_sum _ (by omega), ih (by omega), hk, Finset.sum_range_succ]
    ring

theorem nth_call_out_k (s : __mpfr_pi_impl F) (n : Nat) : (nth_call n s).out_k = (calls n s).curr_k := rfl

theorem nth_call_digits_out (s : __mpfr_pi_impl F) (n : Nat) :
    (nth_call n s).digits_out = to_long (K_TO_DIGITS (calls n s).curr_k) := rfl

theorem nth_call_ret (s : __mpfr_pi_impl F) (n : Nat) :
    (nth_call n s).ret = if (calls n s).curr_k ≥ (calls n s).max_k then 1 else 0 := rfl

theorem get_value_ret (s : __mpfr_pi_impl F) :
    (pi_impl_ramanujan_1910_get_value s).ret =
      if s.curr_k = 0 ∨ K_TO_DIGITS (ulong_sub s.curr_k 1) = 0 then none
      else some (1 / (s.cmult * s.term_sum)) := by
  by_cases h : s.curr_k = 0 ∨ K_TO_DIGITS (ulong_sub s.curr_k 1) = 0
  · simp only [pi_impl_ramanujan_1910_get_value, if_pos h]
  · simp only [pi_impl_ramanujan_1910_get_value, if_neg h, mpfr_mul, mpfr_ui_div, Nat.cast_one]

theorem get_value_digits_out (s : __mpfr_pi_impl F) :
    (pi_impl_ramanujan_1910_get_value s).digits_out =
      if s.curr_k = 0 ∨ K_TO_DIGITS (ulong_sub s.curr_k 1) = 0 then 0
      else to_long (K_TO_DIGITS (ulong_sub s.curr_k 1)) := by
  by_cases h : s.curr_k = 0 ∨ K_TO_DIGITS (ulong_sub s.curr_k 1) = 0
  · simp only [pi_impl_ramanujan_1910_get_value, if_pos h]
  · simp only [pi_impl_ramanujan_1910_get_value, if_neg h]

end Ramanujan1910

namespace Ramanujan1910Opt

theorem opt_K_TO_DIGITS_eq (k : Nat) :
    K_TO_DIGITS k = if 3 ≤ k then (k * 8 % 2 ^ 64 + (2 ^ 64 - 3)) % 2 ^ 64 else 0 := by
  have h2 : to_ulong SLACK_K = 3 := by decide
  have h0 : to_ulong 0 = 0 := by decide
  unfold K_TO_DIGITS
  rw [h2, h0]
  simp [ulong_sub, ulong_mul]

theorem opt_K_TO_DIGITS_lt (k : Nat) : K_TO_DIGITS k < 2 ^ 64 := by
  rw [opt_K_TO_DIGITS_eq]
  split <;> omega

theorem opt_K_TO_DIGITS_small (k : Nat) (h : k < 2 ^ 61) :
    K_TO_DIGITS k = if 3 ≤ k then 8 * k - 3 else 0 := by
  rw [opt_K_TO_DIGITS_eq]
  split <;> omega

theorem opt_K_TO_DIGITS_eq_zero (k : Nat) : K_TO_DIGITS k = 0 ↔ k < 3 := by
  rw [opt_K_TO_DIGITS_eq]
  split <;> omega

variable {F : Type} [Field F]

theorem opt_initialize_some (sqrt_ui : Nat → F) (d : Int) (h0 : 0 ≤ d) (h1 : d < 2 ^ 62 - 1) :
    pi_impl_ramanujan_1910_opt_initialize sqrt_ui d =
      some ({ curr_k := 0
              curr_4k := 0
              curr_digits := 0
              desired_digits := d
              max_k := (d / 8 + 4).toNat
              curr_fact_k := 1
              curr_fact_4k := 1
              term_dividend := 0
              term_divisor := 0
              term := 0
              t0 := 0
              term_sum := 0
              cmult := sqrt_ui 2 * 2 / 9801
              pi := 0 }, (d / 8 + 4).toNat) := by
  have hk : to_ulong (DIGITS_TO_K d + SLACK_K) = (d / 8 + 4).toNat := by
    have : SLACK_K = 3 := by decide
    unfold to_ulong DIGITS_TO_K
    rw [this, tdiv_eight_of_nonneg d h0]
    omega
  have hs : __SAFE_LONG_MAX = 2 ^ 62 - 1 := by decide
  have hu : __SAFE_ULONG_MAX = 2 ^ 63 - 1 := by decide
  unfold pi_impl_ramanujan_1910_opt_initialize
  simp only [hk, hs, hu]
  rw [if_neg (by omega), if_neg (by omega), if_neg (by omega)]
  simp [mpfr_mul_ui, mpfr_div_ui, mpfr_set_ui]

theorem opt_initialize_fresh (sqrt_ui : Nat → F) (d : Int) (s : __mpfr_pi_impl F) (mk : Nat)
    (h : pi_impl_ramanujan_1910_opt_initialize sqrt_ui d = some (s, mk)) :
    (s.curr_k = 0 ∧ s.curr_4k = 0 ∧ s.curr_fact_k = 1 ∧ s.curr_fact_4k = 1 ∧ s.term_sum = 0) ∧
      s.max_k = mk ∧ s.cmult = sqrt_ui 2 * 2 / 9801 ∧
      s.desired_digits = d ∧ mk = to_ulong (Int.tdiv d 8 + 4) ∧ mk < 2 ^ 61 - 1 ∧
      d < 2 ^ 62 - 1 := by
  have hs : __SAFE_LONG_MAX = 2 ^ 62 - 1 := by decide
  have hu : __SAFE_ULONG_MAX = 2 ^ 63 - 1 := by decide
  have hsl : SLACK_K = 3 := by decide
  unfold pi_impl_ramanujan_1910_opt_initialize at h
  simp only [hs, hu, hsl, DIGITS_TO_K] at h
  split at h
  · exact absurd h (by simp)
  · split at h
    · exact absurd h (by simp)
    · split at h
      · exact absurd h (by simp)
      · rename_i h1 h2 h3
        have h4 : Int.tdiv d 8 + 1 + 3 = Int.tdiv d 8 + 4 := by ring
        rw [h4] at h h3
        simp only [Option.some.injEq, Prod.mk.injEq] at h
        obtain ⟨hs, hmk⟩ := h
        subst hs
        subst hmk
        simp [mpfr_mul_ui, mpfr_div_ui, mpfr_set_ui]
        constructor
        · omega
        · omega

theorem opt_calls_succ (n : Nat) (s : __mpfr_pi_impl F) :
    calls (n + 1) s = (pi_impl_ramanujan_1910_opt_compute_next_term (calls n s)).impl := rfl

theorem opt_calls_curr_k (s : __mpfr_pi_impl F) (h : s.curr_k < 2 ^ 64) (n : Nat) :
    (calls n s).curr_k = (s.curr_k + n) % 2 ^ 64 := by
  induction n with
  | zero => exact (Nat.mod_eq_of_lt h).symm
  | succ n ih =>
    rw [opt_calls_succ]
    show ulong_add (calls n s).curr_k 1 = _
    rw [ih]
    unfold ulong_add
    omega

theorem calls_curr_4k (s : __mpfr_pi_impl F) (h : s.curr_4k < 2 ^ 64) (n : Nat) :
    (calls n s).curr_4k = (s.curr_4k + 4 * n) % 2 ^ 64 := by
  induction n with
  | zero => exact (Nat.mod_eq_of_lt h).symm
  | succ n ih =>
    rw [opt_calls_succ]
    show ulong_add (calls n s).curr_4k 4 = _
    rw [ih]
    unfold ulong_add
    omega

theorem opt_calls_max_k (s : __mpfr_pi_impl F) (n : Nat) : (calls n s).max_k = s.max_k := by
  induction n with
  | zero => rfl
  | succ n ih => rw [opt_calls_succ]; exact ih

theorem opt_calls_cmult (s : __mpfr_pi_impl F) (n : Nat) : (calls n s).cmult = s.cmult := by
  induction n with
  | zero => rfl
  | succ n ih => rw [opt_calls_succ]; exact ih

theorem next_term_fact_k (s : __mpfr_pi_impl F) :
    (pi_impl_ramanujan_1910_opt_compute_next_term s).impl.curr_fact_k =
      s.curr_fact_k * ((ulong_add s.curr_k 1 : Nat) : F) := rfl

theorem next_term_fact_4k (s : __mpfr_pi_impl F) (h : s.curr_4k + 4 < 2 ^ 64) :
    (pi_impl_ramanujan_1910_opt_compute_next_term s).impl.curr_fact_4k =
      s.curr_fact_4k * ((s.curr_4k + 4 : Nat) : F) * ((s.curr_4k + 3 : Nat) : F) *
        ((s.curr_4k + 2 : Nat) : F) * ((s.curr_4k + 1 : Nat) : F) := by
  have h4 : ulong_add s.curr_4k 4 = s.curr_4k + 4 := ulong_add_of_lt _ _ h
  have h1 : ulong_sub (s.curr_4k + 4) 1 = s.curr_4k + 3 := by
    rw [ulong_sub_of_le _ _ (by omega) h]; omega
  have h2 : ulong_sub (s.curr_4k + 4) 2 = s.curr_4k + 2 := by
    rw [ulong_sub_of_le _ _ (by omega) h]; omega
  have h3 : ulong_sub (s.curr_4k + 4) 3 = s.curr_4k + 1 := by
    rw [ulong_sub_of_le _ _ (by omega) h]; omega
  simp only [pi_impl_ramanujan_1910_opt_compute_next_term, h4, h1, h2, h3, mpfr_mul_ui]

theorem opt_next_term_term (s : __mpfr_pi_impl F) :
    (pi_impl_ramanujan_1910_opt_compute_next_term s).impl.term =
      s.curr_fact_4k * ((ulong_add 1103 (ulong_mul 26390 s.curr_k) : Nat) : F) /
        (s.curr_fact_k ^ 4 * (396 : F) ^ s.curr_4k) := by
  simp only [pi_impl_ramanujan_1910_opt_compute_next_term, mpfr_div, mpfr_mul,
    mpfr_pow_ui, mpfr_set_ui, mpfr_mul_ui]
  push_cast
  rfl

theorem opt_next_term_term_sum (s : __mpfr_pi_impl F) :
    (pi_impl_ramanujan_1910_opt_compute_next_term s).impl.term_sum =
      s.term_sum + (pi_impl_ramanujan_1910_opt_compute_next_term s).impl.term := rfl

theorem calls_cached (s : __mpfr_pi_impl F) (h : Fresh s) (n : Nat) (hn : n < 2 ^ 62) :
    (calls n s).curr_k = n ∧ (calls n s).curr_4k = 4 * n ∧
      (calls n s).curr_fact_k = (n.factorial : F) ∧
      (calls n s).curr_fact_4k = ((4 * n).factorial : F) := by
  obtain ⟨hk, h4k, hf, hf4, _⟩ := h
  induction n with
  | zero => simp [calls, hk, h4k, hf, hf4]
  | succ n ih =>
    obtain ⟨ik, i4k, ifk, if4k⟩ := ih (by omega)
    have e1 : (calls (n + 1) s).curr_k = n + 1 := by
      rw [opt_calls_curr_k s (by omega), hk]; omega
    have e4 : (calls (n + 1) s).curr_4k = 4 * (n + 1) := by
      rw [calls_curr_4k s (by omega), h4k]; omega
    refine ⟨e1, e4, ?_, ?_⟩
    · rw [opt_calls_succ, next_term_fact_k, ifk, ik, ulong_add_of_lt _ _ (by omega),
        Nat.factorial_succ]
      push_cast
      ring
    · rw [opt_calls_succ, next_term_fact_4k _ (by omega), if4k, i4k]
      have : 4 * (n + 1) = 4 * n + 4 := by ring
      rw [this]
      simp only [Nat.factorial_succ]
      push_cast
      ring

theorem next_term_term_nowrap (s : __mpfr_pi_impl F) (h : Fresh s) (n : Nat) (hn : n ≤ K_NOWRAP) :
    (pi_impl_ramanujan_1910_opt_compute_next_term (calls n s)).impl.term = TERM n := by
  have hK : K_NOWRAP = 699005080474026 := by decide
  rw [hK] at hn
  obtain ⟨ik, i4k, ifk, if4k⟩ := calls_cached s h n (by omega)
  rw [opt_next_term_term, ik, i4k, ifk, if4k, ulong_mul_of_lt _ _ (by omega),
    ulong_add_of_lt _ _ (by omega)]
  unfold TERM
  push_cast
  ring

theorem opt_calls_term_sum (s : __mpfr_pi_impl F) (h : Fresh s) (n : Nat) (hn : n ≤ K_NOWRAP + 1) :
    (calls n s).term_sum = ∑ i in Finset.range n, TERM i := by
  induction n with
  | zero => simpa [calls] using h.2.2.2.2
  | succ n ih =>
    rw [opt_calls_succ, opt_next_term_term_sum, ih (by omega), next_term_term_nowrap s h n (by omega),
      Finset.sum_range_succ]

theorem opt_nth_call_out_k (s : __mpfr_pi_impl F) (n : Nat) : (nth_call n s).out_k = (calls n s).curr_k := rfl

theorem opt_nth_call_digits_out (s : __mpfr_pi_impl F) (n : Nat) :
    (nth_call n s).digits_out = to_long (K_TO_DIGITS (calls n s).curr_k) := rfl

theorem opt_nth_call_ret (s : __mpfr_pi_impl F) (n : Nat) :
    (nth_call n s).ret = if (calls n s).curr_k ≥ (calls n s).max_k then 1 else 0 := rfl

theorem opt_get_value_ret (s : __mpfr_pi_impl F) :
    (pi_impl_ramanujan_1910_opt_get_value s).ret =
      if s.curr_k = 0 ∨ K_TO_DIGITS (ulong_sub s.curr_k 1) = 0 then none
      else some (1 / (s.cmult * s.term_sum)) := by
  by_cases h : s.curr_k = 0 ∨ K_TO_DIGITS (ulong_sub s.curr_k 1) = 0
  · simp only [pi_impl_ramanujan_1910_opt_get_value, if_pos h]
  · simp only [pi_impl_ramanujan_1910_opt_get_value, if_neg h, mpfr_mul, mpfr_ui_div,
      Nat.cast_one]

theorem opt_get_value_digits_out (s : __mpfr_pi_impl F) :
    (pi_impl_ramanujan_1910_opt_get_value s).digits_out =
      if s.curr_k = 0 ∨ K_TO_DIGITS (ulong_sub s.curr_k 1) = 0 then 0
      else to_long (K_TO_DIGITS (ulong_sub s.curr_k 1)) := by
  by_cases h : s.curr_k = 0 ∨ K_TO_DIGITS (ulong_sub s.curr_k 1) = 0
  · simp only [pi_impl_ramanujan_1910_opt_get_value, if_pos h]
  · simp only [pi_impl_ramanujan_1910_opt_get_value, if_neg h]

end Ramanujan1910Opt

/-! ### Convergence of the call sequence (C1) -/

theorem Ramanujan1910.converges {F : Type} [Field F] (sqrt_ui : Nat → F) (d : Int)
    (h0 : 0 ≤ d) (h1 : d < 2 ^ 62 - 1) :
    ∃ s mk, Ramanujan1910.pi_impl_ramanujan_1910_initialize sqrt_ui d = some (s, mk) ∧
      s.max_k = mk ∧ (mk : Int) = d / 8 + 3 ∧
      (Ramanujan1910.nth_call mk s).ret = 1 ∧
      (∀ i, i < mk → (Ramanujan1910.nth_call i s).ret = 0) ∧
      (∀ i, i ≤ mk → (Ramanujan1910.nth_call i s).out_k = i) ∧
      (Ramanujan1910.pi_impl_ramanujan_1910_get_value (Ramanujan1910.calls (mk + 1) s)).ret =
        some (1 / (sqrt_ui 2 * 2 / 9801 * (Ramanujan1910.calls (mk + 1) s).term_sum)) ∧
      (Ramanujan1910.pi_impl_ramanujan_1910_get_value
        (Ramanujan1910.calls (mk + 1) s)).digits_out = 8 * (d / 8 + 3) - 2 := by
  obtain ⟨s, mk, hinit⟩ : ∃ s mk,
      Ramanujan1910.pi_impl_ramanujan_1910_initialize sqrt_ui d = some (s, mk) :=
    ⟨_, _, Ramanujan1910.initialize_some sqrt_ui d h0 h1⟩
  obtain ⟨hk0, hmk, _, hc, _, hm, _, _⟩ := Ramanujan1910.initialize_fresh sqrt_ui d s mk hinit
  rw [tdiv_eight_of_nonneg d h0] at hm
  have hmk3 : 3 ≤ mk ∧ mk < 2 ^ 60 ∧ (mk : Int) = d / 8 + 3 := by
    unfold to_ulong at hm
    omega
  refine ⟨s, mk, hinit, hmk, hmk3.2.2, ?_⟩
  have hck : ∀ n, n < 2 ^ 64 → (Ramanujan1910.calls n s).curr_k = n := by
    intro n hn
    rw [Ramanujan1910.calls_curr_k s (by omega), hk0]
    omega
  refine ⟨?_, ?_, ?_, ?_, ?_⟩
  · rw [Ramanujan1910.nth_call_ret, Ramanujan1910.calls_max_k, hck mk (by omega), hmk]
    simp
  · intro i hi
    rw [Ramanujan1910.nth_call_ret, Ramanujan1910.calls_max_k, hck i (by omega), hmk]
    rw [if_neg (by omega)]
  · intro i hi
    rw [Ramanujan1910.nth_call_out_k, hck i (by omega)]
  · rw [Ramanujan1910.get_value_ret, Ramanujan1910.calls_cmult, hc, hck (mk + 1) (by omega)]
    rw [if_neg]
    rw [ulong_sub_of_le _ _ (by omega) (by omega), Ramanujan1910.K_TO_DIGITS_eq_zero]
    omega
  · rw [Ramanujan1910.get_value_digits_out, hck (mk + 1) (by omega)]
    rw [ulong_sub_of_le _ _ (by omega) (by omega)]
    rw [if_neg (by rw [Ramanujan1910.K_TO_DIGITS_eq_zero]; omega)]
    rw [Ramanujan1910.K_TO_DIGITS_small _ (by omega), if_pos (by omega),
      to_long_of_lt _ (by omega)]
    omega

theorem Ramanujan1910Opt.opt_converges {F : Type} [Field F] (sqrt_ui : Nat → F) (d : Int)
    (h0 : 0 ≤ d) (h1 : d < 2 ^ 62 - 1) :
    ∃ s mk, Ramanujan1910Opt.pi_impl_ramanujan_1910_opt_initialize sqrt_ui d = some (s, mk) ∧
      s.max_k = mk ∧ (mk : Int) = d / 8 + 4 ∧
      (Ramanujan1910Opt.nth_call mk s).ret = 1 ∧
      (∀ i, i < mk → (Ramanujan1910Opt.nth_call i s).ret = 0) ∧
      (∀ i, i ≤ mk → (Ramanujan1910Opt.nth_call i s).out_k = i) ∧
      (Ramanujan1910Opt.pi_impl_ramanujan_1910_opt_get_value
        (Ramanujan1910Opt.calls (mk + 1) s)).ret =
        some (1 / (sqrt_ui 2 * 2 / 9801 * (Ramanujan1910Opt.calls (mk + 1) s).term_sum)) ∧
      (Ramanujan1910Opt.pi_impl_ramanujan_1910_opt_get_value
        (Ramanujan1910Opt.calls (mk + 1) s)).digits_out = 8 * (d / 8 + 4) - 3 := by
  obtain ⟨s, mk, hinit⟩ : ∃ s mk,
      Ramanujan1910Opt.pi_impl_ramanujan_1910_opt_initialize sqrt_ui d = some (s, mk) :=
    ⟨_, _, Ramanujan1910Opt.opt_initialize_some sqrt_ui d h0 h1⟩
  obtain ⟨⟨hk0, _⟩, hmk, hc, _, hm, _, _⟩ :=
    Ramanujan1910Opt.opt_initialize_fresh sqrt_ui d s mk hinit
  rw [tdiv_eight_of_nonneg d h0] at hm
  have hmk3 : 4 ≤ mk ∧ mk < 2 ^ 60 ∧ (mk : Int) = d / 8 + 4 := by
    unfold to_ulong at hm
    omega
  refine ⟨s, mk, hinit, hmk, hmk3.2.2, ?_⟩
  have hck : ∀ n, n < 2 ^ 64 → (Ramanujan1910Opt.calls n s).curr_k = n := by
    intro n hn
    rw [Ramanujan1910Opt.opt_calls_curr_k s (by omega), hk0]
    omega
  refine ⟨?_, ?_, ?_, ?_, ?_⟩
  · rw [Ramanujan1910Opt.opt_nth_call_ret, Ramanujan1910Opt.opt_calls_max_k, hck mk (by omega), hmk]
    simp
  · intro i hi
    rw [Ramanujan1910Opt.opt_nth_call_ret, Ramanujan1910Opt.opt_calls_max_k, hck i (by omega), hmk]
    rw [if_neg (by omega)]
  · intro i hi
    rw [Ramanujan1910Opt.opt_nth_call_out_k, hck i (by omega)]
  · rw [Ramanujan1910Opt.opt_get_value_ret, Ramanujan1910Opt.opt_calls_cmult, hc,
      hck (mk + 1) (by omega)]
    rw [if_neg]
    rw [ulong_sub_of_le _ _ (by omega) (by omega), Ramanujan1910Opt.opt_K_TO_DIGITS_eq_zero]
    omega
  · rw [Ramanujan1910Opt.opt_get_value_digits_out, hck (mk + 1) (by omega)]
    rw [ulong_sub_of_le _ _ (by omega) (by omega)]
    rw [if_neg (by rw [Ramanujan1910Opt.opt_K_TO_DIGITS_eq_zero]; omega)]
    rw [Ramanujan1910Opt.opt_K_TO_DIGITS_small _ (by omega), if_pos (by omega),
      to_long_of_lt _ (by omega)]
    omega

/-- C1. For every `desiredDigits` with `0 < desiredDigits < 2857042` and for each of the two
variants: from `initialize`, call number `max_k` of `compute_next_term` is the first to return
`1`, every call up to and including it consumes an index `k <= max_k`, and `get_value` right
after it returns a non-NULL value with `digits_out >= desiredDigits`. -/
theorem converges_within_max_k_with_desired_digits (F : Type) [Field F] (sqrt_ui : Nat → F)
    (d : Int) (h0 : 0 < d) (h1 : d < 2857042) :
    (∃ s mk, Ramanujan1910.pi_impl_ramanujan_1910_initialize sqrt_ui d = some (s, mk) ∧
      s.max_k = mk ∧
      ∃ n, (Ramanujan1910.nth_call n s).ret = 1 ∧
        (∀ i, i < n → (Ramanujan1910.nth_call i s).ret = 0) ∧
        (∀ i, i ≤ n → (Ramanujan1910.nth_call i s).out_k ≤ mk) ∧
        ∃ v, (Ramanujan1910.pi_impl_ramanujan_1910_get_value
                (Ramanujan1910.calls (n + 1) s)).ret = some v ∧
          d ≤ (Ramanujan1910.pi_impl_ramanujan_1910_get_value
                (Ramanujan1910.calls (n + 1) s)).digits_out) ∧
    (∃ s mk, Ramanujan1910Opt.pi_impl_ramanujan_1910_opt_initialize sqrt_ui d = some (s, mk) ∧
      s.max_k = mk ∧
      ∃ n, (Ramanujan1910Opt.nth_call n s).ret = 1 ∧
        (∀ i, i < n → (Ramanujan1910Opt.nth_call i s).ret = 0) ∧
        (∀ i, i ≤ n → (Ramanujan1910Opt.nth_call i s).out_k ≤ mk) ∧
        ∃ v, (Ramanujan1910Opt.pi_impl_ramanujan_1910_opt_get_value
                (Ramanujan1910Opt.calls (n + 1) s)).ret = some v ∧
          d ≤ (Ramanujan1910Opt.pi_impl_ramanujan_1910_opt_get_value
                (Ramanujan1910Opt.calls (n + 1) s)).digits_out) := by
  constructor
  · obtain ⟨s, mk, hi, hm, _, hr, hz, hk, hv, hd⟩ :=
      Ramanujan1910.converges sqrt_ui d (by omega) (by omega)
    refine ⟨s, mk, hi, hm, mk, hr, hz, ?_, _, hv, ?_⟩
    · intro i hi
      rw [hk i hi]
      exact hi
    · rw [hd]
      omega
  · obtain ⟨s, mk, hi, hm, _, hr, hz, hk, hv, hd⟩ :=
      Ramanujan1910Opt.opt_converges sqrt_ui d (by omega) (by omega)
    refine ⟨s, mk, hi, hm, mk, hr, hz, ?_, _, hv, ?_⟩
    · intro i hi
      rw [hk i hi]
      exact hi
    · rw [hd]
      omega

/-- Witness of C1 at `desiredDigits = 50`, over `ℚ`. -/
theorem converges_within_max_k_with_desired_digits_witness :
    ((0 : Int) < 50 ∧ (50 : Int) < 2857042) ∧
    ((∃ s mk, Ramanujan1910.pi_impl_ramanujan_1910_initialize
        sqrt_ui_q 50 = some (s, mk) ∧
      s.max_k = mk ∧
      ∃ n, (Ramanujan1910.nth_call n s).ret = 1 ∧
        (∀ i, i < n → (Ramanujan1910.nth_call i s).ret = 0) ∧
        (∀ i, i ≤ n → (Ramanujan1910.nth_call i s).out_k ≤ mk) ∧
        ∃ v, (Ramanujan1910.pi_impl_ramanujan_1910_get_value
                (Ramanujan1910.calls (n + 1) s)).ret = some v ∧
          50 ≤ (Ramanujan1910.pi_impl_ramanujan_1910_get_value
                (Ramanujan1910.calls (n + 1) s)).digits_out) ∧
    (∃ s mk, Ramanujan1910Opt.pi_impl_ramanujan_1910_opt_initialize
        sqrt_ui_q 50 = some (s, mk) ∧
      s.max_k = mk ∧
      ∃ n, (Ramanujan1910Opt.nth_call n s).ret = 1 ∧
        (∀ i, i < n → (Ramanujan1910Opt.nth_call i s).ret = 0) ∧
        (∀ i, i ≤ n → (Ramanujan1910Opt.nth_call i s).out_k ≤ mk) ∧
        ∃ v, (Ramanujan1910Opt.pi_impl_ramanujan_1910_opt_get_value
                (Ramanujan1910Opt.calls (n + 1) s)).ret = some v ∧
          50 ≤ (Ramanujan1910Opt.pi_impl_ramanujan_1910_opt_get_value
                (Ramanujan1910Opt.calls (n + 1) s)).digits_out)) :=
  ⟨by decide, converges_within_max_k_with_desired_digits ℚ sqrt_ui_q 50 (by decide) (by decide)⟩

/-! ### Where the index arithmetic wraps -/

theorem K_NOWRAP_eq : K_NOWRAP = 699005080474026 := by decide

theorem Ramanujan1910Opt.opt_term_wraps {F : Type} [Field F] [CharZero F]
    (s : Ramanujan1910Opt.__mpfr_pi_impl F) (h : Ramanujan1910Opt.Fresh s) (k : Nat)
    (hk : K_NOWRAP < k) (hk2 : k < 2 ^ 62) :
    (Ramanujan1910Opt.pi_impl_ramanujan_1910_opt_compute_next_term
      (Ramanujan1910Opt.calls k s)).impl.term ≠ TERM k := by
  rw [K_NOWRAP_eq] at hk
  obtain ⟨ik, i4k, ifk, if4k⟩ := Ramanujan1910Opt.calls_cached s h k hk2
  rw [Ramanujan1910Opt.opt_next_term_term, ik, i4k, ifk, if4k]
  unfold TERM
  have hA : (((4 * k).factorial : Nat) : F) ≠ 0 := Nat.cast_ne_zero.mpr (Nat.factorial_ne_zero _)
  have hB : ((k.factorial : Nat) : F) ≠ 0 := Nat.cast_ne_zero.mpr (Nat.factorial_ne_zero _)
  have hC : ((396 : F)) ^ (4 * k) ≠ 0 := pow_ne_zero _ (by norm_num)
  have hD : ((k.factorial : Nat) : F) ^ 4 * (396 : F) ^ (4 * k) ≠ 0 :=
    mul_ne_zero (pow_ne_zero _ hB) hC
  have hw : ulong_add 1103 (ulong_mul 26390 k) ≠ 1103 + 26390 * k := by
    unfold ulong_add ulong_mul
    omega
  intro heq
  rw [div_left_inj' hD] at heq
  have h2 := mul_left_cancel₀ hA heq
  apply hw
  have h3 : ((ulong_add 1103 (ulong_mul 26390 k) : Nat) : F) = ((1103 + 26390 * k : Nat) : F) := by
    rw [h2]
    push_cast
    ring
  exact Nat.cast_injective h3

theorem factorial_ne_pow_396 (m : Nat) (hm : 5 ≤ m) : m.factorial ≠ 396 ^ m := by
  intro h
  have h5 : 5 ∣ m.factorial := Nat.dvd_factorial (by norm_num) hm
  rw [h] at h5
  have := Nat.Prime.dvd_of_dvd_pow Nat.prime_five h5
  omega

theorem Ramanujan1910.term_wraps {F : Type} [Field F] [CharZero F]
    (s : Ramanujan1910.__mpfr_pi_impl F) (h4 : ulong_mul 4 s.curr_k = 0) (h5 : 5 ≤ 4 * s.curr_k) :
    (Ramanujan1910.pi_impl_ramanujan_1910_compute_next_term s).impl.term_sum ≠
      s.term_sum + TERM s.curr_k := by
  simp only [Ramanujan1910.pi_impl_ramanujan_1910_compute_next_term, h4, mpfr_add, mpfr_div,
    mpfr_mul, mpfr_pow_ui, mpfr_set_ui, mpfr_fac_ui, mpfr_add_ui, mpfr_mul_ui, TERM]
  generalize s.curr_k = k at h5
  have hB : ((k.factorial : Nat) : F) ^ 4 ≠ 0 :=
    pow_ne_zero _ (Nat.cast_ne_zero.mpr (Nat.factorial_ne_zero _))
  have hC : ((396 : F)) ^ (4 * k) ≠ 0 := pow_ne_zero _ (by norm_num)
  have hm : (1103 : F) + 26390 * (k : F) ≠ 0 := by
    have : ((1103 + 26390 * k : Nat) : F) ≠ 0 := Nat.cast_ne_zero.mpr (by omega)
    intro h0
    apply this
    push_cast
    exact h0
  intro heq
  have heq2 := add_left_cancel heq
  rw [Nat.factorial_zero, pow_zero, mul_one, Nat.cast_one, one_mul] at heq2
  have e : ((26390 : Nat) : F) * (k : F) + ((1103 : Nat) : F) = 1103 + 26390 * (k : F) := by
    push_cast
    ring
  rw [e, div_eq_div_iff hB (mul_ne_zero hB hC)] at heq2
  have h6 : (396 : F) ^ (4 * k) = (((4 * k).factorial : Nat) : F) := by
    have h7 : ((1103 : F) + 26390 * (k : F)) * ((k.factorial : Nat) : F) ^ 4 * (396 : F) ^ (4 * k) =
        ((1103 : F) + 26390 * (k : F)) * ((k.factorial : Nat) : F) ^ 4 *
          (((4 * k).factorial : Nat) : F) := by
      linear_combination heq2
    exact mul_left_cancel₀ (mul_ne_zero hm hB) h7
  apply factorial_ne_pow_396 (4 * k) h5
  have : (((4 * k).factorial : Nat) : F) = (((396 : Nat) ^ (4 * k) : Nat) : F) := by
    push_cast
    exact h6.symm
  exact Nat.cast_injective this

/-! ### The two variants against each other (C3, C4) and against the series (C5) -/

theorem Ramanujan1910.initialize_50 :
    Ramanujan1910.pi_impl_ramanujan_1910_initialize sqrt_ui_q 50 =
      some (Ramanujan1910.impl_50, 9) :=
  Ramanujan1910.initialize_some sqrt_ui_q 50 (by decide) (by decide)

theorem Ramanujan1910Opt.opt_initialize_50 :
    Ramanujan1910Opt.pi_impl_ramanujan_1910_opt_initialize sqrt_ui_q 50 =
      some (Ramanujan1910Opt.impl_50, 10) :=
  Ramanujan1910Opt.opt_initialize_some sqrt_ui_q 50 (by decide) (by decide)

theorem Ramanujan1910.next_term_term {F : Type} [Field F] (s : Ramanujan1910.__mpfr_pi_impl F)
    (h : s.curr_k < 2 ^ 62) :
    (Ramanujan1910.pi_impl_ramanujan_1910_compute_next_term s).impl.term = TERM s.curr_k := by
  have h4 : ulong_mul 4 s.curr_k = 4 * s.curr_k := ulong_mul_of_lt _ _ (by omega)
  simp only [Ramanujan1910.pi_impl_ramanujan_1910_compute_next_term, h4, mpfr_div, mpfr_mul,
    mpfr_pow_ui, mpfr_set_ui, mpfr_fac_ui, mpfr_add_ui, mpfr_mul_ui, TERM]
  push_cast
  ring

/-- C4, as stated, fails. Call number `K_NOWRAP + 1 = 699005080474027` is the first at which
`1103UL + 26390UL * k` wraps in the incremental variant: after `K_NOWRAP + 2` calls on freshly
initialized states (exact real arithmetic) the two running sums are different. -/
theorem running_sums_differ_after_wrap :
    ∃ s mk s' mk',
      Ramanujan1910.pi_impl_ramanujan_1910_initialize
        (fun n : Nat => Real.sqrt (n : ℝ)) 50 = some (s, mk) ∧
      Ramanujan1910Opt.pi_impl_ramanujan_1910_opt_initialize
        (fun n : Nat => Real.sqrt (n : ℝ)) 50 = some (s', mk') ∧
      (Ramanujan1910Opt.calls (K_NOWRAP + 2) s').term_sum ≠
        (Ramanujan1910.calls (K_NOWRAP + 2) s).term_sum := by
  obtain ⟨s, mk, hi, _⟩ :=
    Ramanujan1910.converges (fun n : Nat => Real.sqrt (n : ℝ)) 50 (by norm_num) (by norm_num)
  obtain ⟨s', mk', hi', _⟩ :=
    Ramanujan1910Opt.opt_converges (fun n : Nat => Real.sqrt (n : ℝ)) 50 (by norm_num)
      (by norm_num)
  obtain ⟨hk0, _, hts, _⟩ := Ramanujan1910.initialize_fresh _ _ _ _ hi
  obtain ⟨hf, _⟩ := Ramanujan1910Opt.opt_initialize_fresh _ _ _ _ hi'
  have hK := K_NOWRAP_eq
  refine ⟨s, mk, s', mk', hi, hi', ?_⟩
  rw [Ramanujan1910.calls_term_sum s hk0 _ (by omega), hts, zero_add,
    Finset.sum_range_succ, Ramanujan1910Opt.opt_calls_succ, Ramanujan1910Opt.opt_next_term_term_sum,
    Ramanujan1910Opt.opt_calls_term_sum s' hf _ (by omega)]
  intro h
  exact Ramanujan1910Opt.opt_term_wraps s' hf (K_NOWRAP + 1) (by omega) (by omega)
    (add_left_cancel h)

/-- C4, amended. On freshly initialized states, for every `n <= K_NOWRAP + 1 = 699005080474027`
the running sum of the incremental variant after `n` calls equals the running sum of the
recomputing variant after `n` calls, and for every index `k <= K_NOWRAP` the term the
incremental variant adds equals the term the recomputing variant computes from scratch (MPFR
primitives taken as exact arithmetic). -/
theorem running_sums_agree_before_wrap (F : Type) [Field F] (sqrt_ui : Nat → F) (d : Int)
    (s : Ramanujan1910.__mpfr_pi_impl F) (mk : Nat) (s' : Ramanujan1910Opt.__mpfr_pi_impl F) (mk' : Nat)
    (hi : Ramanujan1910.pi_impl_ramanujan_1910_initialize sqrt_ui d = some (s, mk))
    (hi' : Ramanujan1910Opt.pi_impl_ramanujan_1910_opt_initialize sqrt_ui d = some (s', mk')) :
    (∀ n, n ≤ K_NOWRAP + 1 →
      (Ramanujan1910Opt.calls n s').term_sum = (Ramanujan1910.calls n s).term_sum) ∧
    (∀ k, k ≤ K_NOWRAP →
      (Ramanujan1910Opt.nth_call k s').impl.term = (Ramanujan1910.nth_call k s).impl.term) := by
  obtain ⟨hk0, _, hts, _⟩ := Ramanujan1910.initialize_fresh _ _ _ _ hi
  obtain ⟨hf, _⟩ := Ramanujan1910Opt.opt_initialize_fresh _ _ _ _ hi'
  have hK := K_NOWRAP_eq
  constructor
  · intro n hn
    rw [Ramanujan1910.calls_term_sum s hk0 _ (by omega), hts, zero_add,
      Ramanujan1910Opt.opt_calls_term_sum s' hf _ hn]
  · intro k hk
    have hck : (Ramanujan1910.calls k s).curr_k = k := by
      rw [Ramanujan1910.calls_curr_k s (by omega), hk0]
      omega
    show (Ramanujan1910Opt.pi_impl_ramanujan_1910_opt_compute_next_term _).impl.term =
      (Ramanujan1910.pi_impl_ramanujan_1910_compute_next_term _).impl.term
    rw [Ramanujan1910Opt.next_term_term_nowrap s' hf k hk,
      Ramanujan1910.next_term_term _ (by omega), hck]

/-- Witness of the amended C4 at the structs `initialize` builds for `desiredDigits = 50`, over `ℚ`. -/
theorem running_sums_agree_before_wrap_witness :
    (Ramanujan1910.pi_impl_ramanujan_1910_initialize sqrt_ui_q 50 =
        some (Ramanujan1910.impl_50, 9) ∧
      Ramanujan1910Opt.pi_impl_ramanujan_1910_opt_initialize sqrt_ui_q 50 =
        some (Ramanujan1910Opt.impl_50, 10)) ∧
    (∀ n, n ≤ K_NOWRAP + 1 →
      (Ramanujan1910Opt.calls n Ramanujan1910Opt.impl_50).term_sum =
        (Ramanujan1910.calls n Ramanujan1910.impl_50).term_sum) ∧
    (∀ k, k ≤ K_NOWRAP →
      (Ramanujan1910Opt.nth_call k Ramanujan1910Opt.impl_50).impl.term =
        (Ramanujan1910.nth_call k Ramanujan1910.impl_50).impl.term) :=
  ⟨⟨Ramanujan1910.initialize_50, Ramanujan1910Opt.opt_initialize_50⟩,
    running_sums_agree_before_wrap ℚ sqrt_ui_q 50 Ramanujan1910.impl_50 9
      Ramanujan1910Opt.impl_50 10 Ramanujan1910.initialize_50 Ramanujan1910Opt.opt_initialize_50⟩

/-- C5, as stated, fails for both variants (exact real arithmetic, `desiredDigits = 50`).
Recomputing variant: at index `2 ^ 62` the product `4UL * k` wraps to `0`, and after
`2 ^ 62 + 1` calls `term_sum` is not the sum of the first `2 ^ 62 + 1` terms of the formula.
Incremental variant: at index `K_NOWRAP + 1` the factor `1103UL + 26390UL * k` wraps, and after
`K_NOWRAP + 2` calls `term_sum` is not the sum of the first `K_NOWRAP + 2` terms. -/
theorem running_sum_leaves_series_after_wrap :
    (∃ s mk, Ramanujan1910.pi_impl_ramanujan_1910_initialize
        (fun n : Nat => Real.sqrt (n : ℝ)) 50 = some (s, mk) ∧
      (Ramanujan1910.calls (2 ^ 62 + 1) s).term_sum ≠
        ∑ i in Finset.range (2 ^ 62 + 1),
          (((4 * i).factorial : ℝ) * (1103 + 26390 * (i : ℝ))) /
            (((i.factorial : ℝ)) ^ 4 * (396 : ℝ) ^ (4 * i))) ∧
    (∃ s mk, Ramanujan1910Opt.pi_impl_ramanujan_1910_opt_initialize
        (fun n : Nat => Real.sqrt (n : ℝ)) 50 = some (s, mk) ∧
      (Ramanujan1910Opt.calls (K_NOWRAP + 2) s).term_sum ≠
        ∑ i in Finset.range (K_NOWRAP + 2),
          (((4 * i).factorial : ℝ) * (1103 + 26390 * (i : ℝ))) /
            (((i.factorial : ℝ)) ^ 4 * (396 : ℝ) ^ (4 * i))) := by
  obtain ⟨s, mk, hi, _⟩ :=
    Ramanujan1910.converges (fun n : Nat => Real.sqrt (n : ℝ)) 50 (by norm_num) (by norm_num)
  obtain ⟨s', mk', hi', _⟩ :=
    Ramanujan1910Opt.opt_converges (fun n : Nat => Real.sqrt (n : ℝ)) 50 (by norm_num)
      (by norm_num)
  obtain ⟨hk0, _, hts, _⟩ := Ramanujan1910.initialize_fresh _ _ _ _ hi
  obtain ⟨hf, _⟩ := Ramanujan1910Opt.opt_initialize_fresh _ _ _ _ hi'
  have hK := K_NOWRAP_eq
  constructor
  · refine ⟨s, mk, hi, ?_⟩
    have hck : (Ramanujan1910.calls (2 ^ 62) s).curr_k = 2 ^ 62 := by
      rw [Ramanujan1910.calls_curr_k s (by omega), hk0]
      omega
    have hw := Ramanujan1910.term_wraps (Ramanujan1910.calls (2 ^ 62) s)
      (by rw [hck]; decide) (by rw [hck]; omega)
    rw [hck, Ramanujan1910.calls_term_sum s hk0 _ (le_refl _), hts, zero_add] at hw
    rw [Ramanujan1910.calls_succ, Finset.sum_range_succ]
    exact hw
  · refine ⟨s', mk', hi', ?_⟩
    rw [Finset.sum_range_succ, Ramanujan1910Opt.opt_calls_succ,
      Ramanujan1910Opt.opt_next_term_term_sum, Ramanujan1910Opt.opt_calls_term_sum s' hf _ (by omega)]
    intro h
    exact Ramanujan1910Opt.opt_term_wraps s' hf (K_NOWRAP + 1) (by omega) (by omega)
      (add_left_cancel h)

/-- C5, amended. For each variant and every struct a successful `initialize` of that variant
builds (the two `digits` are independent), on the fresh state `term_sum` is `0`, and after `n` calls of
`compute_next_term` it equals the sum over `i` in `[0, n)` of
`(4i)! * (1103 + 26390 * i) / ((i!)^4 * 396^(4i))`, for every `n <= 2 ^ 62` in the recomputing
variant and every `n <= K_NOWRAP + 1 = 699005080474027` in the incremental variant (MPFR
primitives taken as exact arithmetic). -/
theorem running_sum_is_partial_series (F : Type) [Field F] (sqrt_ui : Nat → F)
    (d : Int) (s : Ramanujan1910.__mpfr_pi_impl F) (mk : Nat)
    (hi : Ramanujan1910.pi_impl_ramanujan_1910_initialize sqrt_ui d = some (s, mk))
    (d' : Int) (s' : Ramanujan1910Opt.__mpfr_pi_impl F) (mk' : Nat)
    (hi' : Ramanujan1910Opt.pi_impl_ramanujan_1910_opt_initialize sqrt_ui d' = some (s', mk')) :
    (s.term_sum = 0 ∧
      ∀ n, n ≤ 2 ^ 62 →
        (Ramanujan1910.calls n s).term_sum =
          ∑ i in Finset.range n,
            (((4 * i).factorial : F) * (1103 + 26390 * (i : F))) /
              (((i.factorial : F)) ^ 4 * (396 : F) ^ (4 * i))) ∧
    (s'.term_sum = 0 ∧
      ∀ n, n ≤ K_NOWRAP + 1 →
        (Ramanujan1910Opt.calls n s').term_sum =
          ∑ i in Finset.range n,
            (((4 * i).factorial : F) * (1103 + 26390 * (i : F))) /
              (((i.factorial : F)) ^ 4 * (396 : F) ^ (4 * i))) := by
  constructor
  · obtain ⟨hk0, _, hts, _⟩ := Ramanujan1910.initialize_fresh _ _ _ _ hi
    refine ⟨hts, ?_⟩
    intro n hn
    rw [Ramanujan1910.calls_term_sum s hk0 _ hn, hts, zero_add]
    rfl
  · obtain ⟨hf, _⟩ := Ramanujan1910Opt.opt_initialize_fresh _ _ _ _ hi'
    refine ⟨hf.2.2.2.2, ?_⟩
    intro n hn
    rw [Ramanujan1910Opt.opt_calls_term_sum s' hf _ hn]
    rfl

/-- Witness of the amended C5 at the structs `initialize` builds for `desiredDigits = 50`, over `ℚ`. -/
theorem running_sum_is_partial_series_witness :
    (Ramanujan1910.pi_impl_ramanujan_1910_initialize sqrt_ui_q 50 =
        some (Ramanujan1910.impl_50, 9) ∧
      Ramanujan1910Opt.pi_impl_ramanujan_1910_opt_initialize sqrt_ui_q 50 =
        some (Ramanujan1910Opt.impl_50, 10)) ∧
    (Ramanujan1910.impl_50.term_sum = 0 ∧
      ∀ n, n ≤ 2 ^ 62 →
        (Ramanujan1910.calls n Ramanujan1910.impl_50).term_sum =
          ∑ i in Finset.range n,
            (((4 * i).factorial : ℚ) * (1103 + 26390 * (i : ℚ))) /
              (((i.factorial : ℚ)) ^ 4 * (396 : ℚ) ^ (4 * i))) ∧
    (Ramanujan1910Opt.impl_50.term_sum = 0 ∧
      ∀ n, n ≤ K_NOWRAP + 1 →
        (Ramanujan1910Opt.calls n Ramanujan1910Opt.impl_50).term_sum =
          ∑ i in Finset.range n,
            (((4 * i).factorial : ℚ) * (1103 + 26390 * (i : ℚ))) /
              (((i.factorial : ℚ)) ^ 4 * (396 : ℚ) ^ (4 * i))) :=
  ⟨⟨Ramanujan1910.initialize_50, Ramanujan1910Opt.opt_initialize_50⟩,
    running_sum_is_partial_series ℚ sqrt_ui_q 50 Ramanujan1910.impl_50 9
      Ramanujan1910.initialize_50 50 Ramanujan1910Opt.impl_50 10
      Ramanujan1910Opt.opt_initialize_50⟩

/-! ### The iteration bound (C6) -/

/-- C6, as stated, fails. For `digits = 8` the recomputing variant sets `max_k` and
`*out_max_k` to `4`, and for `digits = 1` the incremental variant sets them to `4`, where
`ceil(digits / 8) + 2` is `3` in both cases. -/
theorem max_k_is_not_ceiling_plus_two :
    (∃ s, Ramanujan1910.pi_impl_ramanujan_1910_initialize sqrt_ui_q 8 = some (s, 4) ∧
      s.max_k = 4 ∧ ((4 : Nat) : Int) ≠ ⌈(8 : ℚ) / 8⌉ + 2) ∧
    (∃ s, Ramanujan1910Opt.pi_impl_ramanujan_1910_opt_initialize sqrt_ui_q 1 = some (s, 4) ∧
      s.max_k = 4 ∧ ((4 : Nat) : Int) ≠ ⌈(1 : ℚ) / 8⌉ + 2) := by
  constructor
  · refine ⟨_, Ramanujan1910.initialize_some sqrt_ui_q 8 (by decide) (by decide), rfl, ?_⟩
    have : ⌈(8 : ℚ) / 8⌉ = 1 := by norm_num
    rw [this]
    decide
  · refine ⟨_, Ramanujan1910Opt.opt_initialize_some sqrt_ui_q 1 (by decide) (by decide), rfl, ?_⟩
    have : ⌈(1 : ℚ) / 8⌉ = 1 := by
      rw [Int.ceil_eq_iff]
      norm_num
    rw [this]
    decide

theorem ceil_div_eight (d : Int) (h : ¬ (8 : Int) ∣ d) : ⌈(d : ℚ) / 8⌉ = d / 8 + 1 := by
  have h8 : d = 8 * (d / 8) + d % 8 := (Int.ediv_add_emod d 8).symm
  have hr : 0 < d % 8 ∧ d % 8 < 8 := by omega
  have hq : (d : ℚ) = 8 * ((d / 8 : Int) : ℚ) + ((d % 8 : Int) : ℚ) := by exact_mod_cast h8
  have h1 : (0 : ℚ) < ((d % 8 : Int) : ℚ) := by exact_mod_cast hr.1
  have h2 : ((d % 8 : Int) : ℚ) < 8 := by exact_mod_cast hr.2
  rw [Int.ceil_eq_iff]
  push_cast
  constructor
  · rw [lt_div_iff₀ (by norm_num)]
    linarith
  · rw [div_le_iff₀ (by norm_num)]
    linarith

/-- C6, amended. For every `desiredDigits` with `0 < desiredDigits < LONG_MAX / 2`, `initialize`
succeeds and sets `max_k` and `*out_max_k` to `desiredDigits / 8 + 3` (integer division) in the
recomputing variant and to `desiredDigits / 8 + 4` in the incremental variant; in the recomputing
variant this is `ceil(desiredDigits / 8) + 2` whenever `desiredDigits` is not a multiple of 8. -/
theorem max_k_is_quotient_plus_slack (F : Type) [Field F] (sqrt_ui : Nat → F) (d : Int)
    (h0 : 0 < d) (h1 : d < Int.tdiv LONG_MAX 2) :
    (∃ s mk, Ramanujan1910.pi_impl_ramanujan_1910_initialize sqrt_ui d = some (s, mk) ∧
      s.max_k = mk ∧ (mk : Int) = d / 8 + 3 ∧
      (¬ (8 : Int) ∣ d → (mk : Int) = ⌈(d : ℚ) / 8⌉ + 2)) ∧
    (∃ s mk, Ramanujan1910Opt.pi_impl_ramanujan_1910_opt_initialize sqrt_ui d = some (s, mk) ∧
      s.max_k = mk ∧ (mk : Int) = d / 8 + 4) := by
  have hL : Int.tdiv LONG_MAX 2 = 2 ^ 62 - 1 := by decide
  rw [hL] at h1
  constructor
  · obtain ⟨s, mk, hi, hm, hk, _⟩ := Ramanujan1910.converges sqrt_ui d (by omega) h1
    refine ⟨s, mk, hi, hm, hk, ?_⟩
    intro h8
    rw [ceil_div_eight d h8, hk]
    ring
  · obtain ⟨s, mk, hi, hm, hk, _⟩ := Ramanujan1910Opt.opt_converges sqrt_ui d (by omega) h1
    exact ⟨s, mk, hi, hm, hk⟩

/-- Witness of the amended C6 at `desiredDigits = 50`, over `ℚ`. -/
theorem max_k_is_quotient_plus_slack_witness :
    ((0 : Int) < 50 ∧ (50 : Int) < Int.tdiv LONG_MAX 2) ∧
    (∃ s mk, Ramanujan1910.pi_impl_ramanujan_1910_initialize sqrt_ui_q 50 = some (s, mk) ∧
      s.max_k = mk ∧ (mk : Int) = 50 / 8 + 3 ∧
      (¬ (8 : Int) ∣ 50 → (mk : Int) = ⌈((50 : Int) : ℚ) / 8⌉ + 2)) ∧
    (∃ s mk, Ramanujan1910Opt.pi_impl_ramanujan_1910_opt_initialize sqrt_ui_q 50 =
        some (s, mk) ∧
      s.max_k = mk ∧ (mk : Int) = 50 / 8 + 4) :=
  ⟨by decide, max_k_is_quotient_plus_slack ℚ sqrt_ui_q 50 (by decide) (by decide)⟩

/-! ### One call of `compute_next_term` (C7, C8) -/

/-- C7, as stated, fails at the top of the `unsigned long` range. After `ULONG_MAX` calls on a
freshly initialized state `curr_k` is `ULONG_MAX`; the next call leaves `curr_k = 0`, not the
pre-call value plus one. -/
theorem curr_k_wraps_at_ulong_max :
    (∃ s mk, Ramanujan1910.pi_impl_ramanujan_1910_initialize sqrt_ui_q 50 = some (s, mk) ∧
      (Ramanujan1910.calls ULONG_MAX s).curr_k = ULONG_MAX ∧
      (Ramanujan1910.pi_impl_ramanujan_1910_compute_next_term
        (Ramanujan1910.calls ULONG_MAX s)).impl.curr_k = 0 ∧
      (Ramanujan1910.pi_impl_ramanujan_1910_compute_next_term
        (Ramanujan1910.calls ULONG_MAX s)).impl.curr_k ≠
          (Ramanujan1910.calls ULONG_MAX s).curr_k + 1) ∧
    (∃ s mk, Ramanujan1910Opt.pi_impl_ramanujan_1910_opt_initialize sqrt_ui_q 50 =
        some (s, mk) ∧
      (Ramanujan1910Opt.calls ULONG_MAX s).curr_k = ULONG_MAX ∧
      (Ramanujan1910Opt.pi_impl_ramanujan_1910_opt_compute_next_term
        (Ramanujan1910Opt.calls ULONG_MAX s)).impl.curr_k = 0 ∧
      (Ramanujan1910Opt.pi_impl_ramanujan_1910_opt_compute_next_term
        (Ramanujan1910Opt.calls ULONG_MAX s)).impl.curr_k ≠
          (Ramanujan1910Opt.calls ULONG_MAX s).curr_k + 1) := by
  have hU : ULONG_MAX = 2 ^ 64 - 1 := rfl
  constructor
  · have hk : (Ramanujan1910.calls ULONG_MAX Ramanujan1910.impl_50).curr_k = ULONG_MAX := by
      rw [Ramanujan1910.calls_curr_k _ (by decide)]
      decide
    have hn : (Ramanujan1910.pi_impl_ramanujan_1910_compute_next_term
        (Ramanujan1910.calls ULONG_MAX Ramanujan1910.impl_50)).impl.curr_k = 0 := by
      show ulong_add _ 1 = 0
      rw [hk]
      decide
    refine ⟨_, _, Ramanujan1910.initialize_50, hk, hn, ?_⟩
    rw [hn, hk]
    decide
  · have hk : (Ramanujan1910Opt.calls ULONG_MAX Ramanujan1910Opt.impl_50).curr_k =
        ULONG_MAX := by
      rw [Ramanujan1910Opt.opt_calls_curr_k _ (by decide)]
      decide
    have hn : (Ramanujan1910Opt.pi_impl_ramanujan_1910_opt_compute_next_term
        (Ramanujan1910Opt.calls ULONG_MAX Ramanujan1910Opt.impl_50)).impl.curr_k = 0 := by
      show ulong_add _ 1 = 0
      rw [hk]
      decide
    refine ⟨_, _, Ramanujan1910Opt.opt_initialize_50, hk, hn, ?_⟩
    rw [hn, hk]
    decide

/-- C7, amended. For both variants and every state, one call to `compute_next_term` sets
`*k_out` to the pre-call `curr_k`, returns `1` if the pre-call `curr_k >= max_k` and `0`
otherwise, and leaves `curr_k` equal to the pre-call value plus one modulo `2 ^ 64`: plus
exactly one below `ULONG_MAX`, and `0` at `ULONG_MAX`. -/
theorem next_term_outputs_and_increment (F : Type) [Field F]
    (s : Ramanujan1910.__mpfr_pi_impl F) (s' : Ramanujan1910Opt.__mpfr_pi_impl F)
    (h : s.curr_k ≤ ULONG_MAX) (h' : s'.curr_k ≤ ULONG_MAX) :
    ((Ramanujan1910.pi_impl_ramanujan_1910_compute_next_term s).out_k = s.curr_k ∧
      ((Ramanujan1910.pi_impl_ramanujan_1910_compute_next_term s).ret = 1 ↔
        s.curr_k ≥ s.max_k) ∧
      ((Ramanujan1910.pi_impl_ramanujan_1910_compute_next_term s).ret = 0 ↔
        ¬ s.curr_k ≥ s.max_k) ∧
      (Ramanujan1910.pi_impl_ramanujan_1910_compute_next_term s).impl.curr_k =
        if s.curr_k = ULONG_MAX then 0 else s.curr_k + 1) ∧
    ((Ramanujan1910Opt.pi_impl_ramanujan_1910_opt_compute_next_term s').out_k = s'.curr_k ∧
      ((Ramanujan1910Opt.pi_impl_ramanujan_1910_opt_compute_next_term s').ret = 1 ↔
        s'.curr_k ≥ s'.max_k) ∧
      ((Ramanujan1910Opt.pi_impl_ramanujan_1910_opt_compute_next_term s').ret = 0 ↔
        ¬ s'.curr_k ≥ s'.max_k) ∧
      (Ramanujan1910Opt.pi_impl_ramanujan_1910_opt_compute_next_term s').impl.curr_k =
        if s'.curr_k = ULONG_MAX then 0 else s'.curr_k + 1) := by
  have hU : ULONG_MAX = 2 ^ 64 - 1 := rfl
  rw [hU] at h h'
  refine ⟨⟨rfl, ?_, ?_, ?_⟩, ⟨rfl, ?_, ?_, ?_⟩⟩
  · show (if s.curr_k ≥ s.max_k then (1 : Int) else 0) = 1 ↔ _
    split <;> simp_all
  · show (if s.curr_k ≥ s.max_k then (1 : Int) else 0) = 0 ↔ _
    split <;> simp_all
  · show ulong_add s.curr_k 1 = _
    unfold ulong_add
    rw [hU]
    split <;> omega
  · show (if s'.curr_k ≥ s'.max_k then (1 : Int) else 0) = 1 ↔ _
    split <;> simp_all
  · show (if s'.curr_k ≥ s'.max_k then (1 : Int) else 0) = 0 ↔ _
    split <;> simp_all
  · show ulong_add s'.curr_k 1 = _
    unfold ulong_add
    rw [hU]
    split <;> omega

/-- Witness of the amended C7 at the structs `initialize` builds for `desiredDigits = 50`, over `ℚ`. -/
theorem next_term_outputs_and_increment_witness :
    (Ramanujan1910.impl_50.curr_k ≤ ULONG_MAX ∧ Ramanujan1910Opt.impl_50.curr_k ≤ ULONG_MAX) ∧
    ((Ramanujan1910.pi_impl_ramanujan_1910_compute_next_term Ramanujan1910.impl_50).out_k =
        Ramanujan1910.impl_50.curr_k ∧
      ((Ramanujan1910.pi_impl_ramanujan_1910_compute_next_term Ramanujan1910.impl_50).ret = 1 ↔
        Ramanujan1910.impl_50.curr_k ≥ Ramanujan1910.impl_50.max_k) ∧
      ((Ramanujan1910.pi_impl_ramanujan_1910_compute_next_term Ramanujan1910.impl_50).ret = 0 ↔
        ¬ Ramanujan1910.impl_50.curr_k ≥ Ramanujan1910.impl_50.max_k) ∧
      (Ramanujan1910.pi_impl_ramanujan_1910_compute_next_term Ramanujan1910.impl_50).impl.curr_k =
        if Ramanujan1910.impl_50.curr_k = ULONG_MAX then 0
        else Ramanujan1910.impl_50.curr_k + 1) ∧
    ((Ramanujan1910Opt.pi_impl_ramanujan_1910_opt_compute_next_term
        Ramanujan1910Opt.impl_50).out_k = Ramanujan1910Opt.impl_50.curr_k ∧
      ((Ramanujan1910Opt.pi_impl_ramanujan_1910_opt_compute_next_term
        Ramanujan1910Opt.impl_50).ret = 1 ↔
        Ramanujan1910Opt.impl_50.curr_k ≥ Ramanujan1910Opt.impl_50.max_k) ∧
      ((Ramanujan1910Opt.pi_impl_ramanujan_1910_opt_compute_next_term
        Ramanujan1910Opt.impl_50).ret = 0 ↔
        ¬ Ramanujan1910Opt.impl_50.curr_k ≥ Ramanujan1910Opt.impl_50.max_k) ∧
      (Ramanujan1910Opt.pi_impl_ramanujan_1910_opt_compute_next_term
        Ramanujan1910Opt.impl_50).impl.curr_k =
        if Ramanujan1910Opt.impl_50.curr_k = ULONG_MAX then 0
        else Ramanujan1910Opt.impl_50.curr_k + 1) :=
  ⟨by decide, next_term_outputs_and_increment ℚ Ramanujan1910.impl_50 Ramanujan1910Opt.impl_50
    (by decide) (by decide)⟩

/-- C8, as stated, fails. On a freshly initialized state (`desiredDigits = 50`) the second call
of the recomputing variant writes `*digits_out = 0 = K_TO_DIGITS(1)` while `K_TO_DIGITS` at the
post-increment `curr_k = 2` is `14`; the third call of the incremental variant writes `0` while
`K_TO_DIGITS` at the post-increment `curr_k = 3` is `21`. -/
theorem digits_out_is_not_estimate_at_new_k :
    (Ramanujan1910.pi_impl_ramanujan_1910_initialize sqrt_ui_q 50 =
        some (Ramanujan1910.impl_50, 9) ∧
      (Ramanujan1910.nth_call 1 Ramanujan1910.impl_50).impl.curr_k = 2 ∧
      (Ramanujan1910.nth_call 1 Ramanujan1910.impl_50).digits_out = 0 ∧
      to_long (Ramanujan1910.K_TO_DIGITS
        (Ramanujan1910.nth_call 1 Ramanujan1910.impl_50).impl.curr_k) = 14) ∧
    (Ramanujan1910Opt.pi_impl_ramanujan_1910_opt_initialize sqrt_ui_q 50 =
        some (Ramanujan1910Opt.impl_50, 10) ∧
      (Ramanujan1910Opt.nth_call 2 Ramanujan1910Opt.impl_50).impl.curr_k = 3 ∧
      (Ramanujan1910Opt.nth_call 2 Ramanujan1910Opt.impl_50).digits_out = 0 ∧
      to_long (Ramanujan1910Opt.K_TO_DIGITS
        (Ramanujan1910Opt.nth_call 2 Ramanujan1910Opt.impl_50).impl.curr_k) = 21) :=
  ⟨⟨Ramanujan1910.initialize_50, by decide⟩, ⟨Ramanujan1910Opt.opt_initialize_50, by decide⟩⟩

/-- C8, amended. For both variants and every state, the digit estimate `compute_next_term`
writes to `*digits_out` is `K_TO_DIGITS` evaluated at the pre-increment value of `curr_k`, the
index the call consumed and reports in `*k_out`. -/
theorem digits_out_is_estimate_at_consumed_k (F : Type) [Field F]
    (s : Ramanujan1910.__mpfr_pi_impl F) (s' : Ramanujan1910Opt.__mpfr_pi_impl F) :
    ((Ramanujan1910.pi_impl_ramanujan_1910_compute_next_term s).digits_out =
        to_long (Ramanujan1910.K_TO_DIGITS s.curr_k) ∧
      (Ramanujan1910.pi_impl_ramanujan_1910_compute_next_term s).digits_out =
        to_long (Ramanujan1910.K_TO_DIGITS
          (Ramanujan1910.pi_impl_ramanujan_1910_compute_next_term s).out_k)) ∧
    ((Ramanujan1910Opt.pi_impl_ramanujan_1910_opt_compute_next_term s').digits_out =
        to_long (Ramanujan1910Opt.K_TO_DIGITS s'.curr_k) ∧
      (Ramanujan1910Opt.pi_impl_ramanujan_1910_opt_compute_next_term s').digits_out =
        to_long (Ramanujan1910Opt.K_TO_DIGITS
          (Ramanujan1910Opt.pi_impl_ramanujan_1910_opt_compute_next_term s').out_k)) :=
  ⟨⟨rfl, rfl⟩, ⟨rfl, rfl⟩⟩

/-! ### The digit estimate along the call sequence (C9, C10) -/

/-- C9. For each variant and a state obtained from a successful `initialize` of that variant
(the two `digits`, each in the range of `long`, are independent), the `digits_out`
values of successive `compute_next_term` calls are non-decreasing: whenever call `n` consumes an
index `k <= max_k`, the estimate of call `n + 1` is at least the estimate of call `n` (64-bit
unsigned arithmetic in `K_TO_DIGITS`, conversion to `long` on the store). -/
theorem digits_out_monotone (F : Type) [Field F] (sqrt_ui : Nat → F)
    (d : Int) (hd : LONG_MIN ≤ d) (s : Ramanujan1910.__mpfr_pi_impl F) (mk : Nat)
    (hi : Ramanujan1910.pi_impl_ramanujan_1910_initialize sqrt_ui d = some (s, mk))
    (d' : Int) (hd' : LONG_MIN ≤ d') (s' : Ramanujan1910Opt.__mpfr_pi_impl F) (mk' : Nat)
    (hi' : Ramanujan1910Opt.pi_impl_ramanujan_1910_opt_initialize sqrt_ui d' = some (s', mk'))
    (n : Nat) :
    ((Ramanujan1910.nth_call n s).out_k ≤ s.max_k →
      (Ramanujan1910.nth_call n s).digits_out ≤ (Ramanujan1910.nth_call (n + 1) s).digits_out) ∧
    ((Ramanujan1910Opt.nth_call n s').out_k ≤ s'.max_k →
      (Ramanujan1910Opt.nth_call n s').digits_out ≤
        (Ramanujan1910Opt.nth_call (n + 1) s').digits_out) := by
  constructor
  · obtain ⟨hk0, hmk, _, _, _, hm, hlt, h1⟩ := Ramanujan1910.initialize_fresh _ _ _ _ hi
    have hsm := max_k_small d 3 mk (by decide) (by decide) hd h1 hm hlt
    intro hle
    rw [Ramanujan1910.nth_call_out_k, Ramanujan1910.calls_curr_k s (by omega), hk0, hmk] at hle
    rw [Ramanujan1910.nth_call_digits_out, Ramanujan1910.nth_call_digits_out,
      Ramanujan1910.calls_curr_k s (by omega), Ramanujan1910.calls_curr_k s (by omega), hk0]
    have e : (0 + (n + 1)) % 2 ^ 64 = (0 + n) % 2 ^ 64 + 1 := by omega
    rw [e]
    generalize (0 + n) % 2 ^ 64 = k at hle
    rw [Ramanujan1910.K_TO_DIGITS_small k (by omega),
      Ramanujan1910.K_TO_DIGITS_small (k + 1) (by omega)]
    rw [to_long_of_lt _ (by split <;> omega), to_long_of_lt _ (by split <;> omega)]
    split <;> split <;> omega
  · obtain ⟨⟨hk0, _⟩, hmk, _, _, hm, hlt, h1⟩ :=
      Ramanujan1910Opt.opt_initialize_fresh _ _ _ _ hi'
    have hsm := max_k_small d' 4 mk' (by decide) (by decide) hd' h1 hm hlt
    intro hle
    rw [Ramanujan1910Opt.opt_nth_call_out_k, Ramanujan1910Opt.opt_calls_curr_k s' (by omega), hk0,
      hmk] at hle
    rw [Ramanujan1910Opt.opt_nth_call_digits_out, Ramanujan1910Opt.opt_nth_call_digits_out,
      Ramanujan1910Opt.opt_calls_curr_k s' (by omega),
      Ramanujan1910Opt.opt_calls_curr_k s' (by omega), hk0]
    have e : (0 + (n + 1)) % 2 ^ 64 = (0 + n) % 2 ^ 64 + 1 := by omega
    rw [e]
    generalize (0 + n) % 2 ^ 64 = k at hle
    rw [Ramanujan1910Opt.opt_K_TO_DIGITS_small k (by omega),
      Ramanujan1910Opt.opt_K_TO_DIGITS_small (k + 1) (by omega)]
    rw [to_long_of_lt _ (by split <;> omega), to_long_of_lt _ (by split <;> omega)]
    split <;> split <;> omega

/-- Witness of C9 at `desiredDigits = 50` and call number `2`, over `ℚ`. -/
theorem digits_out_monotone_witness :
    (LONG_MIN ≤ 50 ∧
      Ramanujan1910.pi_impl_ramanujan_1910_initialize sqrt_ui_q 50 =
        some (Ramanujan1910.impl_50, 9) ∧
      LONG_MIN ≤ 50 ∧
      Ramanujan1910Opt.pi_impl_ramanujan_1910_opt_initialize sqrt_ui_q 50 =
        some (Ramanujan1910Opt.impl_50, 10)) ∧
    ((Ramanujan1910.nth_call 2 Ramanujan1910.impl_50).out_k ≤ Ramanujan1910.impl_50.max_k →
      (Ramanujan1910.nth_call 2 Ramanujan1910.impl_50).digits_out ≤
        (Ramanujan1910.nth_call (2 + 1) Ramanujan1910.impl_50).digits_out) ∧
    ((Ramanujan1910Opt.nth_call 2 Ramanujan1910Opt.impl_50).out_k ≤
        Ramanujan1910Opt.impl_50.max_k →
      (Ramanujan1910Opt.nth_call 2 Ramanujan1910Opt.impl_50).digits_out ≤
        (Ramanujan1910Opt.nth_call (2 + 1) Ramanujan1910Opt.impl_50).digits_out) :=
  ⟨⟨by decide, Ramanujan1910.initialize_50, by decide, Ramanujan1910Opt.opt_initialize_50⟩,
    digits_out_monotone ℚ sqrt_ui_q 50 (by decide) Ramanujan1910.impl_50 9
      Ramanujan1910.initialize_50 50 (by decide) Ramanujan1910Opt.impl_50 10
      Ramanujan1910Opt.opt_initialize_50 2⟩

theorem Ramanujan1910.all_reports_zero_iff {F : Type} [Field F] (s : Ramanujan1910.__mpfr_pi_impl F)
    (hk0 : s.curr_k = 0) (n : Nat) (hn : n ≤ 2 ^ 64) :
    (∀ i, i < n → (Ramanujan1910.nth_call i s).digits_out = 0) ↔ n ≤ 2 := by
  have hd : ∀ i, i < n → ((Ramanujan1910.nth_call i s).digits_out = 0 ↔ i < 2) := by
    intro i hi
    rw [Ramanujan1910.nth_call_digits_out, Ramanujan1910.calls_curr_k s (by omega), hk0,
      to_long_eq_zero _ (Ramanujan1910.K_TO_DIGITS_lt _), Ramanujan1910.K_TO_DIGITS_eq_zero]
    omega
  constructor
  · intro h
    by_contra hc
    have := (hd 2 (by omega)).mp (h 2 (by omega))
    omega
  · intro h i hi
    exact (hd i hi).mpr (by omega)

theorem Ramanujan1910Opt.opt_all_reports_zero_iff {F : Type} [Field F]
    (s : Ramanujan1910Opt.__mpfr_pi_impl F) (hk0 : s.curr_k = 0) (n : Nat) (hn : n ≤ 2 ^ 64) :
    (∀ i, i < n → (Ramanujan1910Opt.nth_call i s).digits_out = 0) ↔ n ≤ 3 := by
  have hd : ∀ i, i < n → ((Ramanujan1910Opt.nth_call i s).digits_out = 0 ↔ i < 3) := by
    intro i hi
    rw [Ramanujan1910Opt.opt_nth_call_digits_out, Ramanujan1910Opt.opt_calls_curr_k s (by omega), hk0,
      to_long_eq_zero _ (Ramanujan1910Opt.opt_K_TO_DIGITS_lt _),
      Ramanujan1910Opt.opt_K_TO_DIGITS_eq_zero]
    omega
  constructor
  · intro h
    by_contra hc
    have := (hd 3 (by omega)).mp (h 3 (by omega))
    omega
  · intro h i hi
    exact (hd i hi).mpr (by omega)

theorem Ramanujan1910.get_value_null_iff {F : Type} [Field F] (s : Ramanujan1910.__mpfr_pi_impl F)
    (hk : s.curr_k < 2 ^ 64) :
    ((Ramanujan1910.pi_impl_ramanujan_1910_get_value s).ret = none ∧
      (Ramanujan1910.pi_impl_ramanujan_1910_get_value s).digits_out = 0 ↔ s.curr_k ≤ 2) ∧
    (¬ s.curr_k ≤ 2 → ∃ v, (Ramanujan1910.pi_impl_ramanujan_1910_get_value s).ret = some v ∧
      (Ramanujan1910.pi_impl_ramanujan_1910_get_value s).digits_out ≠ 0) := by
  rw [Ramanujan1910.get_value_ret, Ramanujan1910.get_value_digits_out]
  by_cases h : s.curr_k = 0 ∨ Ramanujan1910.K_TO_DIGITS (ulong_sub s.curr_k 1) = 0
  · rw [if_pos h, if_pos h]
    have : s.curr_k ≤ 2 := by
      rcases h with h | h
      · omega
      · by_contra hc
        rw [ulong_sub_of_le _ _ (by omega) hk, Ramanujan1910.K_TO_DIGITS_eq_zero] at h
        omega
    exact ⟨⟨fun _ => this, fun _ => ⟨rfl, rfl⟩⟩, fun hc => absurd this hc⟩
  · rw [if_neg h, if_neg h]
    push_neg at h
    have h2 : ¬ s.curr_k ≤ 2 := by
      intro hc
      apply h.2
      rw [ulong_sub_of_le _ _ (by omega) hk, Ramanujan1910.K_TO_DIGITS_eq_zero]
      omega
    refine ⟨⟨fun hh => absurd hh.1 (by simp), fun hc => absurd hc h2⟩, fun _ => ⟨_, rfl, ?_⟩⟩
    rw [Ne, to_long_eq_zero _ (Ramanujan1910.K_TO_DIGITS_lt _)]
    exact h.2

theorem Ramanujan1910Opt.opt_get_value_null_iff {F : Type} [Field F]
    (s : Ramanujan1910Opt.__mpfr_pi_impl F) (hk : s.curr_k < 2 ^ 64) :
    ((Ramanujan1910Opt.pi_impl_ramanujan_1910_opt_get_value s).ret = none ∧
      (Ramanujan1910Opt.pi_impl_ramanujan_1910_opt_get_value s).digits_out = 0 ↔
        s.curr_k ≤ 3) ∧
    (¬ s.curr_k ≤ 3 →
      ∃ v, (Ramanujan1910Opt.pi_impl_ramanujan_1910_opt_get_value s).ret = some v ∧
        (Ramanujan1910Opt.pi_impl_ramanujan_1910_opt_get_value s).digits_out ≠ 0) := by
  rw [Ramanujan1910Opt.opt_get_value_ret, Ramanujan1910Opt.opt_get_value_digits_out]
  by_cases h : s.curr_k = 0 ∨ Ramanujan1910Opt.K_TO_DIGITS (ulong_sub s.curr_k 1) = 0
  · rw [if_pos h, if_pos h]
    have : s.curr_k ≤ 3 := by
      rcases h with h | h
      · omega
      · by_contra hc
        rw [ulong_sub_of_le _ _ (by omega) hk, Ramanujan1910Opt.opt_K_TO_DIGITS_eq_zero] at h
        omega
    exact ⟨⟨fun _ => this, fun _ => ⟨rfl, rfl⟩⟩, fun hc => absurd this hc⟩
  · rw [if_neg h, if_neg h]
    push_neg at h
    have h2 : ¬ s.curr_k ≤ 3 := by
      intro hc
      apply h.2
      rw [ulong_sub_of_le _ _ (by omega) hk, Ramanujan1910Opt.opt_K_TO_DIGITS_eq_zero]
      omega
    refine ⟨⟨fun hh => absurd hh.1 (by simp), fun hc => absurd hc h2⟩, fun _ => ⟨_, rfl, ?_⟩⟩
    rw [Ne, to_long_eq_zero _ (Ramanujan1910Opt.opt_K_TO_DIGITS_lt _)]
    exact h.2

/-- C10, as stated, fails once `curr_k` has wrapped. After `2 ^ 64` calls on a freshly
initialized state (`desiredDigits = 50`) `curr_k` is `0` again and `get_value` returns `NULL`
with `*digits_out = 0`, although an earlier call (the third in the recomputing variant, the
fourth in the incremental variant) has reported a non-zero `digits_out`. -/
theorem get_value_null_after_wrap :
    (∃ s mk, Ramanujan1910.pi_impl_ramanujan_1910_initialize sqrt_ui_q 50 = some (s, mk) ∧
      (Ramanujan1910.pi_impl_ramanujan_1910_get_value
        (Ramanujan1910.calls (2 ^ 64) s)).ret = none ∧
      (Ramanujan1910.pi_impl_ramanujan_1910_get_value
        (Ramanujan1910.calls (2 ^ 64) s)).digits_out = 0 ∧
      2 < 2 ^ 64 ∧ (Ramanujan1910.nth_call 2 s).digits_out = 14) ∧
    (∃ s mk, Ramanujan1910Opt.pi_impl_ramanujan_1910_opt_initialize sqrt_ui_q 50 =
        some (s, mk) ∧
      (Ramanujan1910Opt.pi_impl_ramanujan_1910_opt_get_value
        (Ramanujan1910Opt.calls (2 ^ 64) s)).ret = none ∧
      (Ramanujan1910Opt.pi_impl_ramanujan_1910_opt_get_value
        (Ramanujan1910Opt.calls (2 ^ 64) s)).digits_out = 0 ∧
      3 < 2 ^ 64 ∧ (Ramanujan1910Opt.nth_call 3 s).digits_out = 21) := by
  constructor
  · have hk : (Ramanujan1910.calls (2 ^ 64) Ramanujan1910.impl_50).curr_k = 0 := by
      rw [Ramanujan1910.calls_curr_k _ (by decide)]
      decide
    refine ⟨_, _, Ramanujan1910.initialize_50, ?_, ?_, by decide, by decide⟩
    · rw [Ramanujan1910.get_value_ret, if_pos (Or.inl hk)]
    · rw [Ramanujan1910.get_value_digits_out, if_pos (Or.inl hk)]
  · have hk : (Ramanujan1910Opt.calls (2 ^ 64) Ramanujan1910Opt.impl_50).curr_k = 0 := by
      rw [Ramanujan1910Opt.opt_calls_curr_k _ (by decide)]
      decide
    refine ⟨_, _, Ramanujan1910Opt.opt_initialize_50, ?_, ?_, by decide, by decide⟩
    · rw [Ramanujan1910Opt.opt_get_value_ret, if_pos (Or.inl hk)]
    · rw [Ramanujan1910Opt.opt_get_value_digits_out, if_pos (Or.inl hk)]

/-- C10, amended. For each variant and every state reached from a successful `initialize` of that
variant (the two `digits` are independent) by
`n < 2 ^ 64` calls of `compute_next_term` (so `curr_k` has not wrapped), `get_value` returns
`NULL` with `*digits_out = 0` if and only if none of the `n` calls made so far has reported a
non-zero `digits_out` (the case `n = 0` included); otherwise it returns a non-NULL value with a
non-zero `digits_out`. -/
theorem get_value_null_iff_no_digits_reported (F : Type) [Field F] (sqrt_ui : Nat → F)
    (d : Int) (s : Ramanujan1910.__mpfr_pi_impl F) (mk : Nat)
    (hi : Ramanujan1910.pi_impl_ramanujan_1910_initialize sqrt_ui d = some (s, mk))
    (d' : Int) (s' : Ramanujan1910Opt.__mpfr_pi_impl F) (mk' : Nat)
    (hi' : Ramanujan1910Opt.pi_impl_ramanujan_1910_opt_initialize sqrt_ui d' = some (s', mk'))
    (n : Nat) (hn : n < 2 ^ 64) :
    (((Ramanujan1910.pi_impl_ramanujan_1910_get_value (Ramanujan1910.calls n s)).ret = none ∧
        (Ramanujan1910.pi_impl_ramanujan_1910_get_value
          (Ramanujan1910.calls n s)).digits_out = 0 ↔
        ∀ i, i < n → (Ramanujan1910.nth_call i s).digits_out = 0) ∧
      (¬ (∀ i, i < n → (Ramanujan1910.nth_call i s).digits_out = 0) →
        ∃ v, (Ramanujan1910.pi_impl_ramanujan_1910_get_value
            (Ramanujan1910.calls n s)).ret = some v ∧
          (Ramanujan1910.pi_impl_ramanujan_1910_get_value
            (Ramanujan1910.calls n s)).digits_out ≠ 0)) ∧
    (((Ramanujan1910Opt.pi_impl_ramanujan_1910_opt_get_value
          (Ramanujan1910Opt.calls n s')).ret = none ∧
        (Ramanujan1910Opt.pi_impl_ramanujan_1910_opt_get_value
          (Ramanujan1910Opt.calls n s')).digits_out = 0 ↔
        ∀ i, i < n → (Ramanujan1910Opt.nth_call i s').digits_out = 0) ∧
      (¬ (∀ i, i < n → (Ramanujan1910Opt.nth_call i s').digits_out = 0) →
        ∃ v, (Ramanujan1910Opt.pi_impl_ramanujan_1910_opt_get_value
            (Ramanujan1910Opt.calls n s')).ret = some v ∧
          (Ramanujan1910Opt.pi_impl_ramanujan_1910_opt_get_value
            (Ramanujan1910Opt.calls n s')).digits_out ≠ 0)) := by
  constructor
  · obtain ⟨hk0, _⟩ := Ramanujan1910.initialize_fresh _ _ _ _ hi
    have hck : (Ramanujan1910.calls n s).curr_k = n := by
      rw [Ramanujan1910.calls_curr_k s (by omega), hk0]
      omega
    obtain ⟨g1, g2⟩ := Ramanujan1910.get_value_null_iff (Ramanujan1910.calls n s) (by omega)
    rw [hck] at g1 g2
    rw [Ramanujan1910.all_reports_zero_iff s hk0 n (by omega)]
    exact ⟨g1, g2⟩
  · obtain ⟨⟨hk0, _⟩, _⟩ := Ramanujan1910Opt.opt_initialize_fresh _ _ _ _ hi'
    have hck : (Ramanujan1910Opt.calls n s').curr_k = n := by
      rw [Ramanujan1910Opt.opt_calls_curr_k s' (by omega), hk0]
      omega
    obtain ⟨g1, g2⟩ :=
      Ramanujan1910Opt.opt_get_value_null_iff (Ramanujan1910Opt.calls n s') (by omega)
    rw [hck] at g1 g2
    rw [Ramanujan1910Opt.opt_all_reports_zero_iff s' hk0 n (by omega)]
    exact ⟨g1, g2⟩

/-- Witness of the amended C10 at `desiredDigits = 50` after three calls, over `ℚ`. -/
theorem get_value_null_iff_no_digits_reported_witness :
    (Ramanujan1910.pi_impl_ramanujan_1910_initialize sqrt_ui_q 50 =
        some (Ramanujan1910.impl_50, 9) ∧
      Ramanujan1910Opt.pi_impl_ramanujan_1910_opt_initialize sqrt_ui_q 50 =
        some (Ramanujan1910Opt.impl_50, 10) ∧ 3 < 2 ^ 64) ∧
    (((Ramanujan1910.pi_impl_ramanujan_1910_get_value
          (Ramanujan1910.calls 3 Ramanujan1910.impl_50)).ret = none ∧
        (Ramanujan1910.pi_impl_ramanujan_1910_get_value
          (Ramanujan1910.calls 3 Ramanujan1910.impl_50)).digits_out = 0 ↔
        ∀ i, i < 3 → (Ramanujan1910.nth_call i Ramanujan1910.impl_50).digits_out = 0) ∧
      (¬ (∀ i, i < 3 → (Ramanujan1910.nth_call i Ramanujan1910.impl_50).digits_out = 0) →
        ∃ v, (Ramanujan1910.pi_impl_ramanujan_1910_get_value
            (Ramanujan1910.calls 3 Ramanujan1910.impl_50)).ret = some v ∧
          (Ramanujan1910.pi_impl_ramanujan_1910_get_value
            (Ramanujan1910.calls 3 Ramanujan1910.impl_50)).digits_out ≠ 0)) ∧
    (((Ramanujan1910Opt.pi_impl_ramanujan_1910_opt_get_value
          (Ramanujan1910Opt.calls 3 Ramanujan1910Opt.impl_50)).ret = none ∧
        (Ramanujan1910Opt.pi_impl_ramanujan_1910_opt_get_value
          (Ramanujan1910Opt.calls 3 Ramanujan1910Opt.impl_50)).digits_out = 0 ↔
        ∀ i, i < 3 → (Ramanujan1910Opt.nth_call i Ramanujan1910Opt.impl_50).digits_out = 0) ∧
      (¬ (∀ i, i < 3 →
          (Ramanujan1910Opt.nth_call i Ramanujan1910Opt.impl_50).digits_out = 0) →
        ∃ v, (Ramanujan1910Opt.pi_impl_ramanujan_1910_opt_get_value
            (Ramanujan1910Opt.calls 3 Ramanujan1910Opt.impl_50)).ret = some v ∧
          (Ramanujan1910Opt.pi_impl_ramanujan_1910_opt_get_value
            (Ramanujan1910Opt.calls 3 Ramanujan1910Opt.impl_50)).digits_out ≠ 0)) :=
  ⟨⟨Ramanujan1910.initialize_50, Ramanujan1910Opt.opt_initialize_50, by decide⟩,
    get_value_null_iff_no_digits_reported ℚ sqrt_ui_q 50 Ramanujan1910.impl_50 9
      Ramanujan1910.initialize_50 50 Ramanujan1910Opt.impl_50 10
      Ramanujan1910Opt.opt_initialize_50 3 (by decide)⟩

/-! ### Calls of `get_value` between the terms -/

theorem Ramanujan1910.get_value_impl {F : Type} [Field F] (s : Ramanujan1910.__mpfr_pi_impl F) :
    ∃ p, (Ramanujan1910.pi_impl_ramanujan_1910_get_value s).impl = { s with pi := p } := by
  by_cases h : s.curr_k = 0 ∨ Ramanujan1910.K_TO_DIGITS (ulong_sub s.curr_k 1) = 0
  · exact ⟨s.pi, by simp only [Ramanujan1910.pi_impl_ramanujan_1910_get_value, if_pos h]⟩
  · exact ⟨mpfr_ui_div 1 (mpfr_mul s.cmult s.term_sum),
      by simp only [Ramanujan1910.pi_impl_ramanujan_1910_get_value, if_neg h]⟩

theorem Ramanujan1910Opt.opt_get_value_impl {F : Type} [Field F]
    (s : Ramanujan1910Opt.__mpfr_pi_impl F) :
    ∃ p, (Ramanujan1910Opt.pi_impl_ramanujan_1910_opt_get_value s).impl = { s with pi := p } := by
  by_cases h : s.curr_k = 0 ∨ Ramanujan1910Opt.K_TO_DIGITS (ulong_sub s.curr_k 1) = 0
  · exact ⟨s.pi, by simp only [Ramanujan1910Opt.pi_impl_ramanujan_1910_opt_get_value, if_pos h]⟩
  · exact ⟨mpfr_ui_div 1 (mpfr_mul s.cmult s.term_sum),
      by simp only [Ramanujan1910Opt.pi_impl_ramanujan_1910_opt_get_value, if_neg h]⟩

theorem Ramanujan1910.results_set_pi {F : Type} [Field F] (ops : List Op)
    (s : Ramanujan1910.__mpfr_pi_impl F) (p : F) :
    Ramanujan1910.results ops { s with pi := p } = Ramanujan1910.results ops s := by
  induction ops generalizing s p with
  | nil => rfl
  | cons op ops ih =>
    cases op with
    | compute_next_term =>
      show _ :: Ramanujan1910.results ops _ = _ :: Ramanujan1910.results ops _
      have e : (Ramanujan1910.pi_impl_ramanujan_1910_compute_next_term { s with pi := p }).impl =
          { (Ramanujan1910.pi_impl_ramanujan_1910_compute_next_term s).impl with pi := p } := rfl
      rw [e, ih]
      rfl
    | get_value =>
      show Ramanujan1910.results ops _ = Ramanujan1910.results ops _
      obtain ⟨p1, h1⟩ := Ramanujan1910.get_value_impl { s with pi := p }
      obtain ⟨p2, h2⟩ := Ramanujan1910.get_value_impl s
      rw [h1, h2]
      exact (ih s p1).trans (ih s p2).symm

theorem Ramanujan1910Opt.opt_results_set_pi {F : Type} [Field F] (ops : List Op)
    (s : Ramanujan1910Opt.__mpfr_pi_impl F) (p : F) :
    Ramanujan1910Opt.results ops { s with pi := p } = Ramanujan1910Opt.results ops s := by
  induction ops generalizing s p with
  | nil => rfl
  | cons op ops ih =>
    cases op with
    | compute_next_term =>
      show _ :: Ramanujan1910Opt.results ops _ = _ :: Ramanujan1910Opt.results ops _
      have e : (Ramanujan1910Opt.pi_impl_ramanujan_1910_opt_compute_next_term
            { s with pi := p }).impl =
          { (Ramanujan1910Opt.pi_impl_ramanujan_1910_opt_compute_next_term s).impl with
            pi := p } := rfl
      rw [e, ih]
      rfl
    | get_value =>
      show Ramanujan1910Opt.results ops _ = Ramanujan1910Opt.results ops _
      obtain ⟨p1, h1⟩ := Ramanujan1910Opt.opt_get_value_impl { s with pi := p }
      obtain ⟨p2, h2⟩ := Ramanujan1910Opt.opt_get_value_impl s
      rw [h1, h2]
      exact (ih s p1).trans (ih s p2).symm

theorem Ramanujan1910.results_filter {F : Type} [Field F] (ops : List Op)
    (s : Ramanujan1910.__mpfr_pi_impl F) :
    Ramanujan1910.results ops s =
      Ramanujan1910.results (ops.filter (fun op => op = Op.compute_next_term)) s := by
  induction ops generalizing s with
  | nil => rfl
  | cons op ops ih =>
    cases op with
    | compute_next_term =>
      rw [List.filter_cons_of_pos (by simp)]
      show _ :: Ramanujan1910.results ops _ = _ :: Ramanujan1910.results _ _
      rw [ih]
    | get_value =>
      rw [List.filter_cons_of_neg (by simp)]
      show Ramanujan1910.results ops _ = _
      obtain ⟨p, h⟩ := Ramanujan1910.get_value_impl s
      rw [h, Ramanujan1910.results_set_pi, ih]

theorem Ramanujan1910Opt.opt_results_filter {F : Type} [Field F] (ops : List Op)
    (s : Ramanujan1910Opt.__mpfr_pi_impl F) :
    Ramanujan1910Opt.results ops s =
      Ramanujan1910Opt.results (ops.filter (fun op => op = Op.compute_next_term)) s := by
  induction ops generalizing s with
  | nil => rfl
  | cons op ops ih =>
    cases op with
    | compute_next_term =>
      rw [List.filter_cons_of_pos (by simp)]
      show _ :: Ramanujan1910Opt.results ops _ = _ :: Ramanujan1910Opt.results _ _
      rw [ih]
    | get_value =>
      rw [List.filter_cons_of_neg (by simp)]
      show Ramanujan1910Opt.results ops _ = _
      obtain ⟨p, h⟩ := Ramanujan1910Opt.opt_get_value_impl s
      rw [h, Ramanujan1910Opt.opt_results_set_pi, ih]

/-! ### What `get_value` reports and leaves behind (C11, C12, C13) -/

/-- C11, as stated, fails when the most recent call has wrapped `curr_k`. After `ULONG_MAX` calls
on a freshly initialized state (`desiredDigits = 50`) the next call, which consumes index
`ULONG_MAX`, reports `digits_out = -10` (`-11` in the incremental variant) and leaves
`curr_k = 0`; `get_value` right after it reports `digits_out = 0`. -/
theorem get_value_digits_differ_after_wrap :
    (∃ s mk, Ramanujan1910.pi_impl_ramanujan_1910_initialize sqrt_ui_q 50 = some (s, mk) ∧
      (Ramanujan1910.nth_call ULONG_MAX s).out_k = ULONG_MAX ∧
      (Ramanujan1910.nth_call ULONG_MAX s).digits_out = -10 ∧
      (Ramanujan1910.pi_impl_ramanujan_1910_get_value
        (Ramanujan1910.nth_call ULONG_MAX s).impl).digits_out = 0) ∧
    (∃ s mk, Ramanujan1910Opt.pi_impl_ramanujan_1910_opt_initialize sqrt_ui_q 50 =
        some (s, mk) ∧
      (Ramanujan1910Opt.nth_call ULONG_MAX s).out_k = ULONG_MAX ∧
      (Ramanujan1910Opt.nth_call ULONG_MAX s).digits_out = -11 ∧
      (Ramanujan1910Opt.pi_impl_ramanujan_1910_opt_get_value
        (Ramanujan1910Opt.nth_call ULONG_MAX s).impl).digits_out = 0) := by
  constructor
  · have hk : (Ramanujan1910.calls ULONG_MAX Ramanujan1910.impl_50).curr_k = ULONG_MAX := by
      rw [Ramanujan1910.calls_curr_k _ (by decide)]
      decide
    have hn : (Ramanujan1910.nth_call ULONG_MAX Ramanujan1910.impl_50).impl.curr_k = 0 := by
      show ulong_add _ 1 = 0
      rw [hk]
      decide
    refine ⟨_, _, Ramanujan1910.initialize_50, ?_, ?_, ?_⟩
    · rw [Ramanujan1910.nth_call_out_k, hk]
    · rw [Ramanujan1910.nth_call_digits_out, hk]
      decide
    · rw [Ramanujan1910.get_value_digits_out, if_pos (Or.inl hn)]
  · have hk : (Ramanujan1910Opt.calls ULONG_MAX Ramanujan1910Opt.impl_50).curr_k =
        ULONG_MAX := by
      rw [Ramanujan1910Opt.opt_calls_curr_k _ (by decide)]
      decide
    have hn : (Ramanujan1910Opt.nth_call ULONG_MAX Ramanujan1910Opt.impl_50).impl.curr_k = 0 := by
      show ulong_add _ 1 = 0
      rw [hk]
      decide
    refine ⟨_, _, Ramanujan1910Opt.opt_initialize_50, ?_, ?_, ?_⟩
    · rw [Ramanujan1910Opt.opt_nth_call_out_k, hk]
    · rw [Ramanujan1910Opt.opt_nth_call_digits_out, hk]
      decide
    · rw [Ramanujan1910Opt.opt_get_value_digits_out, if_pos (Or.inl hn)]

/-- C11, amended. For both variants and every state, when the most recent `compute_next_term`
call did not wrap `curr_k` (its pre-call `curr_k` was below `ULONG_MAX`), the `digits_out`
`get_value` reports right after it equals the `digits_out` that call reported: `K_TO_DIGITS` at
the index the call consumed, which is the post-call `curr_k` minus one. -/
theorem get_value_reports_last_call_digits (F : Type) [Field F]
    (s : Ramanujan1910.__mpfr_pi_impl F) (s' : Ramanujan1910Opt.__mpfr_pi_impl F)
    (h : s.curr_k < ULONG_MAX) (h' : s'.curr_k < ULONG_MAX) :
    ((Ramanujan1910.pi_impl_ramanujan_1910_get_value
        (Ramanujan1910.pi_impl_ramanujan_1910_compute_next_term s).impl).digits_out =
        (Ramanujan1910.pi_impl_ramanujan_1910_compute_next_term s).digits_out ∧
      (Ramanujan1910.pi_impl_ramanujan_1910_get_value
        (Ramanujan1910.pi_impl_ramanujan_1910_compute_next_term s).impl).digits_out =
        to_long (Ramanujan1910.K_TO_DIGITS
          ((Ramanujan1910.pi_impl_ramanujan_1910_compute_next_term s).impl.curr_k - 1))) ∧
    ((Ramanujan1910Opt.pi_impl_ramanujan_1910_opt_get_value
        (Ramanujan1910Opt.pi_impl_ramanujan_1910_opt_compute_next_term s').impl).digits_out =
        (Ramanujan1910Opt.pi_impl_ramanujan_1910_opt_compute_next_term s').digits_out ∧
      (Ramanujan1910Opt.pi_impl_ramanujan_1910_opt_get_value
        (Ramanujan1910Opt.pi_impl_ramanujan_1910_opt_compute_next_term s').impl).digits_out =
        to_long (Ramanujan1910Opt.K_TO_DIGITS
          ((Ramanujan1910Opt.pi_impl_ramanujan_1910_opt_compute_next_term s').impl.curr_k -
            1))) := by
  have hU : ULONG_MAX = 2 ^ 64 - 1 := rfl
  rw [hU] at h h'
  constructor
  · have hk : (Ramanujan1910.pi_impl_ramanujan_1910_compute_next_term s).impl.curr_k =
        s.curr_k + 1 := by
      show ulong_add s.curr_k 1 = _
      exact ulong_add_of_lt _ _ (by omega)
    have hd : (Ramanujan1910.pi_impl_ramanujan_1910_compute_next_term s).digits_out =
        to_long (Ramanujan1910.K_TO_DIGITS s.curr_k) := rfl
    rw [Ramanujan1910.get_value_digits_out, hk, hd,
      ulong_sub_of_le _ _ (by omega) (by omega), Nat.add_sub_cancel]
    by_cases hz : Ramanujan1910.K_TO_DIGITS s.curr_k = 0
    · rw [if_pos (Or.inr hz), hz]
      exact ⟨by decide, by decide⟩
    · rw [if_neg (by rintro (h0 | h0); omega; exact hz h0)]
      exact ⟨rfl, rfl⟩
  · have hk : (Ramanujan1910Opt.pi_impl_ramanujan_1910_opt_compute_next_term s').impl.curr_k =
        s'.curr_k + 1 := by
      show ulong_add s'.curr_k 1 = _
      exact ulong_add_of_lt _ _ (by omega)
    have hd : (Ramanujan1910Opt.pi_impl_ramanujan_1910_opt_compute_next_term s').digits_out =
        to_long (Ramanujan1910Opt.K_TO_DIGITS s'.curr_k) := rfl
    rw [Ramanujan1910Opt.opt_get_value_digits_out, hk, hd,
      ulong_sub_of_le _ _ (by omega) (by omega), Nat.add_sub_cancel]
    by_cases hz : Ramanujan1910Opt.K_TO_DIGITS s'.curr_k = 0
    · rw [if_pos (Or.inr hz), hz]
      exact ⟨by decide, by decide⟩
    · rw [if_neg (by rintro (h0 | h0); omega; exact hz h0)]
      exact ⟨rfl, rfl⟩

/-- Witness of the amended C11 at the structs `initialize` builds for `desiredDigits = 50`,
over `ℚ`. -/
theorem get_value_reports_last_call_digits_witness :
    (Ramanujan1910.impl_50.curr_k < ULONG_MAX ∧ Ramanujan1910Opt.impl_50.curr_k < ULONG_MAX) ∧
    ((Ramanujan1910.pi_impl_ramanujan_1910_get_value
        (Ramanujan1910.pi_impl_ramanujan_1910_compute_next_term
          Ramanujan1910.impl_50).impl).digits_out =
        (Ramanujan1910.pi_impl_ramanujan_1910_compute_next_term
          Ramanujan1910.impl_50).digits_out ∧
      (Ramanujan1910.pi_impl_ramanujan_1910_get_value
        (Ramanujan1910.pi_impl_ramanujan_1910_compute_next_term
          Ramanujan1910.impl_50).impl).digits_out =
        to_long (Ramanujan1910.K_TO_DIGITS
          ((Ramanujan1910.pi_impl_ramanujan_1910_compute_next_term
            Ramanujan1910.impl_50).impl.curr_k - 1))) ∧
    ((Ramanujan1910Opt.pi_impl_ramanujan_1910_opt_get_value
        (Ramanujan1910Opt.pi_impl_ramanujan_1910_opt_compute_next_term
          Ramanujan1910Opt.impl_50).impl).digits_out =
        (Ramanujan1910Opt.pi_impl_ramanujan_1910_opt_compute_next_term
          Ramanujan1910Opt.impl_50).digits_out ∧
      (Ramanujan1910Opt.pi_impl_ramanujan_1910_opt_get_value
        (Ramanujan1910Opt.pi_impl_ramanujan_1910_opt_compute_next_term
          Ramanujan1910Opt.impl_50).impl).digits_out =
        to_long (Ramanujan1910Opt.K_TO_DIGITS
          ((Ramanujan1910Opt.pi_impl_ramanujan_1910_opt_compute_next_term
            Ramanujan1910Opt.impl_50).impl.curr_k - 1))) :=
  ⟨by decide, get_value_reports_last_call_digits ℚ Ramanujan1910.impl_50
    Ramanujan1910Opt.impl_50 (by decide) (by decide)⟩

/-- C12. For both variants and every state, calling `get_value` twice in a row with no
`compute_next_term` in between returns the same result both times: the same NULL or non-NULL
outcome, the same value and the same `digits_out`; the second call also leaves the struct as
the first left it. -/
theorem get_value_twice_same_result (F : Type) [Field F]
    (s : Ramanujan1910.__mpfr_pi_impl F) (s' : Ramanujan1910Opt.__mpfr_pi_impl F) :
    ((Ramanujan1910.pi_impl_ramanujan_1910_get_value
        (Ramanujan1910.pi_impl_ramanujan_1910_get_value s).impl).ret =
        (Ramanujan1910.pi_impl_ramanujan_1910_get_value s).ret ∧
      (Ramanujan1910.pi_impl_ramanujan_1910_get_value
        (Ramanujan1910.pi_impl_ramanujan_1910_get_value s).impl).digits_out =
        (Ramanujan1910.pi_impl_ramanujan_1910_get_value s).digits_out ∧
      (Ramanujan1910.pi_impl_ramanujan_1910_get_value
        (Ramanujan1910.pi_impl_ramanujan_1910_get_value s).impl).impl =
        (Ramanujan1910.pi_impl_ramanujan_1910_get_value s).impl) ∧
    ((Ramanujan1910Opt.pi_impl_ramanujan_1910_opt_get_value
        (Ramanujan1910Opt.pi_impl_ramanujan_1910_opt_get_value s').impl).ret =
        (Ramanujan1910Opt.pi_impl_ramanujan_1910_opt_get_value s').ret ∧
      (Ramanujan1910Opt.pi_impl_ramanujan_1910_opt_get_value
        (Ramanujan1910Opt.pi_impl_ramanujan_1910_opt_get_value s').impl).digits_out =
        (Ramanujan1910Opt.pi_impl_ramanujan_1910_opt_get_value s').digits_out ∧
      (Ramanujan1910Opt.pi_impl_ramanujan_1910_opt_get_value
        (Ramanujan1910Opt.pi_impl_ramanujan_1910_opt_get_value s').impl).impl =
        (Ramanujan1910Opt.pi_impl_ramanujan_1910_opt_get_value s').impl) := by
  constructor
  · by_cases h : s.curr_k = 0 ∨ Ramanujan1910.K_TO_DIGITS (ulong_sub s.curr_k 1) = 0
    · have e : (Ramanujan1910.pi_impl_ramanujan_1910_get_value s).impl = s := by
        simp only [Ramanujan1910.pi_impl_ramanujan_1910_get_value, if_pos h]
      rw [e]
      exact ⟨rfl, rfl, e⟩
    · have e : (Ramanujan1910.pi_impl_ramanujan_1910_get_value s).impl =
          { s with pi := mpfr_ui_div 1 (mpfr_mul s.cmult s.term_sum) } := by
        simp only [Ramanujan1910.pi_impl_ramanujan_1910_get_value, if_neg h]
      rw [e]
      simp only [Ramanujan1910.pi_impl_ramanujan_1910_get_value, if_neg h]
      exact ⟨trivial, trivial, trivial⟩
  · by_cases h : s'.curr_k = 0 ∨ Ramanujan1910Opt.K_TO_DIGITS (ulong_sub s'.curr_k 1) = 0
    · have e : (Ramanujan1910Opt.pi_impl_ramanujan_1910_opt_get_value s').impl = s' := by
        simp only [Ramanujan1910Opt.pi_impl_ramanujan_1910_opt_get_value, if_pos h]
      rw [e]
      exact ⟨rfl, rfl, e⟩
    · have e : (Ramanujan1910Opt.pi_impl_ramanujan_1910_opt_get_value s').impl =
          { s' with pi := mpfr_ui_div 1 (mpfr_mul s'.cmult s'.term_sum) } := by
        simp only [Ramanujan1910Opt.pi_impl_ramanujan_1910_opt_get_value, if_neg h]
      rw [e]
      simp only [Ramanujan1910Opt.pi_impl_ramanujan_1910_opt_get_value, if_neg h]
      exact ⟨trivial, trivial, trivial⟩

/-- C13. For both variants and every state, `get_value` writes only the scratch field `pi`:
`curr_k`, `curr_digits`, `desired_digits`, `max_k`, the temporaries, `term_sum`, `cmult` and, in
the incremental variant, `curr_4k`, `curr_fact_k`, `curr_fact_4k` are unchanged. Hence for every
sequence `ops` of calls, the results (`*k_out`, `*digits_out`, return value, `term_sum`) of the
`compute_next_term` calls in it are the results of the same sequence with the `get_value` calls
left out. -/
theorem get_value_writes_only_pi (F : Type) [Field F]
    (s : Ramanujan1910.__mpfr_pi_impl F) (s' : Ramanujan1910Opt.__mpfr_pi_impl F)
    (ops : List Op) :
    ((∃ p, (Ramanujan1910.pi_impl_ramanujan_1910_get_value s).impl = { s with pi := p }) ∧
      (Ramanujan1910.pi_impl_ramanujan_1910_get_value s).impl.curr_k = s.curr_k ∧
      (Ramanujan1910.pi_impl_ramanujan_1910_get_value s).impl.max_k = s.max_k ∧
      (Ramanujan1910.pi_impl_ramanujan_1910_get_value s).impl.desired_digits =
        s.desired_digits ∧
      (Ramanujan1910.pi_impl_ramanujan_1910_get_value s).impl.term_sum = s.term_sum ∧
      (Ramanujan1910.pi_impl_ramanujan_1910_get_value s).impl.cmult = s.cmult ∧
      Ramanujan1910.results ops s =
        Ramanujan1910.results (ops.filter (fun op => op = Op.compute_next_term)) s) ∧
    ((∃ p, (Ramanujan1910Opt.pi_impl_ramanujan_1910_opt_get_value s').impl =
        { s' with pi := p }) ∧
      (Ramanujan1910Opt.pi_impl_ramanujan_1910_opt_get_value s').impl.curr_k = s'.curr_k ∧
      (Ramanujan1910Opt.pi_impl_ramanujan_1910_opt_get_value s').impl.max_k = s'.max_k ∧
      (Ramanujan1910Opt.pi_impl_ramanujan_1910_opt_get_value s').impl.desired_digits =
        s'.desired_digits ∧
      (Ramanujan1910Opt.pi_impl_ramanujan_1910_opt_get_value s').impl.term_sum = s'.term_sum ∧
      (Ramanujan1910Opt.pi_impl_ramanujan_1910_opt_get_value s').impl.cmult = s'.cmult ∧
      (Ramanujan1910Opt.pi_impl_ramanujan_1910_opt_get_value s').impl.curr_4k = s'.curr_4k ∧
      (Ramanujan1910Opt.pi_impl_ramanujan_1910_opt_get_value s').impl.curr_fact_k =
        s'.curr_fact_k ∧
      (Ramanujan1910Opt.pi_impl_ramanujan_1910_opt_get_value s').impl.curr_fact_4k =
        s'.curr_fact_4k ∧
      Ramanujan1910Opt.results ops s' =
        Ramanujan1910Opt.results (ops.filter (fun op => op = Op.compute_next_term)) s') := by
  constructor
  · obtain ⟨p, hp⟩ := Ramanujan1910.get_value_impl s
    refine ⟨⟨p, hp⟩, ?_, ?_, ?_, ?_, ?_, Ramanujan1910.results_filter ops s⟩ <;> rw [hp]
  · obtain ⟨p, hp⟩ := Ramanujan1910Opt.opt_get_value_impl s'
    refine ⟨⟨p, hp⟩, ?_, ?_, ?_, ?_, ?_, ?_, ?_, ?_,
      Ramanujan1910Opt.opt_results_filter ops s'⟩ <;> rw [hp]

/-! ### The index arithmetic within the iteration bound (C14, C19, C20) -/

/-- C14. For each variant and every `digits` for which the `initialize` of that variant succeeds
(the two `digits` are independent), `4 * max_k` does
not exceed `ULONG_MAX`; at every index `k <= max_k` of a run from the fresh state the product
`4UL * k` of the recomputing variant and the field `curr_4k` of the incremental variant are the
number `4 * k`; and for a `digits` whose derived `max_k` would make `4 * max_k` exceed
`ULONG_MAX`, `initialize` aborts. -/
theorem four_max_k_does_not_wrap (F : Type) [Field F] (sqrt_ui : Nat → F)
    (d : Int) (s : Ramanujan1910.__mpfr_pi_impl F) (mk : Nat)
    (hi : Ramanujan1910.pi_impl_ramanujan_1910_initialize sqrt_ui d = some (s, mk))
    (d' : Int) (s' : Ramanujan1910Opt.__mpfr_pi_impl F) (mk' : Nat)
    (hi' : Ramanujan1910Opt.pi_impl_ramanujan_1910_opt_initialize sqrt_ui d' = some (s', mk')) :
    (s.max_k = mk ∧ 4 * mk ≤ ULONG_MAX ∧
      (∀ k, k ≤ mk → (Ramanujan1910.calls k s).curr_k = k ∧
        ulong_mul 4 (Ramanujan1910.calls k s).curr_k = 4 * k)) ∧
    (s'.max_k = mk' ∧ 4 * mk' ≤ ULONG_MAX ∧
      (∀ k, k ≤ mk' → (Ramanujan1910Opt.calls k s').curr_k = k ∧
        (Ramanujan1910Opt.calls k s').curr_4k = 4 * k)) ∧
    (∀ e : Int, ULONG_MAX < 4 * to_ulong (Ramanujan1910.DIGITS_TO_K e + Ramanujan1910.SLACK_K) →
      Ramanujan1910.pi_impl_ramanujan_1910_initialize sqrt_ui e = none) ∧
    (∀ e : Int,
      ULONG_MAX < 4 * to_ulong (Ramanujan1910Opt.DIGITS_TO_K e + Ramanujan1910Opt.SLACK_K) →
      Ramanujan1910Opt.pi_impl_ramanujan_1910_opt_initialize sqrt_ui e = none) := by
  have hU : ULONG_MAX = 2 ^ 64 - 1 := rfl
  have hu : Ramanujan1910.__SAFE_ULONG_MAX = 2 ^ 63 - 1 := by decide
  have hu' : Ramanujan1910Opt.__SAFE_ULONG_MAX = 2 ^ 63 - 1 := by decide
  obtain ⟨hk0, hmk, _, _, _, _, hlt, _⟩ := Ramanujan1910.initialize_fresh _ _ _ _ hi
  obtain ⟨⟨hk0', h4k', _⟩, hmk', _, _, _, hlt', _⟩ :=
    Ramanujan1910Opt.opt_initialize_fresh _ _ _ _ hi'
  refine ⟨⟨hmk, by omega, ?_⟩, ⟨hmk', by omega, ?_⟩, ?_, ?_⟩
  · intro k hk
    have hck : (Ramanujan1910.calls k s).curr_k = k := by
      rw [Ramanujan1910.calls_curr_k s (by omega), hk0]
      omega
    rw [hck]
    exact ⟨rfl, ulong_mul_of_lt _ _ (by omega)⟩
  · intro k hk
    constructor
    · rw [Ramanujan1910Opt.opt_calls_curr_k s' (by omega), hk0']
      omega
    · rw [Ramanujan1910Opt.calls_curr_4k s' (by omega), h4k']
      omega
  · intro e he
    unfold Ramanujan1910.pi_impl_ramanujan_1910_initialize
    simp only [hu]
    split
    · rfl
    · split
      · rfl
      · rw [if_pos (by omega)]
  · intro e he
    unfold Ramanujan1910Opt.pi_impl_ramanujan_1910_opt_initialize
    simp only [hu']
    split
    · rfl
    · split
      · rfl
      · rw [if_pos (by omega)]

/-- Witness of C14 at the structs `initialize` builds for `desiredDigits = 50`, over `ℚ`; the
last two lines are the abort at `digits = -32`, resp. `-40`, where the derived `max_k` is
`ULONG_MAX`. -/
theorem four_max_k_does_not_wrap_witness :
    (Ramanujan1910.pi_impl_ramanujan_1910_initialize sqrt_ui_q 50 =
        some (Ramanujan1910.impl_50, 9) ∧
      Ramanujan1910Opt.pi_impl_ramanujan_1910_opt_initialize sqrt_ui_q 50 =
        some (Ramanujan1910Opt.impl_50, 10)) ∧
    (Ramanujan1910.impl_50.max_k = 9 ∧ 4 * 9 ≤ ULONG_MAX ∧
      (∀ k, k ≤ 9 → (Ramanujan1910.calls k Ramanujan1910.impl_50).curr_k = k ∧
        ulong_mul 4 (Ramanujan1910.calls k Ramanujan1910.impl_50).curr_k = 4 * k)) ∧
    (Ramanujan1910Opt.impl_50.max_k = 10 ∧ 4 * 10 ≤ ULONG_MAX ∧
      (∀ k, k ≤ 10 → (Ramanujan1910Opt.calls k Ramanujan1910Opt.impl_50).curr_k = k ∧
        (Ramanujan1910Opt.calls k Ramanujan1910Opt.impl_50).curr_4k = 4 * k)) ∧
    Ramanujan1910.pi_impl_ramanujan_1910_initialize sqrt_ui_q (-32) = none ∧
    Ramanujan1910Opt.pi_impl_ramanujan_1910_opt_initialize sqrt_ui_q (-40) = none :=
  have h := four_max_k_does_not_wrap ℚ sqrt_ui_q 50 Ramanujan1910.impl_50 9
    Ramanujan1910.initialize_50 50 Ramanujan1910Opt.impl_50 10 Ramanujan1910Opt.opt_initialize_50
  ⟨⟨Ramanujan1910.initialize_50, Ramanujan1910Opt.opt_initialize_50⟩, h.1, h.2.1,
    h.2.2.1 (-32) (by decide), h.2.2.2 (-40) (by decide)⟩

/-- C19. In the incremental variant, after `n` calls to `compute_next_term` on a freshly
initialized state, for every `n` with `4 * n <= ULONG_MAX`, the cached quantities match the
index: `curr_k = n`, `curr_4k = 4 * n`, `curr_fact_k = n!` and `curr_fact_4k = (4n)!` (MPFR
primitives taken as exact arithmetic). -/
theorem cached_quantities_match_index (F : Type) [Field F] (sqrt_ui : Nat → F) (d : Int)
    (s : Ramanujan1910Opt.__mpfr_pi_impl F) (mk : Nat)
    (hi : Ramanujan1910Opt.pi_impl_ramanujan_1910_opt_initialize sqrt_ui d = some (s, mk))
    (n : Nat) (hn : 4 * n ≤ ULONG_MAX) :
    (Ramanujan1910Opt.calls n s).curr_k = n ∧
    (Ramanujan1910Opt.calls n s).curr_4k = 4 * n ∧
    (Ramanujan1910Opt.calls n s).curr_fact_k = (n.factorial : F) ∧
    (Ramanujan1910Opt.calls n s).curr_fact_4k = ((4 * n).factorial : F) := by
  have hU : ULONG_MAX = 2 ^ 64 - 1 := rfl
  obtain ⟨hf, _⟩ := Ramanujan1910Opt.opt_initialize_fresh _ _ _ _ hi
  exact Ramanujan1910Opt.calls_cached s hf n (by omega)

/-- Witness of C19 at the struct `initialize` builds for `desiredDigits = 50` after three calls,
over `ℚ`. -/
theorem cached_quantities_match_index_witness :
    (Ramanujan1910Opt.pi_impl_ramanujan_1910_opt_initialize sqrt_ui_q 50 =
        some (Ramanujan1910Opt.impl_50, 10) ∧ 4 * 3 ≤ ULONG_MAX) ∧
    (Ramanujan1910Opt.calls 3 Ramanujan1910Opt.impl_50).curr_k = 3 ∧
    (Ramanujan1910Opt.calls 3 Ramanujan1910Opt.impl_50).curr_4k = 4 * 3 ∧
    (Ramanujan1910Opt.calls 3 Ramanujan1910Opt.impl_50).curr_fact_k =
      ((Nat.factorial 3 : Nat) : ℚ) ∧
    (Ramanujan1910Opt.calls 3 Ramanujan1910Opt.impl_50).curr_fact_4k =
      ((Nat.factorial (4 * 3) : Nat) : ℚ) :=
  ⟨⟨Ramanujan1910Opt.opt_initialize_50, by decide⟩,
    cached_quantities_match_index ℚ sqrt_ui_q 50 Ramanujan1910Opt.impl_50 10
      Ramanujan1910Opt.opt_initialize_50 3 (by decide)⟩

theorem Ramanujan1910Opt.next_term_dividend {F : Type} [Field F]
    (s : Ramanujan1910Opt.__mpfr_pi_impl F) :
    (Ramanujan1910Opt.pi_impl_ramanujan_1910_opt_compute_next_term s).impl.term_dividend =
      s.curr_fact_4k * ((ulong_add 1103 (ulong_mul 26390 s.curr_k) : Nat) : F) := rfl

/-- C20, as stated, fails. `pi_impl_ramanujan_1910_opt_initialize` succeeds for
`digits = 5592040643792184` with `max_k = 699005080474027`; at the index `k = max_k`, which the
loop reaches, `1103UL + 26390UL * k` is `22017` in 64-bit unsigned arithmetic while
`1103 + 26390 * k` is `2 ^ 64 + 22017`, and the dividend of that call is `curr_fact_4k * 22017`. -/
theorem linear_factor_wraps_within_max_k :
    ∃ s, Ramanujan1910Opt.pi_impl_ramanujan_1910_opt_initialize sqrt_ui_q 5592040643792184 =
        some (s, 699005080474027) ∧
      s.max_k = 699005080474027 ∧
      (Ramanujan1910Opt.calls 699005080474027 s).curr_k = 699005080474027 ∧
      ulong_add 1103 (ulong_mul 26390 699005080474027) = 22017 ∧
      1103 + 26390 * 699005080474027 = 2 ^ 64 + 22017 ∧
      (Ramanujan1910Opt.nth_call 699005080474027 s).impl.term_dividend =
        (Ramanujan1910Opt.calls 699005080474027 s).curr_fact_4k * 22017 := by
  obtain ⟨s, mk, hi, hm, hk, _⟩ :=
    Ramanujan1910Opt.opt_converges sqrt_ui_q 5592040643792184 (by decide) (by decide)
  obtain ⟨⟨hk0, _⟩, _⟩ := Ramanujan1910Opt.opt_initialize_fresh _ _ _ _ hi
  have hmk : mk = 699005080474027 := by omega
  subst hmk
  have hck : (Ramanujan1910Opt.calls 699005080474027 s).curr_k = 699005080474027 := by
    rw [Ramanujan1910Opt.opt_calls_curr_k s (by omega), hk0]
    decide
  refine ⟨s, hi, hm, hck, by decide, by decide, ?_⟩
  show (Ramanujan1910Opt.pi_impl_ramanujan_1910_opt_compute_next_term _).impl.term_dividend = _
  rw [Ramanujan1910Opt.next_term_dividend, hck]
  have e : ulong_add 1103 (ulong_mul 26390 699005080474027) = 22017 := by decide
  rw [e]
  norm_num

/-- C20, amended. In the incremental variant, for every state produced by a successful
`initialize` with `max_k <= K_NOWRAP = 699005080474026`, which holds for every `digits` the
invocation boundary accepts (`0 < digits < 2857042`), and every index `k <= max_k`, the expression
`1103UL + 26390UL * k` evaluated in 64-bit unsigned arithmetic is the number `1103 + 26390 * k`,
and the dividend of the call at index `k` is `curr_fact_4k * (1103 + 26390 * k)`. -/
theorem linear_factor_exact_within_supported_max_k (F : Type) [Field F] (sqrt_ui : Nat → F)
    (d : Int) (s : Ramanujan1910Opt.__mpfr_pi_impl F) (mk : Nat)
    (hi : Ramanujan1910Opt.pi_impl_ramanujan_1910_opt_initialize sqrt_ui d = some (s, mk)) :
    (0 < d ∧ d < 2857042 → mk ≤ K_NOWRAP) ∧
    (mk ≤ K_NOWRAP → ∀ k, k ≤ mk →
      (Ramanujan1910Opt.nth_call k s).out_k = k ∧
      ulong_add 1103 (ulong_mul 26390 k) = 1103 + 26390 * k ∧
      (Ramanujan1910Opt.nth_call k s).impl.term_dividend =
        (Ramanujan1910Opt.calls k s).curr_fact_4k * (1103 + 26390 * (k : F))) := by
  have hK := K_NOWRAP_eq
  obtain ⟨⟨hk0, _⟩, _, _, _, hm, _, _⟩ := Ramanujan1910Opt.opt_initialize_fresh _ _ _ _ hi
  constructor
  · rintro ⟨h0, h1⟩
    rw [tdiv_eight_of_nonneg d (by omega)] at hm
    unfold to_ulong at hm
    omega
  · intro hmk k hk
    have hck : (Ramanujan1910Opt.calls k s).curr_k = k := by
      rw [Ramanujan1910Opt.opt_calls_curr_k s (by omega), hk0]
      omega
    have e : ulong_add 1103 (ulong_mul 26390 k) = 1103 + 26390 * k := by
      rw [ulong_mul_of_lt _ _ (by omega), ulong_add_of_lt _ _ (by omega)]
    refine ⟨by rw [Ramanujan1910Opt.opt_nth_call_out_k, hck], e, ?_⟩
    show (Ramanujan1910Opt.pi_impl_ramanujan_1910_opt_compute_next_term _).impl.term_dividend = _
    rw [Ramanujan1910Opt.next_term_dividend, hck, e]
    push_cast
    rfl

/-- Witness of the amended C20 at the struct `initialize` builds for `desiredDigits = 50`,
over `ℚ`. -/
theorem linear_factor_exact_within_supported_max_k_witness :
    Ramanujan1910Opt.pi_impl_ramanujan_1910_opt_initialize sqrt_ui_q 50 =
        some (Ramanujan1910Opt.impl_50, 10) ∧
    (0 < (50 : Int) ∧ (50 : Int) < 2857042 → 10 ≤ K_NOWRAP) ∧
    (10 ≤ K_NOWRAP → ∀ k, k ≤ 10 →
      (Ramanujan1910Opt.nth_call k Ramanujan1910Opt.impl_50).out_k = k ∧
      ulong_add 1103 (ulong_mul 26390 k) = 1103 + 26390 * k ∧
      (Ramanujan1910Opt.nth_call k Ramanujan1910Opt.impl_50).impl.term_dividend =
        (Ramanujan1910Opt.calls k Ramanujan1910Opt.impl_50).curr_fact_4k *
          (1103 + 26390 * (k : ℚ))) :=
  ⟨Ramanujan1910Opt.opt_initialize_50,
    linear_factor_exact_within_supported_max_k ℚ sqrt_ui_q 50 Ramanujan1910Opt.impl_50 10
      Ramanujan1910Opt.opt_initialize_50⟩

/-! ### The output writer (C16) -/

theorem takeWhile_not_nul (l : List Char) (h : ∀ c ∈ l, c ≠ NUL) :
    l.takeWhile (fun c => c != NUL) = l := by
  rw [List.takeWhile_eq_self_iff]
  intro c hc
  simpa using h c hc

theorem strlen_of_no_nul (s : List Char) (h : ∀ c ∈ s, c ≠ NUL) : strlen s = s.length := by
  unfold strlen
  rw [takeWhile_not_nul s h]

theorem strncpy_line_of_no_nul (s : List Char) (h : ∀ c ∈ s, c ≠ NUL) (i cc : Nat) :
    strncpy_line (s.drop i) cc = (s.drop i).take cc ++ ['\n'] := by
  unfold strncpy_line
  rw [takeWhile_not_nul]
  intro c hc
  exact h c (List.mem_of_mem_drop (List.mem_of_mem_take hc))

theorem writeout_pi_loop_spec (s : List Char) (hs : ∀ c ∈ s, c ≠ NUL) :
    ∀ (fuel i : Nat) (out : List (List Char)), i ≤ s.length → s.length - i ≤ fuel →
      ∃ ls, writeout_pi_loop s s.length fuel i out = some (s.length, out ++ ls) ∧
        (ls.map List.dropLast).flatten = s.drop i ∧
        ∀ l ∈ ls, l.getLast? = some '\n' := by
  intro fuel
  induction fuel with
  | zero =>
    intro i out hi hf
    have e : i = s.length := by omega
    subst e
    refine ⟨[], ?_, ?_, ?_⟩
    · simp [writeout_pi_loop]
    · simp
    · simp
  | succ fuel ih =>
    intro i out hi hf
    by_cases hlt : i < s.length
    · have hcc : ∃ cc, (if s.length - i < CHARACTERS_PER_LINE then s.length - i
          else CHARACTERS_PER_LINE) = cc ∧ 0 < cc ∧ i + cc ≤ s.length := by
        refine ⟨_, rfl, ?_, ?_⟩
        · split
          · omega
          · decide
        · split
          · omega
          · have : CHARACTERS_PER_LINE = 100 := rfl
            omega
      obtain ⟨cc, hcc, hpos, hle⟩ := hcc
      obtain ⟨ls, h1, h2, h3⟩ := ih (i + cc) (out ++ [strncpy_line (s.drop i) cc]) hle
        (by omega)
      refine ⟨strncpy_line (s.drop i) cc :: ls, ?_, ?_, ?_⟩
      · rw [writeout_pi_loop, if_pos hlt]
        simp only [hcc]
        rw [h1, List.append_assoc]
        rfl
      · rw [List.map_cons, List.flatten_cons, h2, strncpy_line_of_no_nul s hs,
          List.dropLast_concat, ← List.drop_drop, List.take_append_drop]
      · intro l hl
        rcases List.mem_cons.mp hl with h | h
        · rw [h, strncpy_line_of_no_nul s hs, List.getLast?_concat]
        · exact h3 l h
    · have e : i = s.length := by omega
      subst e
      refine ⟨[], ?_, ?_, ?_⟩
      · rw [writeout_pi_loop, if_neg hlt]
        simp
      · simp
      · simp

/-- C16. For every string `pi_string` without an embedded null character, `writeout_pi` runs
to its end, the closing assertion `i == sz` holds, every line it writes ends in a newline, and
concatenating the lines in order with that newline removed gives exactly `pi_string`. -/
theorem writeout_pi_round_trip (pi_string : List Char) (h : ∀ c ∈ pi_string, c ≠ NUL) :
    ∃ lines, writeout_pi pi_string = some lines ∧
      writeout_pi_loop pi_string (strlen pi_string) (strlen pi_string) 0 [] =
        some (strlen pi_string, lines) ∧
      (∀ l ∈ lines, l.getLast? = some '\n') ∧
      (lines.map List.dropLast).flatten = pi_string := by
  obtain ⟨ls, h1, h2, h3⟩ :=
    writeout_pi_loop_spec pi_string h pi_string.length 0 [] (Nat.zero_le _) (by omega)
  rw [List.nil_append] at h1
  refine ⟨ls, ?_, ?_, h3, by simpa using h2⟩
  · unfold writeout_pi
    simp only [strlen_of_no_nul pi_string h, h1, if_true]
  · rw [strlen_of_no_nul pi_string h, h1]

/-- Witness of C16 at the string `3.14159`. -/
theorem writeout_pi_round_trip_witness :
    (∀ c ∈ ['3', '.', '1', '4', '1', '5', '9'], c ≠ NUL) ∧
    ∃ lines, writeout_pi ['3', '.', '1', '4', '1', '5', '9'] = some lines ∧
      writeout_pi_loop ['3', '.', '1', '4', '1', '5', '9']
          (strlen ['3', '.', '1', '4', '1', '5', '9'])
          (strlen ['3', '.', '1', '4', '1', '5', '9']) 0 [] =
        some (strlen ['3', '.', '1', '4', '1', '5', '9'], lines) ∧
      (∀ l ∈ lines, l.getLast? = some '\n') ∧
      (lines.map List.dropLast).flatten = ['3', '.', '1', '4', '1', '5', '9'] :=
  ⟨by decide, writeout_pi_round_trip ['3', '.', '1', '4', '1', '5', '9'] (by decide)⟩

/-! ### The invocation boundary (C15) -/

/-- C15. At the invocation boundary, with `argc = 3`, the parsed `digits` (the `strtoul` result
converted to `long`) is rejected, by a message and `exit (1)` without a call of `make_pi`, if and
only if `digits <= 0` or `digits >= (long)((float)CFG_MPFR_PREC / 3.5) - 100 = 2857042`; every
`digits` with `0 < digits < 2857042` is passed on to `make_pi` unchanged, together with
`argv[2]`. -/
theorem main_rejects_unsupported_digits (argv1 : Nat) (argv2 : String) :
    MAX_DIGITS = 2857042 ∧
    ((main 3 argv1 argv2 = MainStep.exit_invalid 1 (to_long argv1) ∨
        main 3 argv1 argv2 = MainStep.exit_unsupported 1 (to_long argv1) 2857042) ↔
      (to_long argv1 ≤ 0 ∨ to_long argv1 ≥ 2857042)) ∧
    ((∀ digits algorithm, main 3 argv1 argv2 ≠ MainStep.make_pi digits algorithm) ↔
      (to_long argv1 ≤ 0 ∨ to_long argv1 ≥ 2857042)) ∧
    ((0 < to_long argv1 ∧ to_long argv1 < 2857042) ↔
      main 3 argv1 argv2 = MainStep.make_pi (to_long argv1) argv2) := by
  have hM : MAX_DIGITS = 2857042 := by decide
  have h3 : ¬ ((3 : Int) ≠ 3) := by decide
  unfold main
  simp only [if_neg h3, hM]
  refine ⟨trivial, ?_, ?_, ?_⟩
  · by_cases h1 : to_long argv1 ≤ 0
    · simp [h1]
    · by_cases h2 : to_long argv1 ≥ 2857042
      · simp [h1, h2]
      · simp [h1, h2]
  · by_cases h1 : to_long argv1 ≤ 0
    · simp [h1]
    · by_cases h2 : to_long argv1 ≥ 2857042
      · simp [h1, h2]
      · simp [h1, h2]
  · by_cases h1 : to_long argv1 ≤ 0
    · simp [h1]
    · by_cases h2 : to_long argv1 ≥ 2857042
      · simp [h1, h2]
      · simp [h1, h2]
        omega

/-! ### The decimal string (C17) -/

/-- C17, evaluated on the code. For every `digits > 0` and every value whose full decimal text
has at least `digits` characters, the string `mpfr_t_to_str (pi_value, digits + 1)` returns, the
one `make_pi` hands to `writeout_pi`, has exactly `digits` characters, one fewer than
`digits + 1`: `mpfr_snprintf` counts the closing null character in the size it is given. -/
theorem mpfr_t_to_str_length (F : Type) (render : F → List Char) (pi_value : F) (digits : Int)
    (h0 : 0 < digits) (hlen : digits ≤ (render pi_value).length) :
    ∃ pi_value_s, mpfr_t_to_str render (some pi_value) (digits + 1) = some pi_value_s ∧
      (pi_value_s.length : Int) = digits ∧ (pi_value_s.length : Int) ≠ digits + 1 := by
  refine ⟨(render pi_value).take ((digits + 1).toNat - 1), ?_, ?_, ?_⟩
  · unfold mpfr_t_to_str
    simp only
    rw [if_pos (by omega)]
  · rw [List.length_take]
    omega
  · rw [List.length_take]
    omega

theorem render_q_length (decimals : Nat) (v : ℚ) : decimals + 1 ≤ (render_q decimals v).length := by
  unfold render_q
  rw [List.length_append, List.length_append, List.length_map, List.length_range]
  simp only [List.length_singleton]
  omega

/-- The failing input of C17: with `digits = 50` the string formed for the value `get_value`
returns after convergence (recomputing variant, over `ℚ`, formatted with `CFG_MPFR_PREC`
decimals) has `50` characters, not `51`. -/
theorem mpfr_t_to_str_length_witness :
    ((0 : Int) < 50 ∧
      (50 : Int) ≤ (render_q CFG_MPFR_PREC
        (1 / (sqrt_ui_q 2 * 2 / 9801 *
          (Ramanujan1910.calls (9 + 1) Ramanujan1910.impl_50).term_sum))).length) ∧
    ∃ pi_value_s, mpfr_t_to_str (render_q CFG_MPFR_PREC)
        (some (1 / (sqrt_ui_q 2 * 2 / 9801 *
          (Ramanujan1910.calls (9 + 1) Ramanujan1910.impl_50).term_sum))) (50 + 1) =
          some pi_value_s ∧
      (pi_value_s.length : Int) = 50 ∧ (pi_value_s.length : Int) ≠ 50 + 1 :=
  have hlen : (50 : Int) ≤ (render_q CFG_MPFR_PREC
      (1 / (sqrt_ui_q 2 * 2 / 9801 *
        (Ramanujan1910.calls (9 + 1) Ramanujan1910.impl_50).term_sum))).length := by
    have h := render_q_length CFG_MPFR_PREC
      (1 / (sqrt_ui_q 2 * 2 / 9801 *
        (Ramanujan1910.calls (9 + 1) Ramanujan1910.impl_50).term_sum))
    have hc : CFG_MPFR_PREC = 10000000 := rfl
    omega
  ⟨⟨by decide, hlen⟩, mpfr_t_to_str_length ℚ (render_q CFG_MPFR_PREC) _ 50 (by decide) hlen⟩

/-! ### The digit estimate as a function of the index (C21) -/

/-- C21. For both variants the digit estimate `K_TO_DIGITS (k)`, stored into a `long`, is `0`
exactly when `k < SLACK_K` (`SLACK_K` is `2` in the recomputing variant and `3` in the
incremental variant), for every `unsigned long` `k`; for every `k >= SLACK_K` at which
`8 * k - SLACK_K` fits a `long` it is `8 * k - SLACK_K`, a strictly positive number. Every index
the loop reaches after a successful `initialize` (`k <= max_k + 1`) lies in that range. -/
theorem digit_estimate_zero_iff_below_slack (F : Type) [Field F] (sqrt_ui : Nat → F) (k : Nat)
    (hk : k ≤ ULONG_MAX) :
    (Ramanujan1910.SLACK_K = 2 ∧ Ramanujan1910Opt.SLACK_K = 3) ∧
    ((to_long (Ramanujan1910.K_TO_DIGITS k) = 0 ↔ (k : Int) < Ramanujan1910.SLACK_K) ∧
      (to_long (Ramanujan1910Opt.K_TO_DIGITS k) = 0 ↔ (k : Int) < Ramanujan1910Opt.SLACK_K)) ∧
    ((Ramanujan1910.SLACK_K ≤ (k : Int) → 8 * (k : Int) - Ramanujan1910.SLACK_K ≤ LONG_MAX →
        to_long (Ramanujan1910.K_TO_DIGITS k) = 8 * (k : Int) - Ramanujan1910.SLACK_K ∧
        0 < to_long (Ramanujan1910.K_TO_DIGITS k)) ∧
      (Ramanujan1910Opt.SLACK_K ≤ (k : Int) →
        8 * (k : Int) - Ramanujan1910Opt.SLACK_K ≤ LONG_MAX →
        to_long (Ramanujan1910Opt.K_TO_DIGITS k) = 8 * (k : Int) - Ramanujan1910Opt.SLACK_K ∧
        0 < to_long (Ramanujan1910Opt.K_TO_DIGITS k))) ∧
    (∀ (d : Int) s mk, LONG_MIN ≤ d →
        (Ramanujan1910.pi_impl_ramanujan_1910_initialize sqrt_ui d = some (s, mk) →
          8 * ((mk : Int) + 1) - Ramanujan1910.SLACK_K ≤ LONG_MAX)) ∧
    (∀ (d : Int) s mk, LONG_MIN ≤ d →
        (Ramanujan1910Opt.pi_impl_ramanujan_1910_opt_initialize sqrt_ui d = some (s, mk) →
          8 * ((mk : Int) + 1) - Ramanujan1910Opt.SLACK_K ≤ LONG_MAX)) := by
  have hU : ULONG_MAX = 2 ^ 64 - 1 := rfl
  have hL : LONG_MAX = 2 ^ 63 - 1 := rfl
  have h2 : Ramanujan1910.SLACK_K = 2 := by decide
  have h3 : Ramanujan1910Opt.SLACK_K = 3 := by decide
  rw [h2, h3, hL]
  rw [hU] at hk
  refine ⟨⟨rfl, rfl⟩, ⟨?_, ?_⟩, ⟨?_, ?_⟩, ?_, ?_⟩
  · rw [to_long_eq_zero _ (Ramanujan1910.K_TO_DIGITS_lt k), Ramanujan1910.K_TO_DIGITS_eq_zero]
    omega
  · rw [to_long_eq_zero _ (Ramanujan1910Opt.opt_K_TO_DIGITS_lt k),
      Ramanujan1910Opt.opt_K_TO_DIGITS_eq_zero]
    omega
  · intro ha hb
    rw [Ramanujan1910.K_TO_DIGITS_small k (by omega), if_pos (by omega),
      to_long_of_lt _ (by omega)]
    omega
  · intro ha hb
    rw [Ramanujan1910Opt.opt_K_TO_DIGITS_small k (by omega), if_pos (by omega),
      to_long_of_lt _ (by omega)]
    omega
  · intro d s mk hd hi
    obtain ⟨_, _, _, _, _, hm, hlt, hd1⟩ := Ramanujan1910.initialize_fresh _ _ _ _ hi
    have := max_k_small d 3 mk (by omega) (by omega) hd hd1 hm hlt
    omega
  · intro d s mk hd hi
    obtain ⟨_, _, _, _, hm, hlt, hd1⟩ := Ramanujan1910Opt.opt_initialize_fresh _ _ _ _ hi
    have := max_k_small d 4 mk (by omega) (by omega) hd hd1 hm hlt
    omega

/-- Witness of C21 at the index `k = 5`, over `ℚ`. -/
theorem digit_estimate_zero_iff_below_slack_witness :
    5 ≤ ULONG_MAX ∧
    to_long (Ramanujan1910.K_TO_DIGITS 5) = 38 ∧ to_long (Ramanujan1910Opt.K_TO_DIGITS 5) = 37 :=
  have h := digit_estimate_zero_iff_below_slack ℚ sqrt_ui_q 5 (by decide)
  ⟨by decide, (h.2.2.1.1 (by decide) (by decide)).1, (h.2.2.1.2 (by decide) (by decide)).1⟩

/-! ### The value `get_value` forms (C22) -/

theorem Ramanujan1910.next_term_term_sum_pos {F : Type} [LinearOrderedField F]
    (s : Ramanujan1910.__mpfr_pi_impl F) (h : 0 ≤ s.term_sum) :
    0 < (Ramanujan1910.pi_impl_ramanujan_1910_compute_next_term s).impl.term_sum := by
  have ht : 0 < (Ramanujan1910.pi_impl_ramanujan_1910_compute_next_term s).impl.term := by
    simp only [Ramanujan1910.pi_impl_ramanujan_1910_compute_next_term, mpfr_div, mpfr_mul,
      mpfr_pow_ui, mpfr_set_ui, mpfr_fac_ui, mpfr_add_ui, mpfr_mul_ui]
    positivity
  have e : (Ramanujan1910.pi_impl_ramanujan_1910_compute_next_term s).impl.term_sum =
      s.term_sum + (Ramanujan1910.pi_impl_ramanujan_1910_compute_next_term s).impl.term := rfl
  rw [e]
  linarith

/-- Along any sequence of calls of the recomputing variant `cmult` stays as it is, and the sum
of the terms is positive once the index has left `0`. -/
theorem Ramanujan1910.run_invariant {F : Type} [LinearOrderedField F] (ops : List Op) :
    ∀ s : Ramanujan1910.__mpfr_pi_impl F, 0 ≤ s.term_sum → (s.curr_k ≠ 0 → 0 < s.term_sum) →
      (Ramanujan1910.run ops s).cmult = s.cmult ∧
      ((Ramanujan1910.run ops s).curr_k ≠ 0 → 0 < (Ramanujan1910.run ops s).term_sum) := by
  induction ops with
  | nil =>
    intro s _ h2
    exact ⟨rfl, h2⟩
  | cons op ops ih =>
    intro s h1 h2
    cases op with
    | compute_next_term =>
      have hp := Ramanujan1910.next_term_term_sum_pos s h1
      exact ih _ (le_of_lt hp) (fun _ => hp)
    | get_value =>
      obtain ⟨p, hp⟩ := Ramanujan1910.get_value_impl s
      have e : Ramanujan1910.run (Op.get_value :: ops) s =
          Ramanujan1910.run ops (Ramanujan1910.pi_impl_ramanujan_1910_get_value s).impl := rfl
      rw [e, hp]
      exact ih { s with pi := p } h1 h2

theorem Ramanujan1910Opt.opt_next_term_pos {F : Type} [LinearOrderedField F]
    (s : Ramanujan1910Opt.__mpfr_pi_impl F) (h4 : 0 ≤ s.curr_fact_4k)
    (h : (s.curr_k = 0 ∧ s.curr_fact_k = 1 ∧ s.curr_fact_4k = 1 ∧ s.term_sum = 0) ∨
      0 < s.term_sum) :
    0 ≤ (Ramanujan1910Opt.pi_impl_ramanujan_1910_opt_compute_next_term s).impl.curr_fact_4k ∧
      0 < (Ramanujan1910Opt.pi_impl_ramanujan_1910_opt_compute_next_term s).impl.term_sum := by
  constructor
  · simp only [Ramanujan1910Opt.pi_impl_ramanujan_1910_opt_compute_next_term, mpfr_mul_ui]
    positivity
  · rw [Ramanujan1910Opt.opt_next_term_term_sum, Ramanujan1910Opt.opt_next_term_term]
    rcases h with ⟨hk, hf, hf4, hs⟩ | hpos
    · have e : ulong_add 1103 (ulong_mul 26390 0) = 1103 := by decide
      rw [hk, hf, hf4, hs, e]
      positivity
    · have : 0 ≤ s.curr_fact_4k * ((ulong_add 1103 (ulong_mul 26390 s.curr_k) : Nat) : F) /
          (s.curr_fact_k ^ 4 * (396 : F) ^ s.curr_4k) := by positivity
      linarith

/-- Along any sequence of calls of the incremental variant `cmult` stays as it is, and the sum
of the terms is positive once the index has left `0`. -/
theorem Ramanujan1910Opt.opt_run_invariant {F : Type} [LinearOrderedField F] (ops : List Op) :
    ∀ s : Ramanujan1910Opt.__mpfr_pi_impl F, 0 ≤ s.curr_fact_4k →
      ((s.curr_k = 0 ∧ s.curr_fact_k = 1 ∧ s.curr_fact_4k = 1 ∧ s.term_sum = 0) ∨
        0 < s.term_sum) →
      (Ramanujan1910Opt.run ops s).cmult = s.cmult ∧
      ((Ramanujan1910Opt.run ops s).curr_k ≠ 0 → 0 < (Ramanujan1910Opt.run ops s).term_sum) := by
  induction ops with
  | nil =>
    intro s _ h2
    refine ⟨rfl, fun hk => ?_⟩
    rcases h2 with ⟨h0, _⟩ | hp
    · exact absurd h0 hk
    · exact hp
  | cons op ops ih =>
    intro s h1 h2
    cases op with
    | compute_next_term =>
      obtain ⟨q1, q2⟩ := Ramanujan1910Opt.opt_next_term_pos s h1 h2
      exact ih _ q1 (Or.inr q2)
    | get_value =>
      obtain ⟨p, hp⟩ := Ramanujan1910Opt.opt_get_value_impl s
      have e : Ramanujan1910Opt.run (Op.get_value :: ops) s =
          Ramanujan1910Opt.run ops
            (Ramanujan1910Opt.pi_impl_ramanujan_1910_opt_get_value s).impl := rfl
      rw [e, hp]
      exact ih { s with pi := p } h1 h2

/-- C22. For both variants, let the struct be the one a successful `initialize` builds, after
any sequence of `compute_next_term` and `get_value` calls. Its `cmult` is still the value
`initialize` gave it, `2 * sqrt (2) / 9801`: neither entry point writes `cmult`. When `get_value`
returns a non-NULL pointer on it, the value pointed to, the field `pi`, equals
`1 / (cmult * term_sum)`, and the divisor `cmult * term_sum` is not zero (MPFR primitives taken
as exact arithmetic in an ordered field, with a positive square root of two). -/
theorem get_value_is_inverse_of_cmult_times_term_sum (F : Type) [LinearOrderedField F]
    (sqrt_ui : Nat → F) (hsqrt : 0 < sqrt_ui 2) (ops : List Op)
    (d : Int) (s : Ramanujan1910.__mpfr_pi_impl F) (mk : Nat)
    (hi : Ramanujan1910.pi_impl_ramanujan_1910_initialize sqrt_ui d = some (s, mk))
    (d' : Int) (s' : Ramanujan1910Opt.__mpfr_pi_impl F) (mk' : Nat)
    (hi' : Ramanujan1910Opt.pi_impl_ramanujan_1910_opt_initialize sqrt_ui d' = some (s', mk')) :
    ((Ramanujan1910.run ops s).cmult = 2 * sqrt_ui 2 / 9801 ∧
      ∀ v, (Ramanujan1910.pi_impl_ramanujan_1910_get_value (Ramanujan1910.run ops s)).ret =
          some v →
        (Ramanujan1910.run ops s).cmult * (Ramanujan1910.run ops s).term_sum ≠ 0 ∧
        v = 1 / ((Ramanujan1910.run ops s).cmult * (Ramanujan1910.run ops s).term_sum) ∧
        (Ramanujan1910.pi_impl_ramanujan_1910_get_value (Ramanujan1910.run ops s)).impl.pi =
          v) ∧
    ((Ramanujan1910Opt.run ops s').cmult = 2 * sqrt_ui 2 / 9801 ∧
      ∀ v, (Ramanujan1910Opt.pi_impl_ramanujan_1910_opt_get_value
          (Ramanujan1910Opt.run ops s')).ret = some v →
        (Ramanujan1910Opt.run ops s').cmult * (Ramanujan1910Opt.run ops s').term_sum ≠ 0 ∧
        v = 1 / ((Ramanujan1910Opt.run ops s').cmult * (Ramanujan1910Opt.run ops s').term_sum) ∧
        (Ramanujan1910Opt.pi_impl_ramanujan_1910_opt_get_value
          (Ramanujan1910Opt.run ops s')).impl.pi = v) ∧
    (∀ t : Ramanujan1910.__mpfr_pi_impl F,
      (Ramanujan1910.pi_impl_ramanujan_1910_compute_next_term t).impl.cmult = t.cmult ∧
      (Ramanujan1910.pi_impl_ramanujan_1910_get_value t).impl.cmult = t.cmult) ∧
    (∀ t : Ramanujan1910Opt.__mpfr_pi_impl F,
      (Ramanujan1910Opt.pi_impl_ramanujan_1910_opt_compute_next_term t).impl.cmult = t.cmult ∧
      (Ramanujan1910Opt.pi_impl_ramanujan_1910_opt_get_value t).impl.cmult = t.cmult) := by
  have hc : 0 < 2 * sqrt_ui 2 / 9801 := by positivity
  refine ⟨?_, ?_, ?_, ?_⟩
  · obtain ⟨hk, _, hs, hcm, _⟩ := Ramanujan1910.initialize_fresh _ _ _ _ hi
    obtain ⟨h1, h2⟩ := Ramanujan1910.run_invariant ops s (le_of_eq hs.symm)
      (fun h => absurd hk h)
    have hcm2 : (Ramanujan1910.run ops s).cmult = 2 * sqrt_ui 2 / 9801 := by
      rw [h1, hcm, mul_comm]
    refine ⟨hcm2, fun v hv => ?_⟩
    by_cases hn : (Ramanujan1910.run ops s).curr_k = 0 ∨
        Ramanujan1910.K_TO_DIGITS (ulong_sub (Ramanujan1910.run ops s).curr_k 1) = 0
    · rw [Ramanujan1910.get_value_ret, if_pos hn] at hv
      exact absurd hv (by simp)
    · have hpos := h2 (fun h => hn (Or.inl h))
      refine ⟨?_, ?_, ?_⟩
      · rw [hcm2]
        exact ne_of_gt (mul_pos hc hpos)
      · rw [Ramanujan1910.get_value_ret, if_neg hn] at hv
        exact (Option.some.inj hv).symm
      · rw [Ramanujan1910.get_value_ret, if_neg hn] at hv
        rw [← Option.some.inj hv]
        simp only [Ramanujan1910.pi_impl_ramanujan_1910_get_value, if_neg hn, mpfr_mul,
          mpfr_ui_div, Nat.cast_one]
  · obtain ⟨hf, _, hcm, _⟩ := Ramanujan1910Opt.opt_initialize_fresh _ _ _ _ hi'
    obtain ⟨h1, h2⟩ := Ramanujan1910Opt.opt_run_invariant ops s'
      (by rw [hf.2.2.2.1]; exact zero_le_one) (Or.inl ⟨hf.1, hf.2.2.1, hf.2.2.2.1, hf.2.2.2.2⟩)
    have hcm2 : (Ramanujan1910Opt.run ops s').cmult = 2 * sqrt_ui 2 / 9801 := by
      rw [h1, hcm, mul_comm]
    refine ⟨hcm2, fun v hv => ?_⟩
    by_cases hn : (Ramanujan1910Opt.run ops s').curr_k = 0 ∨
        Ramanujan1910Opt.K_TO_DIGITS (ulong_sub (Ramanujan1910Opt.run ops s').curr_k 1) = 0
    · rw [Ramanujan1910Opt.opt_get_value_ret, if_pos hn] at hv
      exact absurd hv (by simp)
    · have hpos := h2 (fun h => hn (Or.inl h))
      refine ⟨?_, ?_, ?_⟩
      · rw [hcm2]
        exact ne_of_gt (mul_pos hc hpos)
      · rw [Ramanujan1910Opt.opt_get_value_ret, if_neg hn] at hv
        exact (Option.some.inj hv).symm
      · rw [Ramanujan1910Opt.opt_get_value_ret, if_neg hn] at hv
        rw [← Option.some.inj hv]
        simp only [Ramanujan1910Opt.pi_impl_ramanujan_1910_opt_get_value, if_neg hn, mpfr_mul,
          mpfr_ui_div, Nat.cast_one]
  · intro t
    refine ⟨rfl, ?_⟩
    obtain ⟨p, hp⟩ := Ramanujan1910.get_value_impl t
    rw [hp]
  · intro t
    refine ⟨rfl, ?_⟩
    obtain ⟨p, hp⟩ := Ramanujan1910Opt.opt_get_value_impl t
    rw [hp]

/-- Witness of C22 at the structs `initialize` builds for `desiredDigits = 50`, over `ℚ`, after
three calls of `compute_next_term`, a `get_value` and a fourth `compute_next_term`: `get_value`
then returns a value, the inverse of `cmult * term_sum`. -/
theorem get_value_is_inverse_of_cmult_times_term_sum_witness :
    (0 < sqrt_ui_q 2 ∧
      Ramanujan1910.pi_impl_ramanujan_1910_initialize sqrt_ui_q 50 =
        some (Ramanujan1910.impl_50, 9) ∧
      Ramanujan1910Opt.pi_impl_ramanujan_1910_opt_initialize sqrt_ui_q 50 =
        some (Ramanujan1910Opt.impl_50, 10)) ∧
    ((Ramanujan1910.run [Op.compute_next_term, Op.compute_next_term, Op.compute_next_term,
        Op.get_value, Op.compute_next_term] Ramanujan1910.impl_50).cmult =
        2 * sqrt_ui_q 2 / 9801 ∧
      ∃ v, (Ramanujan1910.pi_impl_ramanujan_1910_get_value
          (Ramanujan1910.run [Op.compute_next_term, Op.compute_next_term, Op.compute_next_term,
            Op.get_value, Op.compute_next_term] Ramanujan1910.impl_50)).ret = some v ∧
        v = 1 / ((Ramanujan1910.run [Op.compute_next_term, Op.compute_next_term,
            Op.compute_next_term, Op.get_value, Op.compute_next_term]
              Ramanujan1910.impl_50).cmult *
          (Ramanujan1910.run [Op.compute_next_term, Op.compute_next_term,
            Op.compute_next_term, Op.get_value, Op.compute_next_term]
              Ramanujan1910.impl_50).term_sum)) ∧
    ((Ramanujan1910Opt.run [Op.compute_next_term, Op.compute_next_term, Op.compute_next_term,
        Op.get_value, Op.compute_next_term] Ramanujan1910Opt.impl_50).cmult =
        2 * sqrt_ui_q 2 / 9801 ∧
      ∃ v, (Ramanujan1910Opt.pi_impl_ramanujan_1910_opt_get_value
          (Ramanujan1910Opt.run [Op.compute_next_term, Op.compute_next_term,
            Op.compute_next_term, Op.get_value, Op.compute_next_term]
              Ramanujan1910Opt.impl_50)).ret = some v ∧
        v = 1 / ((Ramanujan1910Opt.run [Op.compute_next_term, Op.compute_next_term,
            Op.compute_next_term, Op.get_value, Op.compute_next_term]
              Ramanujan1910Opt.impl_50).cmult *
          (Ramanujan1910Opt.run [Op.compute_next_term, Op.compute_next_term,
            Op.compute_next_term, Op.get_value, Op.compute_next_term]
              Ramanujan1910Opt.impl_50).term_sum)) :=
  have hq : 0 < sqrt_ui_q 2 := by
    unfold sqrt_ui_q SQRT2_LO
    rw [if_pos rfl]
    positivity
  have h := get_value_is_inverse_of_cmult_times_term_sum ℚ sqrt_ui_q hq
    [Op.compute_next_term, Op.compute_next_term, Op.compute_next_term, Op.get_value,
      Op.compute_next_term]
    50 Ramanujan1910.impl_50 9 Ramanujan1910.initialize_50
    50 Ramanujan1910Opt.impl_50 10 Ramanujan1910Opt.opt_initialize_50
  have hv := Ramanujan1910.get_value_ret
    (Ramanujan1910.run [Op.compute_next_term, Op.compute_next_term, Op.compute_next_term,
      Op.get_value, Op.compute_next_term] Ramanujan1910.impl_50)
  have hv' := Ramanujan1910Opt.opt_get_value_ret
    (Ramanujan1910Opt.run [Op.compute_next_term, Op.compute_next_term, Op.compute_next_term,
      Op.get_value, Op.compute_next_term] Ramanujan1910Opt.impl_50)
  ⟨⟨hq, Ramanujan1910.initialize_50, Ramanujan1910Opt.opt_initialize_50⟩,
    ⟨h.1.1, _, hv.trans (if_neg (by decide)), (h.1.2 _ (hv.trans (if_neg (by decide)))).2.1⟩,
    ⟨h.2.1.1, _, hv'.trans (if_neg (by decide)),
      (h.2.1.2 _ (hv'.trans (if_neg (by decide)))).2.1⟩⟩

/-! ### The convergence loop and the clock (C23) -/

theorem without_progress_append (a b : List Event) :
    without_progress (a ++ b) = without_progress a ++ without_progress b := by
  unfold without_progress
  exact List.filter_append _ _

/-- One iteration of the loop of `make_pi`: whatever the clock reads, the iteration hands on the
struct `compute_next_term` leaves and appends the call, and possibly a progress line, to the
events; it leaves the loop exactly when the call returned a non-zero value. -/
theorem make_pi_loop_step {F : Type} [Field F] (clock : Nat → Nat) (time0 max_k fuel : Nat)
    (st : LoopState F) :
    ∃ st1 : LoopState F, ∃ added : List Event,
      st1.impl = (f_pi_compute_next_term st.impl).impl ∧
      st1.events = st.events ++ added ∧
      without_progress added =
        [Event.f_pi_compute_next_term (f_pi_compute_next_term st.impl).out_k
          (f_pi_compute_next_term st.impl).digits_out (f_pi_compute_next_term st.impl).ret] ∧
      make_pi_loop clock time0 max_k (fuel + 1) st =
        if (f_pi_compute_next_term st.impl).ret ≠ 0 then
          some { st1 with last_k := (f_pi_compute_next_term st.impl).out_k }
        else make_pi_loop clock time0 max_k fuel st1 := by
  by_cases hc : ts_secs_portion (ulong_sub (clock st.readings) st.tss3) ≥ 10
  · refine ⟨{ impl := (f_pi_compute_next_term st.impl).impl
              last_k := (f_pi_compute_next_term st.impl).out_k
              tss3 := clock st.readings
              readings := st.readings + 2
              events := st.events ++
                [Event.f_pi_compute_next_term (f_pi_compute_next_term st.impl).out_k
                  (f_pi_compute_next_term st.impl).digits_out
                  (f_pi_compute_next_term st.impl).ret] ++
                [Event.printf (Printf.progress (clock (st.readings + 1))
                  (ulong_sub (clock st.readings) time0) (f_pi_compute_next_term st.impl).out_k
                  (ulong_sub (f_pi_compute_next_term st.impl).out_k st.last_k) max_k)] },
      [Event.f_pi_compute_next_term (f_pi_compute_next_term st.impl).out_k
          (f_pi_compute_next_term st.impl).digits_out (f_pi_compute_next_term st.impl).ret,
        Event.printf (Printf.progress (clock (st.readings + 1))
          (ulong_sub (clock st.readings) time0) (f_pi_compute_next_term st.impl).out_k
          (ulong_sub (f_pi_compute_next_term st.impl).out_k st.last_k) max_k)],
      rfl, ?_, rfl, ?_⟩
    · simp
    · rw [make_pi_loop]
      simp only [if_pos hc]
  · refine ⟨{ impl := (f_pi_compute_next_term st.impl).impl
              last_k := st.last_k
              tss3 := st.tss3
              readings := st.readings + 1
              events := st.events ++
                [Event.f_pi_compute_next_term (f_pi_compute_next_term st.impl).out_k
                  (f_pi_compute_next_term st.impl).digits_out
                  (f_pi_compute_next_term st.impl).ret] },
      [Event.f_pi_compute_next_term (f_pi_compute_next_term st.impl).out_k
          (f_pi_compute_next_term st.impl).digits_out (f_pi_compute_next_term st.impl).ret],
      rfl, rfl, rfl, ?_⟩
    rw [make_pi_loop]
    simp only [if_neg hc]

theorem make_pi_loop_clock_free {F : Type} [Field F] (clock1 clock2 : Nat → Nat)
    (time0_1 time0_2 max_k : Nat) :
    ∀ (fuel : Nat) (st1 st2 : LoopState F), st1.impl = st2.impl →
      (make_pi_loop clock1 time0_1 max_k fuel st1 = none ↔
        make_pi_loop clock2 time0_2 max_k fuel st2 = none) ∧
      ∀ x y, make_pi_loop clock1 time0_1 max_k fuel st1 = some x →
        make_pi_loop clock2 time0_2 max_k fuel st2 = some y →
        x.impl = y.impl ∧ x.last_k = y.last_k ∧
        ∃ a b, x.events = st1.events ++ a ∧ y.events = st2.events ++ b ∧
          without_progress a = without_progress b ∧
          ∀ e ∈ without_progress a, ∃ k d r, e = Event.f_pi_compute_next_term k d r := by
  intro fuel
  induction fuel with
  | zero =>
    intro st1 st2 _
    refine ⟨⟨fun _ => rfl, fun _ => rfl⟩, ?_⟩
    intro x y hx
    rw [make_pi_loop] at hx
    exact absurd hx (by simp)
  | succ fuel ih =>
    intro st1 st2 hst
    obtain ⟨n1, a1, hi1, he1, hw1, hl1⟩ := make_pi_loop_step clock1 time0_1 max_k fuel st1
    obtain ⟨n2, a2, hi2, he2, hw2, hl2⟩ := make_pi_loop_step clock2 time0_2 max_k fuel st2
    rw [hl1, hl2]
    rw [hst] at hi1 hw1
    rw [hst]
    by_cases hr : (f_pi_compute_next_term st2.impl).ret ≠ 0
    · rw [if_pos hr, if_pos hr]
      refine ⟨by simp, ?_⟩
      intro x y hx hy
      simp only [Option.some.injEq] at hx hy
      subst hx
      subst hy
      refine ⟨hi1.trans hi2.symm, rfl, a1, a2, he1, he2, hw1.trans hw2.symm, ?_⟩
      intro e he
      rw [hw1] at he
      exact ⟨_, _, _, List.mem_singleton.mp he⟩
    · rw [if_neg hr, if_neg hr]
      obtain ⟨hn, hs⟩ := ih n1 n2 (hi1.trans hi2.symm)
      refine ⟨hn, ?_⟩
      intro x y hx hy
      obtain ⟨h1, h2, a, b, ha, hb, hab, hall⟩ := hs x y hx hy
      refine ⟨h1, h2, a1 ++ a, a2 ++ b, ?_, ?_, ?_, ?_⟩
      · rw [ha, he1, List.append_assoc]
      · rw [hb, he2, List.append_assoc]
      · rw [without_progress_append, without_progress_append, hw1, hw2, hab]
      · intro e he
        rw [without_progress_append, hw1] at he
        rcases List.mem_append.mp he with h | h
        · exact ⟨_, _, _, List.mem_singleton.mp h⟩
        · exact hall e h

/-- C23. The convergence loop of `make_pi` does not depend on the clock. Take two runs of the
loop on the same struct, with the same `last_k` and the same bound on the iterations, under any
two sequences of `gettimestamp_nsecs` readings, any two values of `time0` and any two values
`tss3` holds before its first assignment. Either both runs leave the loop or neither does
within the bound; when they leave it, they hand the same struct and the same `last_k` to
`get_value`, and the events the two runs added are equal once the progress lines are taken out:
what is left are the `compute_next_term` calls, with the same `curr_k`, `curr_digits` and return
value, in the same order and number. -/
theorem make_pi_loop_clock_independent (F : Type) [Field F] (clock1 clock2 : Nat → Nat)
    (time0_1 time0_2 tss3_1 tss3_2 readings1 readings2 max_k fuel last_k : Nat)
    (impl : mpfr_pi_impl F) (events1 events2 : List Event) :
    (make_pi_loop clock1 time0_1 max_k fuel
        { impl := impl, last_k := last_k, tss3 := tss3_1, readings := readings1,
          events := events1 } = none ↔
      make_pi_loop clock2 time0_2 max_k fuel
        { impl := impl, last_k := last_k, tss3 := tss3_2, readings := readings2,
          events := events2 } = none) ∧
    ∀ x y,
      make_pi_loop clock1 time0_1 max_k fuel
        { impl := impl, last_k := last_k, tss3 := tss3_1, readings := readings1,
          events := events1 } = some x →
      make_pi_loop clock2 time0_2 max_k fuel
        { impl := impl, last_k := last_k, tss3 := tss3_2, readings := readings2,
          events := events2 } = some y →
      x.impl = y.impl ∧ x.last_k = y.last_k ∧
      ∃ a b, x.events = events1 ++ a ∧ y.events = events2 ++ b ∧
        without_progress a = without_progress b ∧
        ∀ e ∈ without_progress a, ∃ k d r, e = Event.f_pi_compute_next_term k d r :=
  make_pi_loop_clock_free clock1 clock2 time0_1 time0_2 max_k fuel _ _ rfl

/-! ### The lines of the output file (C24) -/

theorem take_drop_within_strlen (s : List Char) (i cc : Nat) (h : i + cc ≤ strlen s) :
    ((s.drop i).take cc).takeWhile (fun c => c != NUL) = (s.drop i).take cc ∧
      ((s.drop i).take cc).length = cc := by
  unfold strlen at h
  have hs : s = s.takeWhile (fun c => c != NUL) ++ s.dropWhile (fun c => c != NUL) :=
    (List.takeWhile_append_dropWhile _ _).symm
  have e : (s.drop i).take cc = ((s.takeWhile (fun c => c != NUL)).drop i).take cc := by
    conv_lhs => rw [hs]
    rw [List.drop_append_of_le_length (by omega), List.take_append_of_le_length]
    rw [List.length_drop]
    omega
  rw [e]
  constructor
  · rw [List.takeWhile_eq_self_iff]
    intro c hc
    have hm : c ∈ s.takeWhile (fun c => c != NUL) :=
      List.mem_of_mem_drop (List.mem_of_mem_take hc)
    have hp := List.mem_takeWhile_imp hm
    exact hp
  · rw [List.length_take, List.length_drop]
    omega

theorem strncpy_line_within_strlen (s : List Char) (i cc : Nat) (h : i + cc ≤ strlen s) :
    (strncpy_line (s.drop i) cc).dropLast.length = cc ∧
      (strncpy_line (s.drop i) cc).getLast? = some '\n' := by
  obtain ⟨h1, h2⟩ := take_drop_within_strlen s i cc h
  unfold strncpy_line
  rw [h1, List.dropLast_concat, List.getLast?_concat]
  exact ⟨h2, rfl⟩

theorem writeout_pi_loop_lines (s : List Char) :
    ∀ (fuel i : Nat) (out : List (List Char)), i ≤ strlen s → strlen s - i ≤ fuel →
      ∃ ls, writeout_pi_loop s (strlen s) fuel i out = some (strlen s, out ++ ls) ∧
        ls.length = (strlen s - i + 99) / 100 ∧
        (strlen s - i = 0 → ls = []) ∧
        (0 < strlen s - i →
          ls.map (fun l => l.dropLast.length) =
            List.replicate ((strlen s - i + 99) / 100 - 1) 100 ++
              [strlen s - i - 100 * ((strlen s - i + 99) / 100 - 1)]) ∧
        ∀ l ∈ ls, l.getLast? = some '\n' := by
  intro fuel
  induction fuel with
  | zero =>
    intro i out hi hf
    have e : ¬ i < strlen s := by omega
    refine ⟨[], ?_, ?_, ?_, ?_, ?_⟩
    · have e2 : i = strlen s := by omega
      rw [writeout_pi_loop, if_neg e, e2]
      simp
    · simp only [List.length_nil]
      omega
    · intro _
      rfl
    · intro h
      omega
    · simp
  | succ fuel ih =>
    intro i out hi hf
    have hC : CHARACTERS_PER_LINE = 100 := rfl
    by_cases hlt : i < strlen s
    · by_cases hshort : strlen s - i < 100
      · obtain ⟨ls, h1, h2, h3, _, _⟩ :=
          ih (i + (strlen s - i)) (out ++ [strncpy_line (s.drop i) (strlen s - i)]) (by omega)
            (by omega)
        have hnil : ls = [] := h3 (by omega)
        subst hnil
        obtain ⟨hl, hn⟩ := strncpy_line_within_strlen s i (strlen s - i) (by omega)
        refine ⟨[strncpy_line (s.drop i) (strlen s - i)], ?_, ?_, ?_, ?_, ?_⟩
        · rw [writeout_pi_loop, if_pos hlt]
          simp only [hC, if_pos hshort]
          rw [h1, List.append_nil]
        · simp only [List.length_singleton]
          omega
        · intro h
          omega
        · intro _
          have e0 : (strlen s - i + 99) / 100 - 1 = 0 := by omega
          rw [e0, List.replicate_zero, List.nil_append, List.map_singleton, hl]
          simp
        · intro l hl2
          rw [List.mem_singleton.mp hl2]
          exact hn
      · obtain ⟨ls, h1, h2, h3, h4, h5⟩ :=
          ih (i + 100) (out ++ [strncpy_line (s.drop i) 100]) (by omega) (by omega)
        obtain ⟨hl, hn⟩ := strncpy_line_within_strlen s i 100 (by omega)
        refine ⟨strncpy_line (s.drop i) 100 :: ls, ?_, ?_, ?_, ?_, ?_⟩
        · rw [writeout_pi_loop, if_pos hlt]
          simp only [hC, if_neg hshort]
          rw [h1, List.append_assoc]
          rfl
        · rw [List.length_cons, h2]
          omega
        · intro h
          omega
        · intro _
          rw [List.map_cons, hl]
          by_cases hz : strlen s - (i + 100) = 0
          · rw [h3 hz]
            have e0 : (strlen s - i + 99) / 100 - 1 = 0 := by omega
            have e1 : strlen s - i = 100 := by omega
            rw [e0, e1]
            simp
          · rw [h4 (by omega)]
            have e0 : (strlen s - i + 99) / 100 - 1 =
                ((strlen s - (i + 100) + 99) / 100 - 1) + 1 := by omega
            have e1 : strlen s - i - 100 * (((strlen s - (i + 100) + 99) / 100 - 1) + 1) =
                strlen s - (i + 100) - 100 * ((strlen s - (i + 100) + 99) / 100 - 1) := by
              omega
            rw [e0, e1, List.replicate_succ, List.cons_append]
        · intro l hl2
          rcases List.mem_cons.mp hl2 with h | h
          · rw [h]
            exact hn
          · exact h5 l h
    · have e : i = strlen s := by omega
      refine ⟨[], ?_, ?_, ?_, ?_, ?_⟩
      · rw [writeout_pi_loop, if_neg hlt, e]
        simp
      · simp only [List.length_nil]
        omega
      · intro _
        rfl
      · intro h
        omega
      · simp

/-- C24. For every string, with `L = strlen (pi_string)`, `writeout_pi` runs to its end with
the closing assertion `i == sz` holding and writes exactly `ceil (L / 100)` lines, each ended
by a newline; for `L = 0` it writes no line; for `L > 0` every line but the last holds exactly
`100` characters before its newline and the last holds `L - 100 * (ceil (L / 100) - 1)`
characters, a number between `1` and `100`. -/
theorem writeout_pi_line_count (pi_string : List Char) :
    ∃ lines, writeout_pi pi_string = some lines ∧
      lines.length = (strlen pi_string + 99) / 100 ∧
      (∀ l ∈ lines, l.getLast? = some '\n') ∧
      (strlen pi_string = 0 → lines = []) ∧
      (0 < strlen pi_string →
        lines.map (fun l => l.dropLast.length) =
          List.replicate ((strlen pi_string + 99) / 100 - 1) 100 ++
            [strlen pi_string - 100 * ((strlen pi_string + 99) / 100 - 1)] ∧
        1 ≤ strlen pi_string - 100 * ((strlen pi_string + 99) / 100 - 1) ∧
        strlen pi_string - 100 * ((strlen pi_string + 99) / 100 - 1) ≤ 100) := by
  obtain ⟨ls, h1, h2, h3, h4, h5⟩ :=
    writeout_pi_loop_lines pi_string (strlen pi_string) 0 [] (Nat.zero_le _) (by omega)
  rw [List.nil_append] at h1
  rw [Nat.sub_zero] at h2 h3 h4
  refine ⟨ls, ?_, h2, h5, h3, ?_⟩
  · unfold writeout_pi
    simp only [h1, if_true]
  · intro hpos
    refine ⟨h4 hpos, ?_, ?_⟩
    · omega
    · omega

/-! ### Termination of the convergence loop (C25) -/

theorem Ramanujan1910.calls_shift {F : Type} [Field F] (s : Ramanujan1910.__mpfr_pi_impl F)
    (n : Nat) :
    Ramanujan1910.calls n (Ramanujan1910.pi_impl_ramanujan_1910_compute_next_term s).impl =
      Ramanujan1910.calls (n + 1) s := by
  induction n with
  | zero => rfl
  | succ n ih => rw [Ramanujan1910.calls_succ, ih, ← Ramanujan1910.calls_succ]

theorem Ramanujan1910Opt.opt_calls_shift {F : Type} [Field F]
    (s : Ramanujan1910Opt.__mpfr_pi_impl F) (n : Nat) :
    Ramanujan1910Opt.calls n
        (Ramanujan1910Opt.pi_impl_ramanujan_1910_opt_compute_next_term s).impl =
      Ramanujan1910Opt.calls (n + 1) s := by
  induction n with
  | zero => rfl
  | succ n ih => rw [Ramanujan1910Opt.opt_calls_succ, ih, ← Ramanujan1910Opt.opt_calls_succ]

theorem range_map_shift (f : Nat → Event) (c m : Nat) :
    f c :: (List.range m).map (fun j => f (c + 1 + j)) =
      (List.range (m + 1)).map (fun j => f (c + j)) := by
  rw [List.range_succ_eq_map, List.map_cons, List.map_map]
  refine congrArg₂ _ rfl (List.map_congr_left ?_)
  intro j _
  show f (c + 1 + j) = f (c + (j + 1))
  rw [Nat.add_assoc, Nat.add_comm 1 j]

/-- The loop of `make_pi` on a struct of the recomputing variant whose index is `m` below its
`max_k`: within `m` iterations it has not left, and with more it leaves after `m + 1` calls. -/
theorem Ramanujan1910.loop_runs_to_max_k {F : Type} [Field F] (clock : Nat → Nat)
    (time0 max_k : Nat) :
    ∀ (m : Nat) (s : Ramanujan1910.__mpfr_pi_impl F) (st : LoopState F) (fuel : Nat),
      st.impl = mpfr_pi_impl.ramanujan_1910 s → s.curr_k + m = s.max_k →
      s.max_k < 2 ^ 64 - 1 →
      (fuel ≤ m → make_pi_loop clock time0 max_k fuel st = none) ∧
      (m < fuel → ∃ st2, make_pi_loop clock time0 max_k fuel st = some st2 ∧
        st2.impl = mpfr_pi_impl.ramanujan_1910 (Ramanujan1910.calls (m + 1) s) ∧
        st2.last_k = s.max_k ∧
        ∃ a, st2.events = st.events ++ a ∧
          without_progress a = (List.range (m + 1)).map (fun j =>
            Event.f_pi_compute_next_term (s.curr_k + j)
              (to_long (Ramanujan1910.K_TO_DIGITS (s.curr_k + j)))
              (if s.curr_k + j < s.max_k then 0 else 1))) := by
  intro m
  induction m with
  | zero =>
    intro s st fuel hst hk hmax
    cases fuel with
    | zero =>
      refine ⟨fun _ => ?_, fun h => absurd h (by omega)⟩
      rw [make_pi_loop]
    | succ fuel =>
      refine ⟨fun h => absurd h (by omega), fun _ => ?_⟩
      obtain ⟨st1, a, hi, he, hw, hl⟩ := make_pi_loop_step clock time0 max_k fuel st
      rw [hst] at hi hw hl
      have hret : (f_pi_compute_next_term (mpfr_pi_impl.ramanujan_1910 s)).ret = 1 := by
        show (if s.curr_k ≥ s.max_k then (1 : Int) else 0) = 1
        rw [if_pos (by omega)]
      rw [hret, if_pos (by decide)] at hl
      refine ⟨_, hl, hi, ?_, a, he, ?_⟩
      · show s.curr_k = s.max_k
        omega
      · rw [hw, hret]
        show _ = [Event.f_pi_compute_next_term (s.curr_k + 0)
          (to_long (Ramanujan1910.K_TO_DIGITS (s.curr_k + 0)))
          (if s.curr_k + 0 < s.max_k then 0 else 1)]
        rw [if_neg (by omega)]
        rfl
  | succ m ih =>
    intro s st fuel hst hk hmax
    cases fuel with
    | zero =>
      refine ⟨fun _ => ?_, fun h => absurd h (by omega)⟩
      rw [make_pi_loop]
    | succ fuel =>
      obtain ⟨st1, a, hi, he, hw, hl⟩ := make_pi_loop_step clock time0 max_k fuel st
      rw [hst] at hi hw hl
      have hret : (f_pi_compute_next_term (mpfr_pi_impl.ramanujan_1910 s)).ret = 0 := by
        show (if s.curr_k ≥ s.max_k then (1 : Int) else 0) = 0
        rw [if_neg (by omega)]
      rw [hret, if_neg (by decide)] at hl
      have hi2 : st1.impl = mpfr_pi_impl.ramanujan_1910
          (Ramanujan1910.pi_impl_ramanujan_1910_compute_next_term s).impl := hi
      have hk2 : (Ramanujan1910.pi_impl_ramanujan_1910_compute_next_term s).impl.curr_k =
          s.curr_k + 1 := by
        show ulong_add s.curr_k 1 = s.curr_k + 1
        exact ulong_add_of_lt _ _ (by omega)
      have hm2 : (Ramanujan1910.pi_impl_ramanujan_1910_compute_next_term s).impl.max_k =
          s.max_k := rfl
      obtain ⟨h1, h2⟩ := ih _ st1 fuel hi2 (by rw [hk2, hm2]; omega) (by rw [hm2]; exact hmax)
      rw [hl]
      refine ⟨fun h => h1 (by omega), fun h => ?_⟩
      obtain ⟨st2, hs, himp, hlast, b, hb, hwb⟩ := h2 (by omega)
      rw [Ramanujan1910.calls_shift] at himp
      rw [hm2] at hlast
      rw [hk2, hm2] at hwb
      refine ⟨st2, hs, himp, hlast, a ++ b, ?_, ?_⟩
      · rw [hb, he, List.append_assoc]
      · rw [without_progress_append, hw, hwb, hret, List.singleton_append]
        have e := range_map_shift (fun k => Event.f_pi_compute_next_term k
          (to_long (Ramanujan1910.K_TO_DIGITS k)) (if k < s.max_k then 0 else 1)) s.curr_k
          (m + 1)
        simp only [] at e
        rw [← e, if_pos (by omega)]
        rfl

/-- The loop of `make_pi` on a struct of the incremental variant whose index is `m` below its
`max_k`: within `m` iterations it has not left, and with more it leaves after `m + 1` calls. -/
theorem Ramanujan1910Opt.opt_loop_runs_to_max_k {F : Type} [Field F] (clock : Nat → Nat)
    (time0 max_k : Nat) :
    ∀ (m : Nat) (s : Ramanujan1910Opt.__mpfr_pi_impl F) (st : LoopState F) (fuel : Nat),
      st.impl = mpfr_pi_impl.ramanujan_1910_opt s → s.curr_k + m = s.max_k →
      s.max_k < 2 ^ 64 - 1 →
      (fuel ≤ m → make_pi_loop clock time0 max_k fuel st = none) ∧
      (m < fuel → ∃ st2, make_pi_loop clock time0 max_k fuel st = some st2 ∧
        st2.impl = mpfr_pi_impl.ramanujan_1910_opt (Ramanujan1910Opt.calls (m + 1) s) ∧
        st2.last_k = s.max_k ∧
        ∃ a, st2.events = st.events ++ a ∧
          without_progress a = (List.range (m + 1)).map (fun j =>
            Event.f_pi_compute_next_term (s.curr_k + j)
              (to_long (Ramanujan1910Opt.K_TO_DIGITS (s.curr_k + j)))
              (if s.curr_k + j < s.max_k then 0 else 1))) := by
  intro m
  induction m with
  | zero =>
    intro s st fuel hst hk hmax
    cases fuel with
    | zero =>
      refine ⟨fun _ => ?_, fun h => absurd h (by omega)⟩
      rw [make_pi_loop]
    | succ fuel =>
      refine ⟨fun h => absurd h (by omega), fun _ => ?_⟩
      obtain ⟨st1, a, hi, he, hw, hl⟩ := make_pi_loop_step clock time0 max_k fuel st
      rw [hst] at hi hw hl
      have hret : (f_pi_compute_next_term (mpfr_pi_impl.ramanujan_1910_opt s)).ret = 1 := by
        show (if s.curr_k ≥ s.max_k then (1 : Int) else 0) = 1
        rw [if_pos (by omega)]
      rw [hret, if_pos (by decide)] at hl
      refine ⟨_, hl, hi, ?_, a, he, ?_⟩
      · show s.curr_k = s.max_k
        omega
      · rw [hw, hret]
        show _ = [Event.f_pi_compute_next_term (s.curr_k + 0)
          (to_long (Ramanujan1910Opt.K_TO_DIGITS (s.curr_k + 0)))
          (if s.curr_k + 0 < s.max_k then 0 else 1)]
        rw [if_neg (by omega)]
        rfl
  | succ m ih =>
    intro s st fuel hst hk hmax
    cases fuel with
    | zero =>
      refine ⟨fun _ => ?_, fun h => absurd h (by omega)⟩
      rw [make_pi_loop]
    | succ fuel =>
      obtain ⟨st1, a, hi, he, hw, hl⟩ := make_pi_loop_step clock time0 max_k fuel st
      rw [hst] at hi hw hl
      have hret : (f_pi_compute_next_term (mpfr_pi_impl.ramanujan_1910_opt s)).ret = 0 := by
        show (if s.curr_k ≥ s.max_k then (1 : Int) else 0) = 0
        rw [if_neg (by omega)]
      rw [hret, if_neg (by decide)] at hl
      have hi2 : st1.impl = mpfr_pi_impl.ramanujan_1910_opt
          (Ramanujan1910Opt.pi_impl_ramanujan_1910_opt_compute_next_term s).impl := hi
      have hk2 : (Ramanujan1910Opt.pi_impl_ramanujan_1910_opt_compute_next_term s).impl.curr_k =
          s.curr_k + 1 := by
        show ulong_add s.curr_k 1 = s.curr_k + 1
        exact ulong_add_of_lt _ _ (by omega)
      have hm2 : (Ramanujan1910Opt.pi_impl_ramanujan_1910_opt_compute_next_term s).impl.max_k =
          s.max_k := rfl
      obtain ⟨h1, h2⟩ := ih _ st1 fuel hi2 (by rw [hk2, hm2]; omega) (by rw [hm2]; exact hmax)
      rw [hl]
      refine ⟨fun h => h1 (by omega), fun h => ?_⟩
      obtain ⟨st2, hs, himp, hlast, b, hb, hwb⟩ := h2 (by omega)
      rw [Ramanujan1910Opt.opt_calls_shift] at himp
      rw [hm2] at hlast
      rw [hk2, hm2] at hwb
      refine ⟨st2, hs, himp, hlast, a ++ b, ?_, ?_⟩
      · rw [hb, he, List.append_assoc]
      · rw [without_progress_append, hw, hwb, hret, List.singleton_append]
        have e := range_map_shift (fun k => Event.f_pi_compute_next_term k
          (to_long (Ramanujan1910Opt.K_TO_DIGITS k)) (if k < s.max_k then 0 else 1)) s.curr_k
          (m + 1)
        simp only [] at e
        rw [← e, if_pos (by omega)]
        rfl

/-- C25. For both variants and every struct a successful `initialize` builds, with `max_k` the
bound it reports, the convergence loop of `make_pi` terminates, whatever the clock reads: it has
not left within `max_k` iterations, and given more it leaves after exactly `max_k + 1` calls of
`compute_next_term`. The call number `k` (from `0`) consumes the index `k` and reports
`K_TO_DIGITS (k)`; the calls with `k < max_k` return `0` and the call with `k = max_k` returns
`1`. On exit `last_k = max_k` and the struct is the one `max_k + 1` calls leave, with
`curr_k = max_k + 1`. -/
theorem make_pi_loop_makes_max_k_plus_one_calls (F : Type) [Field F] (sqrt_ui : Nat → F)
    (clock : Nat → Nat) (time0 tss3 readings last_k : Nat) (events : List Event)
    (d : Int) (s : Ramanujan1910.__mpfr_pi_impl F) (mk : Nat)
    (hi : Ramanujan1910.pi_impl_ramanujan_1910_initialize sqrt_ui d = some (s, mk))
    (d' : Int) (s' : Ramanujan1910Opt.__mpfr_pi_impl F) (mk' : Nat)
    (hi' : Ramanujan1910Opt.pi_impl_ramanujan_1910_opt_initialize sqrt_ui d' = some (s', mk')) :
    ((∀ fuel, fuel ≤ mk →
        make_pi_loop clock time0 mk fuel
          { impl := mpfr_pi_impl.ramanujan_1910 s, last_k := last_k, tss3 := tss3,
            readings := readings, events := events } = none) ∧
      ∀ fuel, mk < fuel →
        ∃ st, make_pi_loop clock time0 mk fuel
            { impl := mpfr_pi_impl.ramanujan_1910 s, last_k := last_k, tss3 := tss3,
              readings := readings, events := events } = some st ∧
          st.impl = mpfr_pi_impl.ramanujan_1910 (Ramanujan1910.calls (mk + 1) s) ∧
          (Ramanujan1910.calls (mk + 1) s).curr_k = mk + 1 ∧
          st.last_k = mk ∧
          ∃ a, st.events = events ++ a ∧
            without_progress a = (List.range (mk + 1)).map (fun k =>
              Event.f_pi_compute_next_term k (to_long (Ramanujan1910.K_TO_DIGITS k))
                (if k < mk then 0 else 1))) ∧
    ((∀ fuel, fuel ≤ mk' →
        make_pi_loop clock time0 mk' fuel
          { impl := mpfr_pi_impl.ramanujan_1910_opt s', last_k := last_k, tss3 := tss3,
            readings := readings, events := events } = none) ∧
      ∀ fuel, mk' < fuel →
        ∃ st, make_pi_loop clock time0 mk' fuel
            { impl := mpfr_pi_impl.ramanujan_1910_opt s', last_k := last_k, tss3 := tss3,
              readings := readings, events := events } = some st ∧
          st.impl = mpfr_pi_impl.ramanujan_1910_opt (Ramanujan1910Opt.calls (mk' + 1) s') ∧
          (Ramanujan1910Opt.calls (mk' + 1) s').curr_k = mk' + 1 ∧
          st.last_k = mk' ∧
          ∃ a, st.events = events ++ a ∧
            without_progress a = (List.range (mk' + 1)).map (fun k =>
              Event.f_pi_compute_next_term k (to_long (Ramanujan1910Opt.K_TO_DIGITS k))
                (if k < mk' then 0 else 1))) := by
  constructor
  · obtain ⟨hk, hm, _, _, _, _, hlt, _⟩ := Ramanujan1910.initialize_fresh _ _ _ _ hi
    have hc : (Ramanujan1910.calls (mk + 1) s).curr_k = mk + 1 := by
      rw [Ramanujan1910.calls_curr_k s (by omega), hk]
      omega
    refine ⟨fun fuel hf => ?_, fun fuel hf => ?_⟩
    · exact (Ramanujan1910.loop_runs_to_max_k clock time0 mk mk s
        { impl := mpfr_pi_impl.ramanujan_1910 s, last_k := last_k, tss3 := tss3,
          readings := readings, events := events } fuel rfl (by omega) (by omega)).1 hf
    · obtain ⟨st, h1, h2, h3, a, h4, h5⟩ :=
        (Ramanujan1910.loop_runs_to_max_k clock time0 mk mk s
          { impl := mpfr_pi_impl.ramanujan_1910 s, last_k := last_k, tss3 := tss3,
            readings := readings, events := events } fuel rfl (by omega) (by omega)).2 hf
      rw [hm] at h3
      rw [hk, hm] at h5
      simp only [Nat.zero_add] at h5
      exact ⟨st, h1, h2, hc, h3, a, h4, h5⟩
  · obtain ⟨⟨hk, _⟩, hm, _, _, _, hlt, _⟩ := Ramanujan1910Opt.opt_initialize_fresh _ _ _ _ hi'
    have hc : (Ramanujan1910Opt.calls (mk' + 1) s').curr_k = mk' + 1 := by
      rw [Ramanujan1910Opt.opt_calls_curr_k s' (by omega), hk]
      omega
    refine ⟨fun fuel hf => ?_, fun fuel hf => ?_⟩
    · exact (Ramanujan1910Opt.opt_loop_runs_to_max_k clock time0 mk' mk' s'
        { impl := mpfr_pi_impl.ramanujan_1910_opt s', last_k := last_k, tss3 := tss3,
          readings := readings, events := events } fuel rfl (by omega) (by omega)).1 hf
    · obtain ⟨st, h1, h2, h3, a, h4, h5⟩ :=
        (Ramanujan1910Opt.opt_loop_runs_to_max_k clock time0 mk' mk' s'
          { impl := mpfr_pi_impl.ramanujan_1910_opt s', last_k := last_k, tss3 := tss3,
            readings := readings, events := events } fuel rfl (by omega) (by omega)).2 hf
      rw [hm] at h3
      rw [hk, hm] at h5
      simp only [Nat.zero_add] at h5
      exact ⟨st, h1, h2, hc, h3, a, h4, h5⟩

/-- Witness of C25 at the structs `initialize` builds for `desiredDigits = 50`, over `ℚ`, with
a clock that advances six seconds per reading: the recomputing variant (`max_k = 9`) has not left
the loop within `9` iterations and leaves it at the tenth, the incremental variant
(`max_k = 10`) at the eleventh. -/
theorem make_pi_loop_makes_max_k_plus_one_calls_witness :
    (Ramanujan1910.pi_impl_ramanujan_1910_initialize sqrt_ui_q 50 =
        some (Ramanujan1910.impl_50, 9) ∧
      Ramanujan1910Opt.pi_impl_ramanujan_1910_opt_initialize sqrt_ui_q 50 =
        some (Ramanujan1910Opt.impl_50, 10)) ∧
    (make_pi_loop (fun n => n * 6000000000) 0 9 9
        { impl := mpfr_pi_impl.ramanujan_1910 Ramanujan1910.impl_50, last_k := 0, tss3 := 0,
          readings := 1, events := [] } = none ∧
      ∃ st, make_pi_loop (fun n => n * 6000000000) 0 9 10
          { impl := mpfr_pi_impl.ramanujan_1910 Ramanujan1910.impl_50, last_k := 0, tss3 := 0,
            readings := 1, events := [] } = some st ∧
        st.impl =
          mpfr_pi_impl.ramanujan_1910 (Ramanujan1910.calls (9 + 1) Ramanujan1910.impl_50) ∧
        (Ramanujan1910.calls (9 + 1) Ramanujan1910.impl_50).curr_k = 9 + 1 ∧
        st.last_k = 9 ∧
        ∃ a, st.events = [] ++ a ∧
          without_progress a = (List.range (9 + 1)).map (fun k =>
            Event.f_pi_compute_next_term k (to_long (Ramanujan1910.K_TO_DIGITS k))
              (if k < 9 then 0 else 1))) ∧
    (make_pi_loop (fun n => n * 6000000000) 0 10 10
        { impl := mpfr_pi_impl.ramanujan_1910_opt Ramanujan1910Opt.impl_50, last_k := 0,
          tss3 := 0, readings := 1, events := [] } = none ∧
      ∃ st, make_pi_loop (fun n => n * 6000000000) 0 10 11
          { impl := mpfr_pi_impl.ramanujan_1910_opt Ramanujan1910Opt.impl_50, last_k := 0,
            tss3 := 0, readings := 1, events := [] } = some st ∧
        st.impl =
          mpfr_pi_impl.ramanujan_1910_opt
            (Ramanujan1910Opt.calls (10 + 1) Ramanujan1910Opt.impl_50) ∧
        (Ramanujan1910Opt.calls (10 + 1) Ramanujan1910Opt.impl_50).curr_k = 10 + 1 ∧
        st.last_k = 10 ∧
        ∃ a, st.events = [] ++ a ∧
          without_progress a = (List.range (10 + 1)).map (fun k =>
            Event.f_pi_compute_next_term k (to_long (Ramanujan1910Opt.K_TO_DIGITS k))
              (if k < 10 then 0 else 1))) :=
  have h := make_pi_loop_makes_max_k_plus_one_calls ℚ sqrt_ui_q (fun n => n * 6000000000) 0 0 1 0
    [] 50 Ramanujan1910.impl_50 9 Ramanujan1910.initialize_50 50 Ramanujan1910Opt.impl_50 10
    Ramanujan1910Opt.opt_initialize_50
  ⟨⟨Ramanujan1910.initialize_50, Ramanujan1910Opt.opt_initialize_50⟩,
    ⟨h.1.1 9 (Nat.le_refl 9), h.1.2 10 (by decide)⟩,
    ⟨h.2.1 10 (Nat.le_refl 10), h.2.2 11 (by decide)⟩⟩

/-! ### Rounding toward minus infinity -/

theorem rounds_down_mono {eps eps' : ℚ} {rnd : ℚ → ℚ} (h : RoundsDown eps rnd) (he : eps ≤ eps') :
    RoundsDown eps' rnd := by
  intro x hx
  obtain ⟨h1, h2⟩ := h x hx
  refine ⟨?_, h2⟩
  have : x * (1 - eps') ≤ x * (1 - eps) := by
    apply mul_le_mul_of_nonneg_left _ hx
    linarith
  linarith

section approx

variable {eps : ℚ}

end approx

/-! ### The size of the terms of the series -/

section rounded_recomputing

variable (rnd : ℚ → ℚ)

variable {rnd} {eps : ℚ}

end rounded_recomputing

/-! ### The incremental variant under rounding -/

section rounded_incremental

variable (rnd : ℚ → ℚ)

variable {rnd} {eps : ℚ}

end rounded_incremental

/-! ### The decimal text of a value -/

theorem writeout_pi_some (pi_string : List Char) : ∃ lines, writeout_pi pi_string = some lines := by
  obtain ⟨ls, h1, _⟩ :=
    writeout_pi_loop_lines pi_string (strlen pi_string) 0 [] (Nat.zero_le _) (by omega)
  rw [List.nil_append] at h1
  refine ⟨ls, ?_⟩
  unfold writeout_pi
  simp only [h1, if_true]

/-- What `make_pi` does from `fopen` on, for a struct of the recomputing variant that
`initialize` has built with a bound `max_k >= 2`, when `fopen` succeeds, `digits + 1 > 0` and the
loop is given more than `max_k` iterations: it returns, and the events after the selection are
the `fopen`, the name of the variant, the start line, the `max_k + 1` calls of the variant
(between progress lines), its `get_value`, and the closing events. -/
theorem Ramanujan1910.make_pi_after_select {F : Type} [Field F] (sqrt_ui : Nat → F)
    (render : F → List Char) (fopen_ok : String → Bool) (clock : Nat → Nat) (tss3 fuel : Nat)
    (digits : Int) (algorithm : String) (ev : List Event)
    (s : Ramanujan1910.__mpfr_pi_impl F) (mk : Nat)
    (hsel : make_pi_select sqrt_ui digits algorithm =
      some { events := ev, impl := some (mpfr_pi_impl.ramanujan_1910 s), max_k := mk })
    (hk : s.curr_k = 0) (hm : s.max_k = mk) (h2 : 2 ≤ mk) (hlt : mk < 2 ^ 64 - 1)
    (hd : 0 < digits + 1)
    (hf : fopen_ok (String.take ("FPI_" ++ toString digits ++ "_" ++ algorithm ++ ".txt") 255) =
      true)
    (hfuel : mk < fuel) :
    ∃ loop_events tail,
      make_pi sqrt_ui render fopen_ok clock tss3 fuel digits algorithm =
        Outcome.returned (ev ++
          [Event.fopen (String.take ("FPI_" ++ toString digits ++ "_" ++ algorithm ++ ".txt") 255),
           Event.printf (Printf.algorithm Ramanujan1910.pi_impl_ramanujan_1910_get_name),
           Event.printf (Printf.start (clock 0) (ulong_sub (clock 0) (clock 0)) digits mk)] ++
          loop_events ++
          [Event.f_pi_get_value (Ramanujan1910.pi_impl_ramanujan_1910_get_value
            (Ramanujan1910.calls (mk + 1) s)).digits_out] ++ tail) ∧
      without_progress loop_events = (List.range (mk + 1)).map (fun k =>
        Event.f_pi_compute_next_term k (to_long (Ramanujan1910.K_TO_DIGITS k))
          (if k < mk then 0 else 1)) := by
  obtain ⟨st, hloop, himpl, hlast, a, hev, hwa⟩ :=
    (Ramanujan1910.loop_runs_to_max_k clock (clock 0) mk mk s
      { impl := mpfr_pi_impl.ramanujan_1910 s, last_k := 0, tss3 := tss3, readings := 1,
        events := ev ++ [Event.fopen
            (String.take ("FPI_" ++ toString digits ++ "_" ++ algorithm ++ ".txt") 255),
          Event.printf (Printf.algorithm (f_impl_get_name (mpfr_pi_impl.ramanujan_1910 s)))] ++
          [Event.printf (Printf.start (clock 0) (ulong_sub (clock 0) (clock 0)) digits mk)] }
      fuel rfl (by omega) (by omega)).2 hfuel
  have hck : (Ramanujan1910.calls (mk + 1) s).curr_k = mk + 1 := by
    rw [Ramanujan1910.calls_curr_k s (by omega), hk]
    omega
  have hnn : ¬ ((Ramanujan1910.calls (mk + 1) s).curr_k = 0 ∨
      Ramanujan1910.K_TO_DIGITS (ulong_sub (Ramanujan1910.calls (mk + 1) s).curr_k 1) = 0) := by
    rw [hck, ulong_sub_of_le _ _ (by omega) (by omega), Nat.add_sub_cancel,
      Ramanujan1910.K_TO_DIGITS_eq_zero]
    omega
  have hret := Ramanujan1910.get_value_ret (Ramanujan1910.calls (mk + 1) s)
  rw [if_neg hnn] at hret
  obtain ⟨lines, hw⟩ := writeout_pi_some
    ((render (1 / ((Ramanujan1910.calls (mk + 1) s).cmult *
      (Ramanujan1910.calls (mk + 1) s).term_sum))).take ((digits + 1).toNat - 1))
  rw [hk, hm] at hwa
  simp only [Nat.zero_add] at hwa
  have hg : (f_pi_get_value st.impl).ret =
      some (1 / ((Ramanujan1910.calls (mk + 1) s).cmult *
        (Ramanujan1910.calls (mk + 1) s).term_sum)) := by
    rw [himpl]
    exact hret
  have hgd : (f_pi_get_value st.impl).digits_out =
      (Ramanujan1910.pi_impl_ramanujan_1910_get_value
        (Ramanujan1910.calls (mk + 1) s)).digits_out := by
    rw [himpl]
    rfl
  have hstr : mpfr_t_to_str render (some (1 / ((Ramanujan1910.calls (mk + 1) s).cmult *
        (Ramanujan1910.calls (mk + 1) s).term_sum))) (digits + 1) =
      some ((render (1 / ((Ramanujan1910.calls (mk + 1) s).cmult *
        (Ramanujan1910.calls (mk + 1) s).term_sum))).take ((digits + 1).toNat - 1)) := by
    unfold mpfr_t_to_str
    simp only
    rw [if_pos (by omega)]
  refine ⟨a,
    [Event.printf (Printf.converged (clock (st.readings + 1))
        (ulong_sub (clock st.readings) (clock 0)) st.last_k mk
        (Ramanujan1910.pi_impl_ramanujan_1910_get_value
          (Ramanujan1910.calls (mk + 1) s)).digits_out),
      Event.printf (Printf.finalization (clock (st.readings + 3))
        (ulong_sub (clock (st.readings + 3)) (clock st.readings))),
      Event.writeout_pi
        ((render (1 / ((Ramanujan1910.calls (mk + 1) s).cmult *
          (Ramanujan1910.calls (mk + 1) s).term_sum))).take ((digits + 1).toNat - 1)) lines,
      Event.f_deinitialize,
      Event.printf (Printf.all_done (clock (st.readings + 3))
        (ulong_sub (clock (st.readings + 3)) (clock st.readings))
        (String.take ("FPI_" ++ toString digits ++ "_" ++ algorithm ++ ".txt") 255))], ?_, hwa⟩
  have hname : f_impl_get_name (mpfr_pi_impl.ramanujan_1910 s) =
      Ramanujan1910.pi_impl_ramanujan_1910_get_name := rfl
  unfold make_pi
  simp only [hsel, hf, hloop, hg, hgd, hstr, hw, Bool.true_eq_false, if_false]
  simp only [hev, hname, List.append_assoc, List.cons_append, List.nil_append]

/-- What `make_pi` does from `fopen` on, for a struct of the incremental variant that
`initialize` has built with a bound `max_k >= 3`, when `fopen` succeeds, `digits + 1 > 0` and the
loop is given more than `max_k` iterations: it returns, and the events after the selection are
the `fopen`, the name of the variant, the start line, the `max_k + 1` calls of the variant
(between progress lines), its `get_value`, and the closing events. -/
theorem Ramanujan1910Opt.opt_make_pi_after_select {F : Type} [Field F] (sqrt_ui : Nat → F)
    (render : F → List Char) (fopen_ok : String → Bool) (clock : Nat → Nat) (tss3 fuel : Nat)
    (digits : Int) (algorithm : String) (ev : List Event)
    (s : Ramanujan1910Opt.__mpfr_pi_impl F) (mk : Nat)
    (hsel : make_pi_select sqrt_ui digits algorithm =
      some { events := ev, impl := some (mpfr_pi_impl.ramanujan_1910_opt s), max_k := mk })
    (hk : s.curr_k = 0) (hm : s.max_k = mk) (h2 : 3 ≤ mk) (hlt : mk < 2 ^ 64 - 1)
    (hd : 0 < digits + 1)
    (hf : fopen_ok (String.take ("FPI_" ++ toString digits ++ "_" ++ algorithm ++ ".txt") 255) =
      true)
    (hfuel : mk < fuel) :
    ∃ loop_events tail,
      make_pi sqrt_ui render fopen_ok clock tss3 fuel digits algorithm =
        Outcome.returned (ev ++
          [Event.fopen (String.take ("FPI_" ++ toString digits ++ "_" ++ algorithm ++ ".txt") 255),
           Event.printf (Printf.algorithm Ramanujan1910Opt.pi_impl_ramanujan_1910_opt_get_name),
           Event.printf (Printf.start (clock 0) (ulong_sub (clock 0) (clock 0)) digits mk)] ++
          loop_events ++
          [Event.f_pi_get_value (Ramanujan1910Opt.pi_impl_ramanujan_1910_opt_get_value
            (Ramanujan1910Opt.calls (mk + 1) s)).digits_out] ++ tail) ∧
      without_progress loop_events = (List.range (mk + 1)).map (fun k =>
        Event.f_pi_compute_next_term k (to_long (Ramanujan1910Opt.K_TO_DIGITS k))
          (if k < mk then 0 else 1)) := by
  obtain ⟨st, hloop, himpl, hlast, a, hev, hwa⟩ :=
    (Ramanujan1910Opt.opt_loop_runs_to_max_k clock (clock 0) mk mk s
      { impl := mpfr_pi_impl.ramanujan_1910_opt s, last_k := 0, tss3 := tss3, readings := 1,
        events := ev ++ [Event.fopen
            (String.take ("FPI_" ++ toString digits ++ "_" ++ algorithm ++ ".txt") 255),
          Event.printf (Printf.algorithm (f_impl_get_name (mpfr_pi_impl.ramanujan_1910_opt s)))] ++
          [Event.printf (Printf.start (clock 0) (ulong_sub (clock 0) (clock 0)) digits mk)] }
      fuel rfl (by omega) (by omega)).2 hfuel
  have hck : (Ramanujan1910Opt.calls (mk + 1) s).curr_k = mk + 1 := by
    rw [Ramanujan1910Opt.opt_calls_curr_k s (by omega), hk]
    omega
  have hnn : ¬ ((Ramanujan1910Opt.calls (mk + 1) s).curr_k = 0 ∨
      Ramanujan1910Opt.K_TO_DIGITS (ulong_sub (Ramanujan1910Opt.calls (mk + 1) s).curr_k 1) = 0) := by
    rw [hck, ulong_sub_of_le _ _ (by omega) (by omega), Nat.add_sub_cancel,
      Ramanujan1910Opt.opt_K_TO_DIGITS_eq_zero]
    omega
  have hret := Ramanujan1910Opt.opt_get_value_ret (Ramanujan1910Opt.calls (mk + 1) s)
  rw [if_neg hnn] at hret
  obtain ⟨lines, hw⟩ := writeout_pi_some
    ((render (1 / ((Ramanujan1910Opt.calls (mk + 1) s).cmult *
      (Ramanujan1910Opt.calls (mk + 1) s).term_sum))).take ((digits + 1).toNat - 1))
  rw [hk, hm] at hwa
  simp only [Nat.zero_add] at hwa
  have hg : (f_pi_get_value st.impl).ret =
      some (1 / ((Ramanujan1910Opt.calls (mk + 1) s).cmult *
        (Ramanujan1910Opt.calls (mk + 1) s).term_sum)) := by
    rw [himpl]
    exact hret
  have hgd : (f_pi_get_value st.impl).digits_out =
      (Ramanujan1910Opt.pi_impl_ramanujan_1910_opt_get_value
        (Ramanujan1910Opt.calls (mk + 1) s)).digits_out := by
    rw [himpl]
    rfl
  have hstr : mpfr_t_to_str render (some (1 / ((Ramanujan1910Opt.calls (mk + 1) s).cmult *
        (Ramanujan1910Opt.calls (mk + 1) s).term_sum))) (digits + 1) =
      some ((render (1 / ((Ramanujan1910Opt.calls (mk + 1) s).cmult *
        (Ramanujan1910Opt.calls (mk + 1) s).term_sum))).take ((digits + 1).toNat - 1)) := by
    unfold mpfr_t_to_str
    simp only
    rw [if_pos (by omega)]
  refine ⟨a,
    [Event.printf (Printf.converged (clock (st.readings + 1))
        (ulong_sub (clock st.readings) (clock 0)) st.last_k mk
        (Ramanujan1910Opt.pi_impl_ramanujan_1910_opt_get_value
          (Ramanujan1910Opt.calls (mk + 1) s)).digits_out),
      Event.printf (Printf.finalization (clock (st.readings + 3))
        (ulong_sub (clock (st.readings + 3)) (clock st.readings))),
      Event.writeout_pi
        ((render (1 / ((Ramanujan1910Opt.calls (mk + 1) s).cmult *
          (Ramanujan1910Opt.calls (mk + 1) s).term_sum))).take ((digits + 1).toNat - 1)) lines,
      Event.f_deinitialize,
      Event.printf (Printf.all_done (clock (st.readings + 3))
        (ulong_sub (clock (st.readings + 3)) (clock st.readings))
        (String.take ("FPI_" ++ toString digits ++ "_" ++ algorithm ++ ".txt") 255))], ?_, hwa⟩
  have hname : f_impl_get_name (mpfr_pi_impl.ramanujan_1910_opt s) =
      Ramanujan1910Opt.pi_impl_ramanujan_1910_opt_get_name := rfl
  unfold make_pi
  simp only [hsel, hf, hloop, hg, hgd, hstr, hw, Bool.true_eq_false, if_false]
  simp only [hev, hname, List.append_assoc, List.cons_append, List.nil_append]

/-- C18. `make_pi` selects the recomputing variant exactly when `algorithm` is
`"ramanujan_1910"` and the incremental variant exactly when it is `"ramanujan_1910_opt"`. For
either name the struct is the one the `initialize` of that variant builds and no other
`initialize` runs; `make_pi` aborts when that `initialize` aborts and otherwise goes on with that
variant: for `digits >= 0`, a successful `fopen` and a loop bound above `max_k`, it returns, and
its events are the `initialize` of the variant, the `fopen`, the name of the variant, the start
line with the `max_k` of the variant, the `max_k + 1` calls of `compute_next_term` of the variant
(between progress lines), the `get_value` of the variant and the closing events. For every other
`algorithm` no strategy is initialized and `make_pi` prints the unknown-algorithm line and the
list of the two valid names and leaves through `exit (3)`, with no `fopen`, no
`compute_next_term` and no other effect. -/
theorem make_pi_selects_by_name (F : Type) [Field F] (sqrt_ui : Nat → F)
    (render : F → List Char) (fopen_ok : String → Bool) (clock : Nat → Nat) (tss3 fuel : Nat)
    (digits : Int) (algorithm : String) :
    (algorithm = "ramanujan_1910" →
      make_pi_select sqrt_ui digits algorithm =
        (Ramanujan1910.pi_impl_ramanujan_1910_initialize sqrt_ui digits).map (fun p =>
          { events := [Event.f_initialize "ramanujan_1910" digits]
            impl := some (mpfr_pi_impl.ramanujan_1910 p.1)
            max_k := p.2 })) ∧
    (algorithm = "ramanujan_1910_opt" →
      make_pi_select sqrt_ui digits algorithm =
        (Ramanujan1910Opt.pi_impl_ramanujan_1910_opt_initialize sqrt_ui digits).map (fun p =>
          { events := [Event.f_initialize "ramanujan_1910_opt" digits]
            impl := some (mpfr_pi_impl.ramanujan_1910_opt p.1)
            max_k := p.2 })) ∧
    ((algorithm ≠ "ramanujan_1910" ∧ algorithm ≠ "ramanujan_1910_opt") →
      make_pi_select sqrt_ui digits algorithm = some { events := [], impl := none, max_k := 0 } ∧
      make_pi sqrt_ui render fopen_ok clock tss3 fuel digits algorithm =
        Outcome.exited 3
          [Event.printf (Printf.unknown_algorithm algorithm),
           Event.printf Printf.supported_algorithms,
           Event.printf Printf.supported_ramanujan_1910,
           Event.printf Printf.supported_ramanujan_1910_opt]) ∧
    (algorithm = "ramanujan_1910" →
      (Ramanujan1910.pi_impl_ramanujan_1910_initialize sqrt_ui digits = none →
        make_pi sqrt_ui render fopen_ok clock tss3 fuel digits algorithm = Outcome.aborted) ∧
      ∀ s mk, Ramanujan1910.pi_impl_ramanujan_1910_initialize sqrt_ui digits = some (s, mk) →
        0 ≤ digits →
        fopen_ok (String.take ("FPI_" ++ toString digits ++ "_" ++ algorithm ++ ".txt") 255) =
          true →
        mk < fuel →
        ∃ loop_events tail,
          make_pi sqrt_ui render fopen_ok clock tss3 fuel digits algorithm =
            Outcome.returned ([Event.f_initialize "ramanujan_1910" digits] ++
              [Event.fopen
                (String.take ("FPI_" ++ toString digits ++ "_" ++ algorithm ++ ".txt") 255),
               Event.printf (Printf.algorithm "Ramanujan 1910 Formula"),
               Event.printf (Printf.start (clock 0) (ulong_sub (clock 0) (clock 0)) digits mk)] ++
              loop_events ++
              [Event.f_pi_get_value (Ramanujan1910.pi_impl_ramanujan_1910_get_value
                (Ramanujan1910.calls (mk + 1) s)).digits_out] ++ tail) ∧
          without_progress loop_events = (List.range (mk + 1)).map (fun k =>
            Event.f_pi_compute_next_term k (to_long (Ramanujan1910.K_TO_DIGITS k))
              (if k < mk then 0 else 1))) ∧
    (algorithm = "ramanujan_1910_opt" →
      (Ramanujan1910Opt.pi_impl_ramanujan_1910_opt_initialize sqrt_ui digits = none →
        make_pi sqrt_ui render fopen_ok clock tss3 fuel digits algorithm = Outcome.aborted) ∧
      ∀ s mk,
        Ramanujan1910Opt.pi_impl_ramanujan_1910_opt_initialize sqrt_ui digits = some (s, mk) →
        0 ≤ digits →
        fopen_ok (String.take ("FPI_" ++ toString digits ++ "_" ++ algorithm ++ ".txt") 255) =
          true →
        mk < fuel →
        ∃ loop_events tail,
          make_pi sqrt_ui render fopen_ok clock tss3 fuel digits algorithm =
            Outcome.returned ([Event.f_initialize "ramanujan_1910_opt" digits] ++
              [Event.fopen
                (String.take ("FPI_" ++ toString digits ++ "_" ++ algorithm ++ ".txt") 255),
               Event.printf (Printf.algorithm "Ramanujan 1910 Formula (optimized)"),
               Event.printf (Printf.start (clock 0) (ulong_sub (clock 0) (clock 0)) digits mk)] ++
              loop_events ++
              [Event.f_pi_get_value (Ramanujan1910Opt.pi_impl_ramanujan_1910_opt_get_value
                (Ramanujan1910Opt.calls (mk + 1) s)).digits_out] ++ tail) ∧
          without_progress loop_events = (List.range (mk + 1)).map (fun k =>
            Event.f_pi_compute_next_term k (to_long (Ramanujan1910Opt.K_TO_DIGITS k))
              (if k < mk then 0 else 1))) := by
  have hsel1 : algorithm = "ramanujan_1910" →
      make_pi_select sqrt_ui digits algorithm =
        (Ramanujan1910.pi_impl_ramanujan_1910_initialize sqrt_ui digits).map (fun p =>
          { events := [Event.f_initialize "ramanujan_1910" digits]
            impl := some (mpfr_pi_impl.ramanujan_1910 p.1)
            max_k := p.2 }) := by
    intro h
    subst h
    have hne : ¬ (("ramanujan_1910" : String) = "ramanujan_1910_opt") := by decide
    unfold make_pi_select
    simp only [if_true, if_neg hne]
    cases Ramanujan1910.pi_impl_ramanujan_1910_initialize sqrt_ui digits with
    | none => rfl
    | some p => rfl
  have hsel2 : algorithm = "ramanujan_1910_opt" →
      make_pi_select sqrt_ui digits algorithm =
        (Ramanujan1910Opt.pi_impl_ramanujan_1910_opt_initialize sqrt_ui digits).map (fun p =>
          { events := [Event.f_initialize "ramanujan_1910_opt" digits]
            impl := some (mpfr_pi_impl.ramanujan_1910_opt p.1)
            max_k := p.2 }) := by
    intro h
    subst h
    have hne : ¬ (("ramanujan_1910_opt" : String) = "ramanujan_1910") := by decide
    unfold make_pi_select
    simp only [if_true, if_neg hne]
    cases Ramanujan1910Opt.pi_impl_ramanujan_1910_opt_initialize sqrt_ui digits with
    | none => rfl
    | some p => rfl
  refine ⟨hsel1, hsel2, ?_, ?_, ?_⟩
  · rintro ⟨h1, h2⟩
    have hs : make_pi_select sqrt_ui digits algorithm =
        some { events := [], impl := none, max_k := 0 } := by
      unfold make_pi_select
      simp only [if_neg h1, if_neg h2]
    refine ⟨hs, ?_⟩
    unfold make_pi
    rw [hs]
    rfl
  · intro ha
    refine ⟨fun hnone => ?_, fun s mk hi h0 hf hfuel => ?_⟩
    · have hs := hsel1 ha
      rw [hnone] at hs
      unfold make_pi
      rw [hs]
      rfl
    · have hs := hsel1 ha
      rw [hi] at hs
      obtain ⟨hk, hm, _, _, _, hmk, hlt, _⟩ := Ramanujan1910.initialize_fresh _ _ _ _ hi
      have h2 : 2 ≤ mk := by
        rw [hmk, tdiv_eight_of_nonneg digits h0]
        unfold to_ulong
        omega
      exact Ramanujan1910.make_pi_after_select sqrt_ui render fopen_ok clock tss3 fuel digits
        algorithm _ s mk hs hk hm h2 (by omega) (by omega) hf hfuel
  · intro ha
    refine ⟨fun hnone => ?_, fun s mk hi h0 hf hfuel => ?_⟩
    · have hs := hsel2 ha
      rw [hnone] at hs
      unfold make_pi
      rw [hs]
      rfl
    · have hs := hsel2 ha
      rw [hi] at hs
      obtain ⟨⟨hk, _⟩, hm, _, _, hmk, hlt, _⟩ :=
        Ramanujan1910Opt.opt_initialize_fresh _ _ _ _ hi
      have h2 : 3 ≤ mk := by
        rw [hmk, tdiv_eight_of_nonneg digits h0]
        unfold to_ulong
        omega
      exact Ramanujan1910Opt.opt_make_pi_after_select sqrt_ui render fopen_ok clock tss3 fuel
        digits algorithm _ s mk hs hk hm h2 (by omega) (by omega) hf hfuel

/-- Witness of C18 at `digits = 50` over `ℚ`, with a `fopen` that succeeds and a loop bound of
`100` iterations: under either valid name `make_pi` returns, with the calls of that variant. -/
theorem make_pi_selects_by_name_witness :
    (∃ loop_events tail,
      make_pi sqrt_ui_q (render_q CFG_MPFR_PREC) (fun _ => true) (fun n => n * 6000000000) 0 100
          50 "ramanujan_1910" =
        Outcome.returned ([Event.f_initialize "ramanujan_1910" 50] ++
          [Event.fopen (String.take ("FPI_" ++ toString (50 : Int) ++ "_" ++ "ramanujan_1910" ++
              ".txt") 255),
           Event.printf (Printf.algorithm "Ramanujan 1910 Formula"),
           Event.printf (Printf.start ((fun n => n * 6000000000) 0)
             (ulong_sub ((fun n => n * 6000000000) 0) ((fun n => n * 6000000000) 0)) 50 9)] ++
          loop_events ++
          [Event.f_pi_get_value (Ramanujan1910.pi_impl_ramanujan_1910_get_value
            (Ramanujan1910.calls (9 + 1) Ramanujan1910.impl_50)).digits_out] ++ tail) ∧
      without_progress loop_events = (List.range (9 + 1)).map (fun k =>
        Event.f_pi_compute_next_term k (to_long (Ramanujan1910.K_TO_DIGITS k))
          (if k < 9 then 0 else 1))) ∧
    (∃ loop_events tail,
      make_pi sqrt_ui_q (render_q CFG_MPFR_PREC) (fun _ => true) (fun n => n * 6000000000) 0 100
          50 "ramanujan_1910_opt" =
        Outcome.returned ([Event.f_initialize "ramanujan_1910_opt" 50] ++
          [Event.fopen (String.take ("FPI_" ++ toString (50 : Int) ++ "_" ++
              "ramanujan_1910_opt" ++ ".txt") 255),
           Event.printf (Printf.algorithm "Ramanujan 1910 Formula (optimized)"),
           Event.printf (Printf.start ((fun n => n * 6000000000) 0)
             (ulong_sub ((fun n => n * 6000000000) 0) ((fun n => n * 6000000000) 0)) 50 10)] ++
          loop_events ++
          [Event.f_pi_get_value (Ramanujan1910Opt.pi_impl_ramanujan_1910_opt_get_value
            (Ramanujan1910Opt.calls (10 + 1) Ramanujan1910Opt.impl_50)).digits_out] ++ tail) ∧
      without_progress loop_events = (List.range (10 + 1)).map (fun k =>
        Event.f_pi_compute_next_term k (to_long (Ramanujan1910Opt.K_TO_DIGITS k))
          (if k < 10 then 0 else 1))) :=
  ⟨((make_pi_selects_by_name ℚ sqrt_ui_q (render_q CFG_MPFR_PREC) (fun _ => true)
      (fun n => n * 6000000000) 0 100 50 "ramanujan_1910").2.2.2.1 rfl).2
      Ramanujan1910.impl_50 9 Ramanujan1910.initialize_50 (by decide) rfl (by decide),
    ((make_pi_selects_by_name ℚ sqrt_ui_q (render_q CFG_MPFR_PREC) (fun _ => true)
      (fun n => n * 6000000000) 0 100 50 "ramanujan_1910_opt").2.2.2.2 rfl).2
      Ramanujan1910Opt.impl_50 10 Ramanujan1910Opt.opt_initialize_50 (by decide) rfl
      (by decide)⟩

end PI
